import Mathlib

/-!
# Continuation and time-step control of `MixASolverBase` (mixA_solver.cc)

A shallow embedding of the control logic of `solve_dcop`, `solve_dcsweep`,
`solve_transient`, of the convergence test, and of the circuit coupling helpers
(electrode binding, Jacobian fill, ground node) of
`src/solver/ddm_common/mixA_solver.cc`.

Conventions of the embedding.

* `PetscScalar` / `double` values are exact rationals (`ℚ`); the decimal
  constants of the source (`1.1`, `0.9`, `1e-10`, ...) are the rationals
  they denote.  `int` values are unbounded integers.
* The exception: two double operations decide a discrete outcome and are
  rounded to IEEE-754 binary64 (`binary64_round`): the quotients that are
  converted to the ramp step count (lines 480-481, where the conversion
  `static_cast<int>` also has the 32-bit range of `int`), and the product
  `gmin*1e-2` that drives the gmin loop (line 621).
* A PETSc `Vec` used as a solution vector is an element of a `ℚ`-module `V`
  (`VecAXPY(x,a,y)` is `x + a • y`, `VecScale(x,a)` is `a • x`).
* The nonlinear solve (`SNESSolve` and the convergence reason) is an external
  collaborator: every loop consumes a list of solver results, one per solve.
* `projection_positive_density_check(x, y)` and `diverged_recovery()` live in
  the base solver class; the first is a parameter `clamp`, the result of the
  second is carried by the `diverged` solver result.
* The circuit engine behind `_circuit` is an external collaborator: what a
  function reads of it is a parameter, what it writes is recorded in the
  result (a binding map, a list of calls).
-/

namespace MixASolver

set_option linter.unusedSectionVars false

/-! ## Loops driven by a sequence of external results -/

/-- Result of one execution of a loop body: fall through to the next
iteration, or leave the loop through a C++ break statement. -/
inductive LoopStep (σ : Type) where
  | next (s : σ)
  | brk (s : σ)

/-- How a run of a loop over a finite list of external results ended. -/
inductive LoopEnd where
  /-- the loop condition became false -/
  | completed
  /-- the loop was left through a break statement -/
  | aborted
  /-- the external results were used up while the loop was still running -/
  | running
deriving DecidableEq, Repr

/-- A run of a loop: how it ended, the state it ended in, and for every
executed iteration the state at the head of the iteration together with the
external result consumed by that iteration. -/
structure Run (σ ε : Type) where
  status : LoopEnd
  final : σ
  trace : List (σ × ε)

/-- Semantics of `for (...; cond; ) body` / `while (cond) body`: the condition
is tested before every iteration. -/
def while_loop {σ ε : Type} (cond : σ → Bool) (body : ε → σ → LoopStep σ) :
    List ε → σ → Run σ ε
  | [], s => if cond s then ⟨LoopEnd.running, s, []⟩ else ⟨LoopEnd.completed, s, []⟩
  | e :: es, s =>
    if cond s then
      match body e s with
      | LoopStep.brk s' => ⟨LoopEnd.aborted, s', [(s, e)]⟩
      | LoopStep.next s' =>
        let r := while_loop cond body es s'
        ⟨r.status, r.final, (s, e) :: r.trace⟩
    else ⟨LoopEnd.completed, s, []⟩

/-- Semantics of `do body while (cond)`: the body runs first, the condition
is tested after every iteration that did not break. -/
def do_while_loop {σ ε : Type} (cond : σ → Bool) (body : ε → σ → LoopStep σ) :
    List ε → σ → Run σ ε
  | [], s => ⟨LoopEnd.running, s, []⟩
  | e :: es, s =>
    match body e s with
    | LoopStep.brk s' => ⟨LoopEnd.aborted, s', [(s, e)]⟩
    | LoopStep.next s' =>
      if cond s' then
        let r := do_while_loop cond body es s'
        ⟨r.status, r.final, (s, e) :: r.trace⟩
      else ⟨LoopEnd.completed, s', [(s, e)]⟩

/-- Outcome of one nonlinear solve as seen by the DC controllers
(`reason > 0` or not).  `converged x` : the solver converged and left `x` in the
solution vector.  `diverged xfail xrec` : the solver failed leaving `xfail`;
`xrec` is the content of the solution vector after `diverged_recovery()`. -/
inductive SolveResult (V : Type) where
  | converged (x : V)
  | diverged (xfail : V) (xrec : V)

/-- The test `reason > 0`. -/
def SolveResult.isConverged {V : Type} : SolveResult V → Bool
  | SolveResult.converged _ => true
  | SolveResult.diverged _ _ => false

/-- Number of failed solves at the end of a history of solver results, i.e.
the number of consecutive failures since the last converged solve. -/
def trailing_divergences {V : Type} (es : List (SolveResult V)) : Nat :=
  (es.reverse.takeWhile (fun r => !r.isConverged)).length

/-- The C library function `fabs`. -/
def fabs (q : ℚ) : ℚ := if q < 0 then -q else q

/-! ## Projection of the solution (lines 582-606, 829-853, 1267-1295) -/

section Projection
variable {V : Type} [AddCommGroup V] [Module ℚ V]

/-- Coefficient `cn` of the quadratic projection of the DC controllers. -/
def proj_cn (hn hn1 hn2 : ℚ) : ℚ := hn * (hn + 2 * hn1 + hn2) / (hn1 * (hn1 + hn2))

/-- Coefficient `cn1` of the quadratic projection. -/
def proj_cn1 (hn hn1 hn2 : ℚ) : ℚ := -hn * (hn + hn1 + hn2) / (hn1 * hn2)

/-- Coefficient `cn2` of the quadratic projection. -/
def proj_cn2 (hn hn1 hn2 : ℚ) : ℚ := hn * (hn + hn1) / (hn2 * (hn1 + hn2))

/-- Quadratic projection of the DC controllers before density clamping:
three `VecAXPY` calls on the current vector `x`. -/
def dc_quadratic_projection (hn hn1 hn2 : ℚ) (x xs1 xs2 xs3 : V) : V :=
  x + proj_cn hn hn1 hn2 • xs1 + proj_cn1 hn hn1 hn2 • xs2 + proj_cn2 hn hn1 hn2 • xs3

/-- Linear projection of the DC controllers before density clamping. -/
def dc_linear_projection (hn hn1 : ℚ) (x xs1 xs2 : V) : V :=
  x + (hn / hn1) • xs1 + (-hn / hn1) • xs2

/-- The block `if (SolverSpecify::Predict) { ... }` closing an iteration of the
DC loops: `p` is the continuation value about to be attempted (as the source
computes it), `cycles` is `DC_Cycles`. -/
def dc_predict (Predict : Bool) (clamp : V → V → V) (cycles : Int) (p Vs1 Vs2 Vs3 : ℚ)
    (x xs1 xs2 xs3 : V) : V :=
  if Predict then
    let hn := p - Vs1
    let hn1 := Vs1 - Vs2
    let hn2 := Vs2 - Vs3
    if cycles ≥ 3 then clamp (dc_quadratic_projection hn hn1 hn2 x xs1 xs2 xs3) xs1
    else if cycles ≥ 2 then clamp (dc_linear_projection hn hn1 x xs1 xs2) xs1
    else x
  else x

end Projection

/-! ## IEEE-754 binary64 rounding -/

/-- Rounding to the nearest integer, a tie going to the even neighbour. -/
def round_half_even (x : ℚ) : Int :=
  if x - ⌊x⌋ < 1 / 2 then ⌊x⌋
  else if 1 / 2 < x - ⌊x⌋ then ⌊x⌋ + 1
  else if ⌊x⌋ % 2 = 0 then ⌊x⌋ else ⌊x⌋ + 1

/-- Binary exponent of the spacing of the binary64 grid at the magnitude `a`: 52 below the
binary exponent of `a`, where the binary exponent is not taken below -1022 (the subnormal
range has the spacing `2^-1074`). -/
def binary64_ulp_exponent (a : ℚ) : Int := max (Int.log 2 a) (-1022) - 52

/-- The double nearest to the real value `q` (round to nearest, ties to even): the result of
a double operation whose exact result is `q`.  Magnitudes beyond the largest finite double
are rounded on the same grid instead of becoming infinite. -/
def binary64_round (q : ℚ) : ℚ :=
  (round_half_even (q / 2 ^ binary64_ulp_exponent |q|) : ℚ) * 2 ^ binary64_ulp_exponent |q|

/-- The double division `a / b`: the rounded quotient, and `none` for a zero divisor (the
result is then an infinity or a NaN). -/
def double_div (a b : ℚ) : Option ℚ := if b = 0 then none else some (binary64_round (a / b))

/-! ## `solve_dcop`: number of ramp steps (lines 454-486) -/

/-- The conversion `static_cast<int>(double)` to the 32-bit `int`: truncation toward zero
when the truncated value lies in the range of `int`.  For any other operand (out of range,
infinity, NaN) C++ leaves the conversion undefined; the x86-64 conversion instruction then
returns `INT_MIN`, which is the value taken here. -/
def static_cast_int (d : Option ℚ) : Int :=
  match d with
  | none => -2147483648
  | some q =>
    if -2147483648 ≤ (if 0 ≤ q then ⌊q⌋ else ⌈q⌉) ∧ (if 0 ≤ q then ⌊q⌋ else ⌈q⌉) ≤ 2147483647
    then (if 0 ≤ q then ⌊q⌋ else ⌈q⌉) else -2147483648

/-- The loops of lines 463-478: running maximum of `std::abs` of the DC values,
starting from 0. -/
def absmax_loop (dcs : List ℚ) : ℚ :=
  dcs.foldl (fun m v => if |v| > m then |v| else m) 0

/-- The value of `rampup_steps` that is broadcast from the owning process
(lines 480-486). -/
def rampup_steps_init (vdc idc : List ℚ) (RampUpVStep RampUpIStep : ℚ) (RampUpSteps : Int) : Int :=
  max (max (static_cast_int (double_div (absmax_loop vdc) RampUpVStep))
           (static_cast_int (double_div (absmax_loop idc) RampUpIStep))) RampUpSteps

/-- Specification wording: the largest absolute DC value over all sources,
0 when there are none. -/
def spec_peak_magnitude (dcs : List ℚ) : ℚ := (dcs.map (fun v => |v|)).foldr max 0

/-! ## `solve_dcop`: the ramp loop (lines 497-607) -/

/-- Variables of the ramp loop of `solve_dcop`. -/
structure RampState (V : Type) where
  step : Int
  rampup_steps : Int
  retry : Int
  DC_Cycles : Int
  x : V
  xs1 : V
  xs2 : V
  xs3 : V
  Vs1 : ℚ
  Vs2 : ℚ
  Vs3 : ℚ

section Ramp
variable {V : Type} [AddCommGroup V] [Module ℚ V]

/-- The ramp fraction `double(step)/rampup_steps` of an iteration. -/
def ramp_fraction (s : RampState V) : ℚ := (s.step : ℚ) / (s.rampup_steps : ℚ)

/-- The value `it->second*step/rampup_steps` handed to a source whose DC value
is `dc` (lines 510 and 513). -/
def ramp_source_value (dc : ℚ) (s : RampState V) : ℚ := dc * (s.step : ℚ) / (s.rampup_steps : ℚ)

/-- State at entry of the ramp loop: `step = 1`, `retry = 0`, `DC_Cycles = 0`
and the broadcast step count `N`; the solution vector and the (not yet
initialised) projection storage are taken from `g`. -/
def dcop_ramp_start (N : Int) (g : RampState V) : RampState V :=
  { g with step := 1, rampup_steps := N, retry := 0, DC_Cycles := 0 }

/-- The loop condition `step <= rampup_steps`. -/
def dcop_ramp_cond (s : RampState V) : Bool := decide (s.step ≤ s.rampup_steps)

/-- Lines 528-580: the branch on the convergence reason. -/
def dcop_ramp_verdict (Predict : Bool) (ev : SolveResult V) (s : RampState V) :
    LoopStep (RampState V) :=
  match ev with
  | SolveResult.converged x1 =>
    let s1 : RampState V :=
      if Predict then
        { s with x := x1, xs3 := s.xs2, Vs3 := s.Vs2, xs2 := s.xs1, Vs2 := s.Vs1,
                 xs1 := x1, Vs1 := (s.step : ℚ) / (s.rampup_steps : ℚ) }
      else { s with x := x1 }
    LoopStep.next { s1 with DC_Cycles := s1.DC_Cycles + 1 }
  | SolveResult.diverged xfail xrec =>
    if s.DC_Cycles = 0 then LoopStep.brk { s with x := xfail }
    else if s.retry ≥ 3 then LoopStep.brk { s with x := xfail, retry := s.retry + 1 }
    else
      LoopStep.next { s with x := xrec, retry := s.retry + 1,
                             step := s.step * 2 - 2, rampup_steps := s.rampup_steps * 2 }

/-- Lines 582-606 followed by the increment `++step` of the for statement. -/
def dcop_ramp_finish (Predict : Bool) (clamp : V → V → V) (s : RampState V) : RampState V :=
  { s with
    x := dc_predict Predict clamp s.DC_Cycles ((s.step : ℚ) / (s.rampup_steps : ℚ))
           s.Vs1 s.Vs2 s.Vs3 s.x s.xs1 s.xs2 s.xs3,
    step := s.step + 1 }

/-- One iteration of the ramp loop, including the increment of the for
statement. -/
def dcop_ramp_body (Predict : Bool) (clamp : V → V → V) (ev : SolveResult V)
    (s : RampState V) : LoopStep (RampState V) :=
  match dcop_ramp_verdict Predict ev s with
  | LoopStep.brk s1 => LoopStep.brk s1
  | LoopStep.next s1 => LoopStep.next (dcop_ramp_finish Predict clamp s1)

/-- The ramp loop of `solve_dcop` run on the solver results `evs`. -/
def dcop_ramp (Predict : Bool) (clamp : V → V → V) (N : Int) (g : RampState V)
    (evs : List (SolveResult V)) : Run (RampState V) (SolveResult V) :=
  while_loop dcop_ramp_cond (dcop_ramp_body Predict clamp) evs (dcop_ramp_start N g)

/-- The ramp fractions applied to the sources, one per executed iteration. -/
def ramp_fractions (r : Run (RampState V) (SolveResult V)) : List ℚ :=
  r.trace.map (fun a => ramp_fraction a.1)

/-- The ramp fractions of the accepted iterations. -/
def accepted_ramp_fractions (r : Run (RampState V) (SolveResult V)) : List ℚ :=
  (r.trace.filter (fun a => a.2.isConverged)).map (fun a => ramp_fraction a.1)

end Ramp

/-! ## `solve_dcsweep`: the voltage sweep loop (lines 716-854)

The current sweep (lines 873-1008) is the same loop with `Iscan`, `IStep`, `IStart`, `IStop`,
`IStepMax`, `Is1..Is3` and `I_retry` in place of the voltage variables. -/

/-- The configured sweep: `SolverSpecify::VStart`, `VStep`, `VStop`, `VStepMax`, `Predict`. -/
structure SweepConfig where
  VStart : ℚ
  VStep : ℚ
  VStop : ℚ
  VStepMax : ℚ
  Predict : Bool

/-- Variables of the voltage sweep loop.  `VStep` is the local, growing step; `V_retry` is
the `std::stack`, its top being the head of the list. -/
structure SweepState (V : Type) where
  Vscan : ℚ
  VStep : ℚ
  DC_Cycles : Int
  V_retry : List ℚ
  x : V
  xs1 : V
  xs2 : V
  xs3 : V
  Vs1 : ℚ
  Vs2 : ℚ
  Vs3 : ℚ

section Sweep
variable {V : Type} [AddCommGroup V] [Module ℚ V]

/-- State at entry of the sweep loop.  `Vs1`, `Vs2`, `Vs3` are declared without initialiser and
`xs1..xs3` are only duplicated from `x`: their initial contents are whatever `g` holds. -/
def dcsweep_start (cfg : SweepConfig) (g : SweepState V) : SweepState V :=
  { g with Vscan := cfg.VStart, VStep := cfg.VStep, DC_Cycles := 0, V_retry := [] }

/-- The loop condition
`Vscan*SolverSpecify::VStep < SolverSpecify::VStop*SolverSpecify::VStep*(1.0+1e-7)`. -/
def dcsweep_cond (cfg : SweepConfig) (s : SweepState V) : Bool :=
  decide (s.Vscan * cfg.VStep < cfg.VStop * cfg.VStep * (1 + 1 / 10 ^ 7))

/-- Lines 772-796: the next sweep value and step after an accepted point. -/
def dcsweep_advance (cfg : SweepConfig) (s : SweepState V) : SweepState V :=
  let v1 : ℚ :=
    match s.V_retry with
    | [] => s.Vscan + s.VStep
    | top :: _ => top
  let v2 : ℚ := if fabs (v1 - cfg.VStop) < 1 / 10 ^ 10 then cfg.VStop else v1
  let step : ℚ := if fabs s.VStep < fabs cfg.VStepMax then s.VStep * (11 / 10) else s.VStep
  let v3 : ℚ :=
    if v2 * cfg.VStep > cfg.VStop * cfg.VStep ∧
        v2 * cfg.VStep < (cfg.VStop + step - 1 / 10 ^ 10 * step) * cfg.VStep then cfg.VStop
    else v2
  { s with Vscan := v3, VStep := step, V_retry := s.V_retry.tail }

/-- Lines 751-827: the branch on the convergence reason. -/
def dcsweep_verdict (cfg : SweepConfig) (ev : SolveResult V) (s : SweepState V) :
    LoopStep (SweepState V) :=
  match ev with
  | SolveResult.converged x1 =>
    let s0 : SweepState V := { s with x := x1, DC_Cycles := s.DC_Cycles + 1 }
    let s1 : SweepState V :=
      if cfg.Predict then
        { s0 with xs3 := s0.xs2, Vs3 := s0.Vs2, xs2 := s0.xs1, Vs2 := s0.Vs1,
                  xs1 := x1, Vs1 := s0.Vscan }
      else s0
    LoopStep.next (dcsweep_advance cfg s1)
  | SolveResult.diverged xfail xrec =>
    if s.DC_Cycles = 0 then LoopStep.brk { s with x := xfail }
    else if s.V_retry.length ≥ 8 then LoopStep.brk { s with x := xfail }
    else
      LoopStep.next { s with x := xrec, V_retry := s.Vscan :: s.V_retry,
                             Vscan := (s.Vscan + s.Vs1) / 2 }

/-- Lines 829-853: the projection block closing an iteration. -/
def dcsweep_finish (cfg : SweepConfig) (clamp : V → V → V) (s : SweepState V) : SweepState V :=
  { s with
    x := dc_predict cfg.Predict clamp s.DC_Cycles s.Vscan s.Vs1 s.Vs2 s.Vs3
           s.x s.xs1 s.xs2 s.xs3 }

/-- One iteration of the sweep loop. -/
def dcsweep_body (cfg : SweepConfig) (clamp : V → V → V) (ev : SolveResult V)
    (s : SweepState V) : LoopStep (SweepState V) :=
  match dcsweep_verdict cfg ev s with
  | LoopStep.brk s1 => LoopStep.brk s1
  | LoopStep.next s1 => LoopStep.next (dcsweep_finish cfg clamp s1)

/-- The voltage sweep loop of `solve_dcsweep` run on the solver results `evs`. -/
def dcsweep (cfg : SweepConfig) (clamp : V → V → V) (g : SweepState V)
    (evs : List (SolveResult V)) : Run (SweepState V) (SolveResult V) :=
  while_loop (dcsweep_cond cfg) (dcsweep_body cfg clamp) evs (dcsweep_start cfg g)

/-- The sweep values at which a solve was attempted, in order. -/
def solved_values (r : Run (SweepState V) (SolveResult V)) : List ℚ :=
  r.trace.map (fun a => a.1.Vscan)

end Sweep

/-! ## `solve_transient`: the time-step loop (lines 1058-1298) -/

/-- The two values of `SolverSpecify::TS_type` the solver distinguishes. -/
inductive TSType where
  | BDF1
  | BDF2
deriving DecidableEq, Repr

/-- The configured transient run. -/
structure TranConfig where
  TStart : ℚ
  TStop : ℚ
  TStep : ℚ
  TStepMax : ℚ
  AutoStep : Bool
  Predict : Bool
  TS_type : TSType

/-- Outcome of one nonlinear solve as seen by `solve_transient` (`reason < 0` or not).
`converged x r` : the solver left `x`; `r` is the value of the local variable `r` after lines
1157-1162 (the LTE norm raised to -1/2 or -1/3), read only when LTE control is active.
`diverged xfail xrec` : as for the DC controllers. -/
inductive TranResult (V : Type) where
  | converged (x : V) (r : ℚ)
  | diverged (xfail : V) (xrec : V)

/-- The test `reason >= 0`. -/
def TranResult.isConverged {V : Type} : TranResult V → Bool
  | TranResult.converged _ _ => true
  | TranResult.diverged _ _ => false

/-- Number of consecutive failed solves at the end of a history of transient solves. -/
def trailing_tran_divergences {V : Type} (es : List (TranResult V)) : Nat :=
  (es.reverse.takeWhile (fun r => !r.isConverged)).length

/-- Variables of the transient loop. -/
structure TranState (V : Type) where
  clock : ℚ
  dt : ℚ
  dt_last : ℚ
  dt_last_last : ℚ
  T_Cycles : Int
  diverged_retry : Int
  BDF2_restart : Bool
  x : V
  x_n : V
  x_n1 : V
  x_n2 : V

section Transient
variable {V : Type} [AddCommGroup V] [Module ℚ V]

/-- State at entry of the do-while loop (lines 1026, 1055-1069); the history vectors, the
previous step sizes and the solution vector are whatever `g` holds. -/
def tran_start (cfg : TranConfig) (g : TranState V) : TranState V :=
  { g with
    diverged_retry := 0,
    BDF2_restart := if cfg.TS_type = TSType.BDF2 then true else g.BDF2_restart,
    dt := cfg.TStep / 10,
    clock := cfg.TStart,
    T_Cycles := 0 }

/-- The guard of the LTE block (lines 1153-1155). -/
def lte_active (cfg : TranConfig) (s : TranState V) : Bool :=
  cfg.AutoStep &&
    ((decide (cfg.TS_type = TSType.BDF1) && decide (s.T_Cycles ≥ 3)) ||
     (decide (cfg.TS_type = TSType.BDF2) && decide (s.T_Cycles ≥ 4)))

/-- Lines 1193-1206: the next step size after an LTE-accepted step. -/
def lte_next_dt (TStepMax r dt : ℚ) : ℚ :=
  let dt1 : ℚ :=
    if r > 10 then dt * 2
    else if r > 3 then dt * (3 / 2)
    else if r > 13 / 10 then dt * (11 / 10)
    else if r > 1 then dt * 1
    else dt * (9 / 10)
  if dt1 > TStepMax then TStepMax else dt1

/-- The BDF1 predictor of lines 1276-1279 before density clamping: `VecZeroEntries` followed
by two `VecAXPY`. -/
def tran_linear_predictor (hn hn1 : ℚ) (x_n x_n1 : V) : V :=
  (0 : V) + (1 + hn / hn1) • x_n + (-hn / hn1) • x_n1

/-- The BDF2 predictor of lines 1284-1292 before density clamping: `VecZeroEntries` followed
by three `VecAXPY` with `cn`, `cn1`, `cn2`. -/
def tran_quadratic_predictor (hn hn1 hn2 : ℚ) (x_n x_n1 x_n2 : V) : V :=
  (0 : V) + (1 + hn * (hn + 2 * hn1 + hn2) / (hn1 * (hn1 + hn2))) • x_n
    + (-hn * (hn + hn1 + hn2) / (hn1 * hn2)) • x_n1
    + (hn * (hn + hn1) / (hn2 * (hn1 + hn2))) • x_n2

/-- Lines 1267-1295 (label `Predict`): the predictor for the next solve; `hn` is the next
step `dt`, `hn1` and `hn2` are `dt_last` and `dt_last_last`. -/
def tran_predict (cfg : TranConfig) (clamp : V → V → V) (s : TranState V) : TranState V :=
  if cfg.Predict then
    if cfg.TS_type = TSType.BDF1 ∧ s.T_Cycles ≥ 3 then
      { s with x := clamp (tran_linear_predictor s.dt s.dt_last s.x_n s.x_n1) s.x_n }
    else if cfg.TS_type = TSType.BDF2 ∧ s.T_Cycles ≥ 4 then
      { s with
        x := clamp (tran_quadratic_predictor s.dt s.dt_last s.dt_last_last s.x_n s.x_n1 s.x_n2)
               s.x_n }
    else s
  else s

/-- Lines 1164-1186: an LTE rejection (before the jump to `Predict`). -/
def tran_lte_reject (clamp : V → V → V) (r : ℚ) (s : TranState V) : TranState V :=
  let clock1 := s.clock - s.dt
  let hn := s.dt
  let dt := s.dt * (9 / 10 * r)
  let hn_new := dt
  { s with
    clock := clock1 + dt,
    dt := dt,
    x := clamp ((hn_new / hn) • s.x + (1 - hn_new / hn) • s.x_n) s.x_n }

/-- Lines 1152-1218: the step-size control after a converged solve.  The Boolean tells
whether the step is accepted (`true`) or LTE-rejected (`false`, the path that jumps to
`Predict`). -/
def tran_step_control (cfg : TranConfig) (clamp : V → V → V) (r : ℚ) (s : TranState V) :
    Bool × TranState V :=
  if lte_active cfg s then
    if r < 9 / 10 then (false, tran_lte_reject clamp r s)
    else
      (true, { s with dt_last_last := s.dt_last, dt_last := s.dt,
                      dt := lte_next_dt cfg.TStepMax r s.dt })
  else
    (true, { s with dt_last_last := s.dt_last, dt_last := s.dt,
                    dt := if fabs s.dt < fabs cfg.TStep then s.dt * (11 / 10) else s.dt })

/-- Lines 1226-1263: bookkeeping of an accepted step. -/
def tran_accept (cfg : TranConfig) (s : TranState V) : TranState V :=
  let clock1 := s.clock + s.dt
  let snap : Bool :=
    decide (clock1 > cfg.TStop ∧ clock1 < cfg.TStop + s.dt - 1 / 10 ^ 10 * s.dt)
  let keep : Bool := cfg.AutoStep || cfg.Predict
  { s with
    T_Cycles := s.T_Cycles + 1,
    dt := if snap then s.dt - (clock1 - cfg.TStop) else s.dt,
    clock := if snap then cfg.TStop else clock1,
    BDF2_restart := if cfg.TS_type = TSType.BDF2 then false else s.BDF2_restart,
    x_n2 := if keep then s.x_n1 else s.x_n2,
    x_n1 := if keep then s.x_n else s.x_n1,
    x_n := if keep then s.x else s.x_n }

/-- One execution of the body of the do-while loop (lines 1086-1296). -/
def tran_body (cfg : TranConfig) (clamp : V → V → V) (ev : TranResult V) (s : TranState V) :
    LoopStep (TranState V) :=
  match ev with
  | TranResult.diverged xfail xrec =>
    let retry := s.diverged_retry + 1
    if retry ≥ 8 then LoopStep.brk { s with x := xfail, diverged_retry := retry }
    else
      let dt := s.dt / 2
      let clock1 := s.clock - dt
      LoopStep.next { s with
        diverged_retry := retry,
        dt := dt,
        clock := if clock1 < cfg.TStart then cfg.TStart else clock1,
        x := xrec }
  | TranResult.converged x1 r =>
    let s0 : TranState V := { s with x := x1, diverged_retry := 0 }
    let c := tran_step_control cfg clamp r s0
    if c.1 then LoopStep.next (tran_predict cfg clamp (tran_accept cfg c.2))
    else LoopStep.next (tran_predict cfg clamp c.2)

/-- The loop condition `clock < TStop + 0.5*dt`. -/
def tran_cond (cfg : TranConfig) (s : TranState V) : Bool :=
  decide (s.clock < cfg.TStop + 1 / 2 * s.dt)

/-- The main loop of `solve_transient` run on the solver results `evs`. -/
def solve_transient_loop (cfg : TranConfig) (clamp : V → V → V) (g : TranState V)
    (evs : List (TranResult V)) : Run (TranState V) (TranResult V) :=
  do_while_loop (tran_cond cfg) (tran_body cfg clamp) evs (tran_start cfg g)

end Transient

/-! ## Ground node of the circuit (lines 349-372) -/

/-- The PETSc insert modes the source distinguishes. -/
inductive InsertMode where
  | NOT_SET_VALUES
  | INSERT_VALUES
  | ADD_VALUES
deriving DecidableEq, Repr

/-- Modelled from the spec: the global residual vector (a PETSc `Vec`, whose implementation is
not part of the source file).  `vals` are the assembled entries by global dof index; `stash`
holds `ADD_VALUES` contributions that have been set but are not yet assembled. -/
structure ResidualVec where
  vals : Int → ℚ
  stash : List (Int × ℚ)

/-- Modelled from the spec: `VecAssemblyBegin` / `VecAssemblyEnd`, which add every stashed
contribution to its entry and empty the stash. -/
def VecAssembly (f : ResidualVec) : ResidualVec :=
  ⟨fun i => f.vals i + ((f.stash.filter (fun p => decide (p.1 = i))).map (fun p => p.2)).sum, []⟩

/-- The entries of a residual vector once everything set so far is assembled. -/
def ResidualVec.assembled (f : ResidualVec) (i : Int) : ℚ := (VecAssembly f).vals i

/-- Modelled from the spec: `VecSetValue(f, i, v, INSERT_VALUES)` on the process owning entry
`i` (a direct insertion into the residual). -/
def VecSetValue_insert (f : ResidualVec) (i : Int) (v : ℚ) : ResidualVec :=
  ⟨Function.update f.vals i v, f.stash⟩

/-- The function `ground_spice_0_node(Vec f, InsertMode &add_value_flag)`; `rhs_old_0` is
`_circuit->rhs_old(0)` and `global_offset_0` is `_circuit->global_offset(0)`. -/
def ground_spice_0_node (is_last_processor : Bool) (rhs_old_0 : ℚ) (global_offset_0 : Int)
    (f : ResidualVec) (add_value_flag : InsertMode) : ResidualVec × InsertMode :=
  let f1 : ResidualVec :=
    if add_value_flag ≠ InsertMode.INSERT_VALUES ∧ add_value_flag ≠ InsertMode.NOT_SET_VALUES
    then VecAssembly f else f
  let f2 : ResidualVec :=
    if is_last_processor then VecSetValue_insert f1 global_offset_0 rhs_old_0 else f1
  (f2, InsertMode.INSERT_VALUES)

/-- Modelled from the spec: `PetscUtils::MatZeroRows(jac, n, rows, diag)` (declared in
petsc_utils.h, not part of the source file): zero the listed rows and set their diagonal entries
to `diag`. -/
def MatZeroRows (jac : Int → Int → ℚ) (rows : List Int) (diag : ℚ) : Int → Int → ℚ :=
  fun i j => if i ∈ rows then (if j = i then diag else 0) else jac i j

/-- The function `ground_spice_0_node(Mat *jac)`. -/
def ground_spice_0_node_jac (global_offset_0 : Int) (jac : Int → Int → ℚ) : Int → Int → ℚ :=
  MatZeroRows jac [global_offset_0] 1

/-! ## `petsc_snes_convergence_test` (lines 1317-1449) -/

/-- A `double` that may be NaN: `none` is NaN, `some q` the number `q`.  (Infinities are not
represented; a division by zero yields NaN, which fails every ordered comparison just as an
infinite quotient fails `<=` against a finite tolerance.) -/
abbrev Dbl := Option ℚ

/-- The comparison `a < b` of doubles: false when an operand is NaN. -/
def dbl_lt (a b : Dbl) : Bool :=
  match a, b with
  | some x, some y => decide (x < y)
  | _, _ => false

/-- The comparison `a <= b` of doubles: false when an operand is NaN. -/
def dbl_le (a b : Dbl) : Bool :=
  match a, b with
  | some x, some y => decide (x ≤ y)
  | _, _ => false

/-- The comparison `a != b` of doubles: true when an operand is NaN. -/
def dbl_ne (a b : Dbl) : Bool :=
  match a, b with
  | some x, some y => decide (x ≠ y)
  | _, _ => true

/-- Subtraction of doubles. -/
def dbl_sub (a b : Dbl) : Dbl :=
  match a, b with
  | some x, some y => some (x - y)
  | _, _ => none

/-- Multiplication of doubles. -/
def dbl_mul (a b : Dbl) : Dbl :=
  match a, b with
  | some x, some y => some (x * y)
  | _, _ => none

/-- The function `std::abs` on doubles. -/
def dbl_abs (a : Dbl) : Dbl :=
  match a with
  | some x => some (fabs x)
  | none => none

/-- Division of doubles. -/
def dbl_div (a b : Dbl) : Dbl :=
  match a, b with
  | some x, some y => if y = 0 then none else some (x / y)
  | _, _ => none

/-- The values of `SNESConvergedReason` the test assigns. -/
inductive SNESConvergedReason where
  | SNES_CONVERGED_ITERATING
  | SNES_CONVERGED_FNORM_ABS
  | SNES_CONVERGED_FNORM_RELATIVE
  | SNES_CONVERGED_PNORM_RELATIVE
  | SNES_DIVERGED_FNORM_NAN
  | SNES_DIVERGED_FUNCTION_COUNT
deriving DecidableEq, Repr

/-- The per-group residual norms left by `error_norm()`. -/
structure GroupNorms where
  poisson_norm : Dbl
  elec_continuity_norm : Dbl
  hole_continuity_norm : Dbl
  electrode_norm : Dbl
  heat_equation_norm : Dbl
  elec_energy_equation_norm : Dbl
  hole_energy_equation_norm : Dbl

/-- The tolerances of `SolverSpecify` read by the test. -/
structure Tolerances where
  toler_relax : ℚ
  poisson_abs_toler : ℚ
  elec_continuity_abs_toler : ℚ
  hole_continuity_abs_toler : ℚ
  electrode_abs_toler : ℚ
  heat_equation_abs_toler : ℚ
  elec_energy_abs_toler : ℚ
  hole_energy_abs_toler : ℚ
  relative_toler : ℚ

/-- The fields of the `snes` object read or written by the test. -/
structure SnesFields where
  abstol : ℚ
  rtol : ℚ
  nfuncs : Int
  max_funcs : Int
  ttol : Dbl

/-- The members `function_norm` and `nonlinear_iteration` of the solver. -/
structure ConvRecord where
  function_norm : Dbl
  nonlinear_iteration : Int

/-- The condition of lines 1390-1396: every group norm below its absolute tolerance. -/
def all_abs_converged (tol : Tolerances) (n : GroupNorms) : Bool :=
  dbl_lt n.poisson_norm (some tol.poisson_abs_toler) &&
  dbl_lt n.elec_continuity_norm (some tol.elec_continuity_abs_toler) &&
  dbl_lt n.hole_continuity_norm (some tol.hole_continuity_abs_toler) &&
  dbl_lt n.electrode_norm (some tol.electrode_abs_toler) &&
  dbl_lt n.heat_equation_norm (some tol.heat_equation_abs_toler) &&
  dbl_lt n.elec_energy_equation_norm (some tol.elec_energy_abs_toler) &&
  dbl_lt n.hole_energy_equation_norm (some tol.hole_energy_abs_toler)

/-- The conjunction of the seven flags `..._conv` of lines 1340-1346 (norm below the relaxed
tolerance), in the order in which lines 1401-1407 and 1413-1419 test them. -/
def all_relaxed_converged (tol : Tolerances) (n : GroupNorms) : Bool :=
  dbl_lt n.poisson_norm (some (tol.toler_relax * tol.poisson_abs_toler)) &&
  dbl_lt n.elec_continuity_norm (some (tol.toler_relax * tol.elec_continuity_abs_toler)) &&
  dbl_lt n.hole_continuity_norm (some (tol.toler_relax * tol.hole_continuity_abs_toler)) &&
  dbl_lt n.electrode_norm (some (tol.toler_relax * tol.electrode_abs_toler)) &&
  dbl_lt n.heat_equation_norm (some (tol.toler_relax * tol.heat_equation_abs_toler)) &&
  dbl_lt n.elec_energy_equation_norm (some (tol.toler_relax * tol.elec_energy_abs_toler)) &&
  dbl_lt n.hole_energy_equation_norm (some (tol.toler_relax * tol.hole_energy_abs_toler))

/-- Lines 1322 and 1370-1424: the verdict computed from the norms, before the circuit is
consulted. -/
def snes_computed_reason (tol : Tolerances) (snes : SnesFields) (n : GroupNorms)
    (function_norm : Dbl) (its : Int) (pnorm fnorm : Dbl) : SNESConvergedReason :=
  let reason0 : SNESConvergedReason :=
    if dbl_ne fnorm fnorm then SNESConvergedReason.SNES_DIVERGED_FNORM_NAN
    else if snes.nfuncs ≥ snes.max_funcs then SNESConvergedReason.SNES_DIVERGED_FUNCTION_COUNT
    else SNESConvergedReason.SNES_CONVERGED_ITERATING
  if reason0 = SNESConvergedReason.SNES_CONVERGED_ITERATING then
    if its = 0 ∧ dbl_lt fnorm (some snes.abstol) = true then
      SNESConvergedReason.SNES_CONVERGED_FNORM_ABS
    else if all_abs_converged tol n = true then SNESConvergedReason.SNES_CONVERGED_FNORM_ABS
    else if dbl_le (dbl_div (dbl_abs (dbl_sub fnorm function_norm)) fnorm) (some snes.rtol) = true
        ∧ all_relaxed_converged tol n = true then
      SNESConvergedReason.SNES_CONVERGED_FNORM_RELATIVE
    else if its ≠ 0 ∧ dbl_lt pnorm (some tol.relative_toler) = true
        ∧ all_relaxed_converged tol n = true then
      SNESConvergedReason.SNES_CONVERGED_PNORM_RELATIVE
    else SNESConvergedReason.SNES_CONVERGED_ITERATING
  else reason0

/-- The function `petsc_snes_convergence_test(its, xnorm, pnorm, fnorm, reason)`, without its
diagnostic output.  `n` are the norms after `error_norm()`; `change_ckt_mode` is the circuit
call whose result is broadcast from the owning process.  Returns the reason, the `snes` fields
and the recorded members. -/
def petsc_snes_convergence_test (tol : Tolerances)
    (change_ckt_mode : SNESConvergedReason → Int) (n : GroupNorms) (snes : SnesFields)
    (rec : ConvRecord) (its : Int) (pnorm fnorm : Dbl) :
    SNESConvergedReason × SnesFields × ConvRecord :=
  let snes1 : SnesFields :=
    if its = 0 then { snes with ttol := dbl_mul fnorm (some snes.rtol) } else snes
  let reason := snes_computed_reason tol snes1 n rec.function_norm its pnorm fnorm
  let ckt_mode := change_ckt_mode reason
  if ckt_mode ≠ 0 then (SNESConvergedReason.SNES_CONVERGED_ITERATING, snes1, rec)
  else (reason, snes1, ⟨fnorm, its⟩)

section TransientGhost
variable {V : Type} [AddCommGroup V] [Module ℚ V]

/-- Whether an executed iteration of the transient loop accepted its time step: the solve
converged and the step was not LTE-rejected (the iteration reached lines 1226-1263). -/
def tran_step_accepted (cfg : TranConfig) (a : TranState V × TranResult V) : Bool :=
  match a.2 with
  | TranResult.converged _ r => !(lte_active cfg a.1 && decide (r < 9 / 10))
  | TranResult.diverged _ _ => false

/-- The last accepted time of a run: the clock at which the last accepted iteration solved,
`none` while no step has been accepted. -/
def last_accepted_time (cfg : TranConfig) (tr : List (TranState V × TranResult V)) : Option ℚ :=
  ((tr.filter (tran_step_accepted cfg)).getLast?).map (fun a => a.1.clock)

end TransientGhost

section ExtrapolationSpec
variable {V : Type} [AddCommGroup V] [Module ℚ V]

/-- Specification wording: the linear extrapolation to the parameter value `t` of the two saved
solutions `x1` (at `t1`) and `x2` (at `t2`). -/
def spec_linear_extrapolation (t t1 t2 : ℚ) (x1 x2 : V) : V :=
  ((t - t2) / (t1 - t2)) • x1 + ((t - t1) / (t2 - t1)) • x2

/-- Specification wording: the quadratic extrapolation to the parameter value `t` of the three
saved solutions `x1` (at `t1`), `x2` (at `t2`) and `x3` (at `t3`), in Lagrange form. -/
def spec_quadratic_extrapolation (t t1 t2 t3 : ℚ) (x1 x2 x3 : V) : V :=
  ((t - t2) * (t - t3) / ((t1 - t2) * (t1 - t3))) • x1
    + ((t - t1) * (t - t3) / ((t2 - t1) * (t2 - t3))) • x2
    + ((t - t1) * (t - t2) / ((t3 - t1) * (t3 - t2))) • x3

end ExtrapolationSpec

/-! ## `solve_dcop`: the gmin relaxation loop (lines 614-662) -/

/-- Outcome of one nonlinear solve as seen by the gmin loop (`reason < 0` or not).
`passed x` : the test `reason < 0` is false, the solver left `x`.  `failed xfail` : `reason < 0`,
the solver left `xfail` (this loop does not call `diverged_recovery()`). -/
inductive GminResult (V : Type) where
  | passed (x : V)
  | failed (xfail : V)

/-- The test `reason < 0` negated. -/
def GminResult.isPassed {V : Type} : GminResult V → Bool
  | GminResult.passed _ => true
  | GminResult.failed _ => false

/-- Variables of the gmin loop: the local `gmin`, the value the circuit of this process holds
(the argument of the last `_circuit->ckt_set_gmin`), and the solution vector. -/
structure GminState (V : Type) where
  gmin : ℚ
  ckt_gmin : ℚ
  x : V

section Gmin
variable {V : Type}

/-- State at entry of the gmin loop (line 616): `gmin = GminInit`; `ckt_gmin` is what the
circuit of this process holds (line 450 hands it `GminInit` on the owning process) and `x` the
solution vector left by the ramp. -/
def dcop_gmin_start (GminInit ckt_gmin : ℚ) (x : V) : GminState V := ⟨GminInit, ckt_gmin, x⟩

/-- The loop condition `gmin > gmin_user`. -/
def dcop_gmin_cond (Gmin : ℚ) (s : GminState V) : Bool := decide (s.gmin > Gmin)

/-- The value `std::max(gmin*1e-2, gmin_user)` of line 621: the literal `1e-2` is the double
nearest to 1/100, and the product of two doubles is rounded to a double. -/
def dcop_gmin_next (Gmin gmin : ℚ) : ℚ :=
  max (binary64_round (gmin * binary64_round (1 / 100))) Gmin

/-- One iteration of the gmin loop (lines 620-662). -/
def dcop_gmin_body (is_last_processor : Bool) (Gmin : ℚ) (ev : GminResult V)
    (s : GminState V) : LoopStep (GminState V) :=
  let gmin := dcop_gmin_next Gmin s.gmin
  let ckt := if is_last_processor then gmin else s.ckt_gmin
  match ev with
  | GminResult.failed xfail => LoopStep.brk ⟨gmin, ckt, xfail⟩
  | GminResult.passed x1 => LoopStep.next ⟨gmin, ckt, x1⟩

/-- The gmin loop of `solve_dcop` run on the solver results `evs`. -/
def dcop_gmin (is_last_processor : Bool) (GminInit Gmin ckt_gmin : ℚ) (x : V)
    (evs : List (GminResult V)) : Run (GminState V) (GminResult V) :=
  while_loop (dcop_gmin_cond Gmin) (dcop_gmin_body is_last_processor Gmin) evs
    (dcop_gmin_start GminInit ckt_gmin x)

/-- The values handed to `_circuit->ckt_set_gmin` (line 629), one per executed stage. -/
def gmin_values_set (Gmin : ℚ) (r : Run (GminState V) (GminResult V)) : List ℚ :=
  r.trace.map (fun a => dcop_gmin_next Gmin a.1.gmin)

end Gmin

/-- The product `gmin*1e-2` of line 621 applied `j` times to `gmin`, every product rounded to
a double: the local `gmin` after `j` stages as long as the floor `gmin_user` is not reached. -/
def gmin_scaled (gmin : ℚ) : Nat → ℚ
  | 0 => gmin
  | j + 1 => binary64_round (gmin_scaled gmin j * binary64_round (1 / 100))

/-! ## Circuit Jacobian fill (lines 310-346) -/

/-- Modelled from the spec: the global Jacobian (a PETSc `Mat`, whose implementation is not part
of the source file).  `vals` are the assembled entries by global row and column; `stash` holds
`ADD_VALUES` contributions (row, column, value) that have been set but are not yet assembled. -/
structure JacobianMat where
  vals : Int → Int → ℚ
  stash : List (Int × Int × ℚ)

/-- Modelled from the spec: `MatAssemblyBegin` / `MatAssemblyEnd` with `MAT_FLUSH_ASSEMBLY`,
which add every stashed contribution to its entry and empty the stash. -/
def MatAssemblyFlush (jac : JacobianMat) : JacobianMat :=
  ⟨fun i j => jac.vals i j
      + ((jac.stash.filter (fun p => decide (p.1 = i ∧ p.2.1 = j))).map (fun p => p.2.2)).sum,
    []⟩

/-- The entries of a Jacobian once everything set so far is assembled. -/
def JacobianMat.assembled (jac : JacobianMat) (i j : Int) : ℚ := (MatAssemblyFlush jac).vals i j

/-- Modelled from the spec: `MatSetValues(jac, 1, &row, n, cols, v, ADD_VALUES)`, which
accumulates the coefficients `v[k]` into the entries `(row, cols[k])`. -/
def MatSetValues_add (jac : JacobianMat) (row : Int) (cols : List Int) (v : List ℚ) :
    JacobianMat :=
  ⟨jac.vals, jac.stash ++ (cols.zip v).map (fun p => (row, p.1, p.2))⟩

/-- What `build_spice_jacobian` uses of the circuit engine (class of `_circuit`, an external
collaborator): the node count, the local offset of every node, and `ckt_matrix_row`, which
yields for the circuit state loaded from `rhs_old` and a node index the global row, the column
indices and the coefficients of that node's row. -/
structure CircuitView where
  n_ckt_nodes : Nat
  local_offset : Nat → Int
  ckt_matrix_row : (Nat → ℚ) → Nat → Int × List Int × List ℚ

/-- What `build_spice_jacobian` leaves behind on one process: the Jacobian, the insert-mode
flag, the circuit's `rhs_old`, and the node indices passed to `ckt_matrix_row`, in order. -/
structure JacobianFill where
  jac : JacobianMat
  add_value_flag : InsertMode
  rhs_old : Nat → ℚ
  rows_requested : List Nat

/-- The function `build_spice_jacobian(PetscScalar *lxx, Mat *jac, InsertMode &add_value_flag)`
on a process that is (`is_last_processor`) or is not the owner of the circuit. -/
def build_spice_jacobian (is_last_processor : Bool) (ckt : CircuitView) (rhs_old : Nat → ℚ)
    (lxx : Int → ℚ) (jac : JacobianMat) (add_value_flag : InsertMode) : JacobianFill :=
  let jac1 : JacobianMat :=
    if add_value_flag ≠ InsertMode.ADD_VALUES ∧ add_value_flag ≠ InsertMode.NOT_SET_VALUES
    then MatAssemblyFlush jac else jac
  if is_last_processor then
    let rhs1 : Nat → ℚ :=
      fun n => if n < ckt.n_ckt_nodes then lxx (ckt.local_offset n) else rhs_old n
    let filled : JacobianMat × List Nat :=
      (List.range ckt.n_ckt_nodes).foldl
        (fun (acc : JacobianMat × List Nat) (row : Nat) =>
          let r := ckt.ckt_matrix_row rhs1 row
          (MatSetValues_add acc.1 r.1 r.2.1 r.2.2, acc.2 ++ [row]))
        (jac1, [])
    ⟨filled.1, InsertMode.ADD_VALUES, rhs1, filled.2⟩
  else ⟨jac1, InsertMode.ADD_VALUES, rhs_old, []⟩

/-! ## Binding of electrodes to circuit nodes (lines 85-113 and 140-148) -/

/-- What the binding reads of a boundary condition: its label and `is_electrode()`. -/
structure BoundaryCondition where
  label : String
  is_electrode : Bool

/-- Modelled from the spec: the binding state of the circuit engine (class of `_circuit`, not
part of the source file).  `node_of_bc b` is the circuit node bound to the boundary condition
with index `b` in the collection, the constant `invalid_uint` where none is bound;
`electrode_flags` are the circuit nodes flagged as electrode nodes. -/
structure CircuitLinks where
  node_of_bc : Nat → Nat
  electrode_flags : List Nat

/-- Modelled from the spec: `_circuit->get_spice_node_by_bc(bc)`, the circuit node bound to
`bc` (`invalid_uint` when there is none). -/
def get_spice_node_by_bc (c : CircuitLinks) (b : Nat) : Nat := c.node_of_bc b

/-- Modelled from the spec: `_circuit->link_electrode(n, bc)`, which binds the electrode `bc`
to the circuit node `n`. -/
def link_electrode (n b : Nat) (c : CircuitLinks) : CircuitLinks :=
  { c with node_of_bc := Function.update c.node_of_bc b n }

/-- Modelled from the spec: `_circuit->set_ckt_node_electrode_flag(n)`. -/
def set_ckt_node_electrode_flag (n : Nat) (c : CircuitLinks) : CircuitLinks :=
  { c with electrode_flags := n :: c.electrode_flags }

/-- The test `bc->is_electrode()` on the boundary condition `get_bc(b)`. -/
def bc_is_electrode (bcs : List BoundaryCondition) (b : Nat) : Bool :=
  match bcs[b]? with
  | some bc => bc.is_electrode
  | none => false

/-- Lines 92-97: the body of the loop over the circuit's electrode map.  `get_bc_nocase` is
the lookup of a boundary condition by name (its index in `bcs`, or none for a null pointer). -/
def link_named_electrode (get_bc_nocase : String → Option Nat) (bcs : List BoundaryCondition)
    (c : CircuitLinks) (it : String × Nat) : CircuitLinks :=
  match get_bc_nocase it.1 with
  | some b =>
    if bc_is_electrode bcs b then link_electrode it.2 b (set_ckt_node_electrode_flag it.2 c)
    else c
  | none => c

/-- What `link_electrode_to_spice_node` leaves behind: the binding state of the circuit and the
indices of the boundary conditions for which the warning of line 106 was recorded. -/
structure LinkOutcome where
  ckt : CircuitLinks
  warnings : List Nat

/-- Lines 103-110: the body of the loop over all boundary conditions. -/
def ground_unlinked_electrode (invalid_uint : Nat) (bcs : List BoundaryCondition)
    (o : LinkOutcome) (n : Nat) : LinkOutcome :=
  if bc_is_electrode bcs n = true ∧ get_spice_node_by_bc o.ckt n = invalid_uint then
    ⟨link_electrode 0 n (set_ckt_node_electrode_flag 0 o.ckt), o.warnings ++ [n]⟩
  else o

/-- The function `link_electrode_to_spice_node()`.  `electrode_to_spice_node` is the map of
`_circuit->get_electrode_info()` in iteration order, `bcs` the boundary conditions in the order
of `get_bc(n)`, `invalid_uint` the constant of that name. -/
def link_electrode_to_spice_node (invalid_uint : Nat) (get_bc_nocase : String → Option Nat)
    (bcs : List BoundaryCondition) (electrode_to_spice_node : List (String × Nat))
    (ckt : CircuitLinks) : LinkOutcome :=
  (List.range bcs.length).foldl (ground_unlinked_electrode invalid_uint bcs)
    ⟨electrode_to_spice_node.foldl (link_named_electrode get_bc_nocase bcs) ckt, []⟩

/-- The assertions `genius_assert(spice_node_index!=invalid_uint)` met by the loop of lines
140-148 of `set_extra_matrix_nonzero_pattern`: true when none of them fails. -/
def nonzero_pattern_asserts (invalid_uint : Nat) (bcs : List BoundaryCondition)
    (ckt : CircuitLinks) : Bool :=
  (List.range bcs.length).all (fun b =>
    !bc_is_electrode bcs b || decide (get_spice_node_by_bc ckt b ≠ invalid_uint))

/-! ## `solve_dcop` as a whole (lines 397-666) -/

/-- The SPICE mode flags that `solve_dcop` combines in its calls of `set_ckt_mode`. -/
inductive ModeFlag where
  | MODEUIC
  | MODETRANOP
  | MODEDCOP
  | MODEINITJCT
deriving DecidableEq, Repr

/-- The calls `solve_dcop` makes on one process to the circuit engine, the field source, the
nonlinear solver and the hooks of the base solver, with their arguments (source names are left
out; `pre_solve_process none` is the call with the default argument). -/
inductive DcopCall where
  | set_ckt_mode (flags : List ModeFlag)
  | set_time (t : ℚ)
  | exchange_rhs
  | circuit_load
  | save_solution
  | init_dcop
  | field_source_update (clock : ℚ)
  | ckt_set_gmin (gmin : ℚ)
  | set_voltage_to (v : ℚ)
  | set_current_to (i : ℚ)
  | pre_solve_process (load_solution : Option Bool)
  | SNESSolve
  | post_solve_process
  | rotate_state_vectors
  | diverged_recovery
deriving DecidableEq

/-- The settings and the entry state `solve_dcop` reads: `clock` is `SolverSpecify::clock` at
entry, `unit_s` is `PhysicalUnit::s`, `ckt_gmin` the gmin the circuit of this process holds at
entry. -/
structure DcopConfig where
  is_last_processor : Bool
  UIC : Bool
  TStart : ℚ
  clock : ℚ
  unit_s : ℚ
  GminInit : ℚ
  Gmin : ℚ
  ckt_gmin : ℚ
  RampUpVStep : ℚ
  RampUpIStep : ℚ
  RampUpSteps : Int
  Predict : Bool

/-- What a call of `solve_dcop` did on one process: the calls it made in order, the run of the
ramp loop, the run of the gmin loop, and `SolverSpecify::clock` afterwards. -/
structure DcopRun (V : Type) where
  calls : List DcopCall
  ramp : Run (RampState V) (SolveResult V)
  gmin : Run (GminState V) (GminResult V)
  clock : ℚ

section Dcop
variable {V : Type} [AddCommGroup V] [Module ℚ V]

/-- Lines 406-451: the calls made before the ramp. -/
def dcop_prologue (cfg : DcopConfig) (tran_op : Bool) : List DcopCall :=
  (if tran_op then
    (if cfg.is_last_processor then
      [DcopCall.set_ckt_mode [ModeFlag.MODETRANOP, ModeFlag.MODEINITJCT],
        DcopCall.set_time (cfg.clock / cfg.unit_s)]
     else []) ++
    (if cfg.UIC then
      (if cfg.is_last_processor then
        [DcopCall.set_ckt_mode [ModeFlag.MODEUIC, ModeFlag.MODETRANOP, ModeFlag.MODEINITJCT],
          DcopCall.exchange_rhs, DcopCall.circuit_load]
       else []) ++ [DcopCall.save_solution]
     else [])
   else
    (if cfg.is_last_processor then
      [DcopCall.init_dcop, DcopCall.set_ckt_mode [ModeFlag.MODEDCOP, ModeFlag.MODEINITJCT]]
     else [])) ++
  [DcopCall.field_source_update (if tran_op then cfg.TStart else 0)] ++
  (if cfg.is_last_processor then [DcopCall.ckt_set_gmin cfg.GminInit] else [])

/-- Lines 506-580: the calls of one iteration of the ramp loop, which starts in state `a.1` and
whose solve ends as `a.2`.  `vdc` and `idc` are the DC values held by the maps `vsrc_dc` and
`isrc_dc` of the owning process. -/
def dcop_ramp_calls (cfg : DcopConfig) (vdc idc : List ℚ) (a : RampState V × SolveResult V) :
    List DcopCall :=
  (if cfg.is_last_processor then
    vdc.map (fun dc => DcopCall.set_voltage_to (ramp_source_value dc a.1)) ++
    idc.map (fun dc => DcopCall.set_current_to (ramp_source_value dc a.1))
   else []) ++
  [DcopCall.pre_solve_process (if a.1.DC_Cycles = 0 then none else some false),
    DcopCall.SNESSolve] ++
  (match a.2 with
   | SolveResult.converged _ =>
     [DcopCall.post_solve_process] ++
       (if cfg.is_last_processor then [DcopCall.rotate_state_vectors] else [])
   | SolveResult.diverged _ _ =>
     if a.1.DC_Cycles = 0 ∨ a.1.retry ≥ 3 then [] else [DcopCall.diverged_recovery])

/-- Lines 621-661: the calls of one stage of the gmin loop; `DC_Cycles` is the counter the
ramp left. -/
def dcop_gmin_calls (cfg : DcopConfig) (DC_Cycles : Int) (a : GminState V × GminResult V) :
    List DcopCall :=
  (if cfg.is_last_processor then [DcopCall.ckt_set_gmin (dcop_gmin_next cfg.Gmin a.1.gmin)]
   else []) ++
  [DcopCall.pre_solve_process (if DC_Cycles = 0 then none else some false),
    DcopCall.SNESSolve] ++
  (match a.2 with
   | GminResult.passed _ =>
     [DcopCall.post_solve_process] ++
       (if cfg.is_last_processor then [DcopCall.rotate_state_vectors] else [])
   | GminResult.failed _ => [])

/-- The function `solve_dcop(bool tran_op)` on one process.  The ramp consumes the solver
results `ramp_evs`; once it has ended (completed or left by `break`) the gmin loop consumes
`gmin_evs`. -/
def solve_dcop (cfg : DcopConfig) (clamp : V → V → V) (vdc idc : List ℚ) (tran_op : Bool)
    (g : RampState V) (ramp_evs : List (SolveResult V)) (gmin_evs : List (GminResult V)) :
    DcopRun V :=
  let N := rampup_steps_init vdc idc cfg.RampUpVStep cfg.RampUpIStep cfg.RampUpSteps
  let ramp := dcop_ramp cfg.Predict clamp N g ramp_evs
  let gm := dcop_gmin cfg.is_last_processor cfg.GminInit cfg.Gmin
    (if cfg.is_last_processor then cfg.GminInit else cfg.ckt_gmin) ramp.final.x
    (if ramp.status = LoopEnd.running then [] else gmin_evs)
  ⟨dcop_prologue cfg tran_op ++ ramp.trace.flatMap (dcop_ramp_calls cfg vdc idc)
      ++ gm.trace.flatMap (dcop_gmin_calls cfg ramp.final.DC_Cycles),
    ramp, gm, if tran_op then cfg.TStart else 0⟩

end Dcop

/-! ## Sparsity of the electrode rows (lines 150-183) -/

/-- What lines 150-167 read of a boundary node of an electrode: the process that owns it and
`bc->n_node_neighbors(node)`. -/
structure BcNode where
  processor_id : Nat
  n_node_neighbors : Nat

/-- Lines 154-159: the vector `neighbors`, to which only the nodes owned by this process
(`me` is `Genius::processor_id()`) are pushed. -/
def neighbors_loop (me : Nat) (bc_nodes : List BcNode) : List Nat :=
  bc_nodes.foldl
    (fun acc nd => if nd.processor_id = me then acc ++ [nd.n_node_neighbors] else acc) []

/-- Lines 162-167: the sum `on_processor_dofs`, with `neighbors` indexed by the position `n` of
the node in `bc_nodes`.  The result is `none` when an access `neighbors[n]` is out of bounds
(undefined behaviour of `std::vector::operator[]`). -/
def on_processor_dofs_loop (me n_bc_node_dofs : Nat) (bc_nodes : List BcNode) : Option Nat :=
  (List.range bc_nodes.length).foldl
    (fun (acc : Option Nat) (n : Nat) =>
      match bc_nodes[n]? with
      | some nd =>
        if nd.processor_id = me then
          acc.bind (fun a =>
            ((neighbors_loop me bc_nodes)[n]?).map (fun k => a + (k + 1) * n_bc_node_dofs))
        else acc
      | none => acc)
    (some 0)

/-- Specification wording: the sum over the locally owned boundary nodes of
(that node's neighbor count + 1) * n_bc_node_dofs. -/
def spec_on_processor_dofs (me n_bc_node_dofs : Nat) (bc_nodes : List BcNode) : Nat :=
  ((bc_nodes.filter (fun nd => decide (nd.processor_id = me))).map
    (fun nd => (nd.n_node_neighbors + 1) * n_bc_node_dofs)).sum

section TransientTimes
variable {V : Type}

/-- The time points at which a solve was attempted: the clock at the head of every executed
iteration of the transient loop, in order. -/
def tran_solve_times (r : Run (TranState V) (TranResult V)) : List ℚ :=
  r.trace.map (fun a => a.1.clock)

end TransientTimes

/-! ## Concrete scenarios used by witnesses and counterexamples -/

/-- A residual with entry 4 at every index and a pending contribution 5 to index 7. -/
def residual_demo : ResidualVec := ⟨fun _ => 4, [(7, 5)]⟩

/-- Two converged transient solves with LTE ratio 1. -/
def tran_two_converged : List (TranResult ℚ) :=
  [TranResult.converged 0 1, TranResult.converged 0 1]

/-- A transient state over scalar solution vectors: previous steps 1, everything else zero. -/
def tran_zero : TranState ℚ := ⟨0, 0, 1, 1, 0, 0, false, 0, 0, 0, 0⟩

/-- A sweep state over scalar solution vectors with every entry zero. -/
def sweep_zero : SweepState ℚ := ⟨0, 0, 0, [], 0, 0, 0, 0, 0, 0, 0⟩

/-- A ramp state over scalar solution vectors with every entry zero. -/
def ramp_zero : RampState ℚ := ⟨0, 0, 0, 0, 0, 0, 0, 0, 0, 0, 0⟩

/-- A converged solve (scalar solution 0). -/
def conv0 : SolveResult ℚ := SolveResult.converged 0

/-- A diverged solve (scalar solution 0 before and after recovery). -/
def div0 : SolveResult ℚ := SolveResult.diverged 0 0

/-- Density clamp that changes nothing. -/
def no_clamp : ℚ → ℚ → ℚ := fun x _ => x

/-- A transient run from 0 to 10 with nominal step 1, maximal step 10, adaptive first-order
stepping and no prediction. -/
def tran_cfg_auto : TranConfig := ⟨0, 10, 1, 10, true, false, TSType.BDF1⟩

/-- A transient state after three accepted steps with current step 1. -/
def tran_three_cycles : TranState ℚ := ⟨3, 1, 1, 1, 3, 0, false, 0, 0, 0, 0⟩

/-- A voltage sweep from 0 to 5 in steps of 1 (no step growth), prediction on. -/
def sweep_cfg_unit : SweepConfig := ⟨0, 1, 5, 1, true⟩

/-- The verdicts converged, then `k` times (diverged, converged): the point after the first
one keeps failing while every bisection point converges. -/
def alternating_verdicts : Nat → List (SolveResult ℚ)
  | 0 => [conv0]
  | k + 1 => alternating_verdicts k ++ [div0, conv0]

/-- Tolerances all equal to 1 (relaxation factor 1, relative tolerance 1). -/
def tol_one : Tolerances := ⟨1, 1, 1, 1, 1, 1, 1, 1, 1⟩

/-- Group norms all equal to 10, above every tolerance of `tol_one`. -/
def norms_large : GroupNorms := ⟨some 10, some 10, some 10, some 10, some 10, some 10, some 10⟩

/-- Group norms all equal to 0, below every tolerance of `tol_one`. -/
def norms_zero : GroupNorms := ⟨some 0, some 0, some 0, some 0, some 0, some 0, some 0⟩

/-- Solver fields with absolute tolerance 1, 3 function evaluations done of at most 1000. -/
def snes_fresh : SnesFields := ⟨1, 1 / 100, 3, 1000, none⟩

/-- Solver fields with the function-evaluation budget used up (1000 of 1000). -/
def snes_exhausted : SnesFields := ⟨1, 1 / 100, 1000, 1000, none⟩

/-- A circuit that never asks for another iteration. -/
def no_veto : SNESConvergedReason → Int := fun _ => 0

/-- A circuit that always asks for another iteration. -/
def always_veto : SNESConvergedReason → Int := fun _ => 1

/-- Recorded members after an iteration 4 with residual norm 2. -/
def record_demo : ConvRecord := ⟨some 2, 4⟩

/-- The adaptive first-order run from 0 to 10 (nominal step 1, maximal step 10) with
prediction enabled. -/
def tran_cfg_predict : TranConfig := ⟨0, 10, 1, 10, true, true, TSType.BDF1⟩

/-- A transient state after three accepted steps with step sizes 1, whose last two accepted
solutions are 1 and 0. -/
def tran_history_demo : TranState ℚ := ⟨3, 1, 1, 1, 3, 0, false, 0, 1, 0, 0⟩

/-- Three converged ramp solves leaving the scalar solutions 1, 2 and 3. -/
def ramp_line_verdicts : List (SolveResult ℚ) :=
  [SolveResult.converged 1, SolveResult.converged 2, SolveResult.converged 3]

/-- A circuit of two nodes at the global rows 10 and 11 whose matrix rows are a unit diagonal. -/
def circuit_two_nodes : CircuitView :=
  ⟨2, fun n => (n : Int), fun _ row => ((row : Int) + 10, [(row : Int) + 10], [1])⟩

/-- An assembled Jacobian with every entry zero. -/
def jacobian_zero : JacobianMat := ⟨fun _ _ => 0, []⟩

/-- Three boundary conditions: the electrodes Anode and Cathode and the non-electrode Wall. -/
def bcs_demo : List BoundaryCondition := [⟨"Anode", true⟩, ⟨"Cathode", true⟩, ⟨"Wall", false⟩]

/-- A name lookup that knows the circuit's spelling of the first electrode only. -/
def get_bc_demo : String → Option Nat := fun name => if name = "anode" then some 0 else none

/-- A circuit without any electrode bound (the constant `invalid_uint` is 4294967295). -/
def links_none : CircuitLinks := ⟨fun _ => 4294967295, []⟩

/-- A transient operating point with UIC on the owning process: start time 0, gmin already at
the user value 1, ramp steps of 1 V and 1 A, at least one ramp step, no prediction. -/
def dcop_cfg_uic : DcopConfig := ⟨true, true, 0, 0, 1, 1, 1, 1, 1, 1, 1, false⟩

/-- An adaptive first-order run from 0 to 10 with nominal step 1 whose configured maximal step
is negative. -/
def tran_cfg_negative_max : TranConfig := ⟨0, 10, 1, -1, true, false, TSType.BDF1⟩

/-- Four converged transient solves with LTE ratio 1. -/
def tran_four_converged : List (TranResult ℚ) :=
  [TranResult.converged 0 1, TranResult.converged 0 1, TranResult.converged 0 1,
    TranResult.converged 0 1]

/-- A transient run whose stop time 0 precedes its start time 10 (nominal step 1, no adaptive
stepping, no prediction). -/
def tran_cfg_reversed : TranConfig := ⟨10, 0, 1, 1, false, false, TSType.BDF1⟩

/-- The double nearest to 0.1: the value a configured ramp step of 0.1 has in the program. -/
def double_0_1 : ℚ := 3602879701896397 / 36028797018963968

/-- The double nearest to 0.3. -/
def double_0_3 : ℚ := 5404319552844595 / 18014398509481984

/-- The double nearest to 0.01: the value of the literal `1e-2`. -/
def double_1e_2 : ℚ := 5764607523034235 / 576460752303423488

/-- The double nearest to 0.0001, which is also the rounded product of `1e-2` with itself. -/
def double_1e_4 : ℚ := 7378697629483821 / 73786976294838206464

/-- The double 1.0000000000000002e-06: the rounded product of the double 0.0001 and `1e-2`. -/
def gmin_stage_3 : ℚ := 2361183241434823 / 2361183241434822606848

/-- The double 1.0000000000000002e-08: the rounded product of `gmin_stage_3` and `1e-2`. -/
def gmin_stage_4 : ℚ := 6044629098073147 / 604462909807314587353088

/-- The double nearest to 1e-6: the value a configured Gmin of 1e-6 has in the program. -/
def double_1e_6 : ℚ := 4722366482869645 / 4722366482869645213696

/-- The double nearest to 1e-8: the value a configured Gmin of 1e-8 has in the program. -/
def double_1e_8 : ℚ := 3022314549036573 / 302231454903657293676544

/-! ## Theorems -/

section Rounding

theorem round_half_even_eq (x : ℚ) (m : Int) (h1 : (m : ℚ) - 1 / 2 < x) (h2 : x < m + 1 / 2) :
    round_half_even x = m := by
  have hf1 : m - 1 ≤ ⌊x⌋ := by
    apply Int.le_floor.mpr
    push_cast
    linarith
  have hf2 : ⌊x⌋ ≤ m := by
    have : ⌊x⌋ < m + 1 := by
      apply Int.floor_lt.mpr
      push_cast
      linarith
    omega
  have hfl : (⌊x⌋ : ℚ) ≤ x := Int.floor_le x
  have hfl2 : x < ⌊x⌋ + 1 := Int.lt_floor_add_one x
  rcases (by omega : ⌊x⌋ = m ∨ ⌊x⌋ = m - 1) with h | h
  · unfold round_half_even
    rw [h, if_pos (by linarith)]
  · unfold round_half_even
    have hc : ((⌊x⌋ : Int) : ℚ) = (m : ℚ) - 1 := by rw [h]; push_cast; ring
    rw [if_neg (by rw [hc]; linarith), if_pos (by rw [hc]; linarith), h]
    ring

theorem binary64_ulp_exponent_eq (a : ℚ) (e : Int) (he : -1022 ≤ e) (h1 : (2 : ℚ) ^ e ≤ a)
    (h2 : a < 2 ^ (e + 1)) : binary64_ulp_exponent a = e - 52 := by
  have ha : 0 < a := lt_of_lt_of_le (zpow_pos (by norm_num) e) h1
  have hl1 : e ≤ Int.log 2 a := by
    have := (Int.zpow_le_iff_le_log (b := 2) (by norm_num) ha (x := e)).mp (by exact_mod_cast h1)
    exact this
  have hl2 : Int.log 2 a < e + 1 := by
    have := (Int.lt_zpow_iff_log_lt (b := 2) (by norm_num) ha (x := e + 1)).mp (by exact_mod_cast h2)
    exact this
  unfold binary64_ulp_exponent
  rw [max_eq_left (by omega)]
  omega

theorem binary64_round_eq (q : ℚ) (e m : Int) (he : -1022 ≤ e) (h1 : (2 : ℚ) ^ e ≤ q)
    (h2 : q < 2 ^ (e + 1)) (h3 : (m : ℚ) - 1 / 2 < q / 2 ^ (e - 52))
    (h4 : q / 2 ^ (e - 52) < m + 1 / 2) : binary64_round q = m * 2 ^ (e - 52) := by
  have hq : 0 < q := lt_of_lt_of_le (zpow_pos (by norm_num) e) h1
  unfold binary64_round
  rw [abs_of_pos hq, binary64_ulp_exponent_eq q e he h1 h2, round_half_even_eq _ m h3 h4]

theorem binary64_round_zero : binary64_round 0 = 0 := by
  unfold binary64_round round_half_even
  simp

theorem binary64_round_one : binary64_round 1 = 1 := by
  rw [binary64_round_eq 1 0 (2 ^ 52) (by norm_num) (by norm_num) (by norm_num) (by norm_num)
    (by norm_num)]
  norm_num

theorem binary64_round_one_hundredth :
    binary64_round (1 / 100) = 5764607523034235 / 576460752303423488 := by
  rw [binary64_round_eq (1 / 100) (-7) 5764607523034235 (by norm_num) (by norm_num) (by norm_num)
    (by norm_num) (by norm_num)]
  norm_num

theorem round_half_even_floor_le (x : ℚ) : ⌊x⌋ ≤ round_half_even x := by
  unfold round_half_even
  split_ifs <;> omega

theorem round_half_even_le_ceil (x : ℚ) : round_half_even x ≤ ⌈x⌉ := by
  have hfc : ⌊x⌋ ≤ ⌈x⌉ := Int.floor_le_ceil x
  by_cases h : x - ⌊x⌋ < 1 / 2
  · unfold round_half_even
    rw [if_pos h]
    exact hfc
  · have hlt : (⌊x⌋ : ℚ) < x := by linarith
    have hc : ⌊x⌋ + 1 ≤ ⌈x⌉ := by
      have : ⌊x⌋ < ⌈x⌉ := by
        apply Int.lt_ceil.mpr
        exact hlt
      omega
    unfold round_half_even
    rw [if_neg h]
    split_ifs <;> omega

theorem round_half_even_le_two_mul (x : ℚ) (hx : 0 ≤ x) : (round_half_even x : ℚ) ≤ 2 * x := by
  have hfl : (⌊x⌋ : ℚ) ≤ x := Int.floor_le x
  by_cases h : x - ⌊x⌋ < 1 / 2
  · unfold round_half_even
    rw [if_pos h]
    linarith
  · have h1 : (round_half_even x : ℚ) ≤ ⌊x⌋ + 1 := by
      unfold round_half_even
      rw [if_neg h]
      split_ifs <;> push_cast <;> linarith
    have h0 : (0 : ℚ) ≤ ⌊x⌋ := by
      have : (0 : Int) ≤ ⌊x⌋ := Int.floor_nonneg.mpr hx
      exact_mod_cast this
    linarith

theorem round_half_even_nonneg (x : ℚ) (hx : 0 ≤ x) : 0 ≤ round_half_even x :=
  le_trans (Int.floor_nonneg.mpr hx) (round_half_even_floor_le x)

theorem binary64_round_nonneg (q : ℚ) (hq : 0 ≤ q) : 0 ≤ binary64_round q := by
  unfold binary64_round
  have hu : (0 : ℚ) < 2 ^ binary64_ulp_exponent |q| := zpow_pos (by norm_num) _
  have hm : (0 : ℚ) ≤ round_half_even (q / 2 ^ binary64_ulp_exponent |q|) := by
    exact_mod_cast round_half_even_nonneg _ (div_nonneg hq (le_of_lt hu))
  exact mul_nonneg hm (le_of_lt hu)

theorem binary64_round_le_two_mul (q : ℚ) (hq : 0 ≤ q) : binary64_round q ≤ 2 * q := by
  unfold binary64_round
  have hu : (0 : ℚ) < 2 ^ binary64_ulp_exponent |q| := zpow_pos (by norm_num) _
  have hm := round_half_even_le_two_mul (q / 2 ^ binary64_ulp_exponent |q|)
    (div_nonneg hq (le_of_lt hu))
  calc (round_half_even (q / 2 ^ binary64_ulp_exponent |q|) : ℚ) * 2 ^ binary64_ulp_exponent |q|
      ≤ (2 * (q / 2 ^ binary64_ulp_exponent |q|)) * 2 ^ binary64_ulp_exponent |q| :=
        mul_le_mul_of_nonneg_right hm (le_of_lt hu)
    _ = 2 * q := by field_simp

theorem binary64_ulp_exponent_nonpos (a : ℚ) (ha : a < 2 ^ 53) : binary64_ulp_exponent a ≤ 0 := by
  unfold binary64_ulp_exponent
  have hl : Int.log 2 a < 53 := by
    rcases le_or_lt a 0 with h0 | h0
    · rw [Int.log_of_right_le_zero 2 h0]; norm_num
    · exact (Int.lt_zpow_iff_log_lt (b := 2) (by norm_num) h0 (x := 53)).mp (by exact_mod_cast ha)
  have : max (Int.log 2 a) (-1022) ≤ 52 := max_le (by omega) (by norm_num)
  omega

theorem binary64_round_int_bounds (q : ℚ) (n : Int) (hq : |q| < 2 ^ 53) :
    ((n : ℚ) ≤ q → (n : ℚ) ≤ binary64_round q) ∧ (q ≤ n → binary64_round q ≤ n) := by
  have hk := binary64_ulp_exponent_nonpos |q| hq
  obtain ⟨k, hk2⟩ : ∃ k : Nat, binary64_ulp_exponent |q| = -(k : Int) :=
    ⟨(-binary64_ulp_exponent |q|).toNat, by omega⟩
  have hu : (2 : ℚ) ^ binary64_ulp_exponent |q| = 1 / 2 ^ k := by
    rw [hk2, zpow_neg, zpow_natCast, one_div]
  have hp : (0 : ℚ) < 2 ^ k := pow_pos (by norm_num) k
  unfold binary64_round
  rw [hu]
  have hy : q / (1 / 2 ^ k) = q * 2 ^ k := by field_simp
  rw [hy]
  constructor
  · intro h
    have h1 : ((n * 2 ^ k : Int) : ℚ) ≤ q * 2 ^ k := by
      push_cast
      exact mul_le_mul_of_nonneg_right h (le_of_lt hp)
    have h2 : n * 2 ^ k ≤ ⌊q * 2 ^ k⌋ := Int.le_floor.mpr h1
    have h3 : n * 2 ^ k ≤ round_half_even (q * 2 ^ k) :=
      le_trans h2 (round_half_even_floor_le _)
    have h4 : ((n * 2 ^ k : Int) : ℚ) ≤ round_half_even (q * 2 ^ k) := by exact_mod_cast h3
    push_cast at h4
    rw [mul_one_div, le_div_iff₀ hp]
    exact h4
  · intro h
    have h1 : q * 2 ^ k ≤ ((n * 2 ^ k : Int) : ℚ) := by
      push_cast
      exact mul_le_mul_of_nonneg_right h (le_of_lt hp)
    have h2 : ⌈q * 2 ^ k⌉ ≤ n * 2 ^ k := Int.ceil_le.mpr h1
    have h3 : round_half_even (q * 2 ^ k) ≤ n * 2 ^ k :=
      le_trans (round_half_even_le_ceil _) h2
    have h4 : (round_half_even (q * 2 ^ k) : ℚ) ≤ ((n * 2 ^ k : Int) : ℚ) := by exact_mod_cast h3
    push_cast at h4
    rw [mul_one_div, div_le_iff₀ hp]
    exact h4

theorem floor_binary64_round (q : ℚ) (hq : |q| < 2 ^ 53) :
    ⌊q⌋ ≤ ⌊binary64_round q⌋ ∧ ⌊binary64_round q⌋ ≤ ⌊q⌋ + 1 := by
  constructor
  · exact Int.le_floor.mpr ((binary64_round_int_bounds q ⌊q⌋ hq).1 (Int.floor_le q))
  · have h := (binary64_round_int_bounds q (⌊q⌋ + 1) hq).2
      (by push_cast; exact le_of_lt (Int.lt_floor_add_one q))
    have : ⌊binary64_round q⌋ ≤ ⌊((⌊q⌋ + 1 : Int) : ℚ)⌋ := Int.floor_mono h
    rwa [Int.floor_intCast] at this

end Rounding

section RampSteps

theorem absmax_loop_aux (dcs : List ℚ) (m : ℚ) :
    dcs.foldl (fun m v => if |v| > m then |v| else m) m
      = max m ((dcs.map (fun v => |v|)).foldr max 0) ∨ m < 0 := by
  induction dcs generalizing m with
  | nil =>
    rcases le_or_lt 0 m with h | h
    · left; simp [h]
    · right; exact h
  | cons v vs ih =>
    rcases le_or_lt 0 m with h | h
    · left
      simp only [List.foldl_cons, List.map_cons, List.foldr_cons]
      have hm : (0 : ℚ) ≤ (if |v| > m then |v| else m) := by
        split_ifs
        · exact abs_nonneg v
        · exact h
      rcases ih (if |v| > m then |v| else m) with h1 | h1
      · rw [h1]
        have : (if |v| > m then |v| else m) = max m |v| := by
          split_ifs with hc
          · exact (max_eq_right (le_of_lt hc)).symm
          · exact (max_eq_left (not_lt.mp hc)).symm
        rw [this, max_assoc]
      · exact absurd h1 (not_lt.mpr hm)
    · right; exact h

theorem spec_peak_magnitude_nonneg (dcs : List ℚ) : 0 ≤ spec_peak_magnitude dcs := by
  unfold spec_peak_magnitude
  induction dcs with
  | nil => simp
  | cons v vs ih => simp only [List.map_cons, List.foldr_cons]; exact le_max_of_le_right ih

theorem absmax_loop_eq_peak (dcs : List ℚ) : absmax_loop dcs = spec_peak_magnitude dcs := by
  unfold absmax_loop
  rcases absmax_loop_aux dcs 0 with h | h
  · rw [h]; exact max_eq_right (spec_peak_magnitude_nonneg dcs)
  · exact absurd h (lt_irrefl 0)

theorem static_cast_int_floor (q : ℚ) (h0 : 0 ≤ q) (h1 : q ≤ 2147483647) :
    static_cast_int (some q) = ⌊q⌋ := by
  have hf0 : 0 ≤ ⌊q⌋ := Int.floor_nonneg.mpr h0
  have hf1 : ⌊q⌋ ≤ 2147483647 := by
    have h := Int.floor_mono h1
    have h2 : ⌊((2147483647 : Int) : ℚ)⌋ = 2147483647 := Int.floor_intCast _
    have h3 : ((2147483647 : Int) : ℚ) = (2147483647 : ℚ) := by norm_num
    rw [h3] at h2
    rw [h2] at h
    exact h
  unfold static_cast_int
  simp only [if_pos h0]
  rw [if_pos ⟨by omega, hf1⟩]

theorem cast_double_div (a b : ℚ) (ha : 0 ≤ a) (hb : 0 < b) (hr : a / b ≤ 2147483647) :
    static_cast_int (double_div a b) = ⌊binary64_round (a / b)⌋ ∧
    ⌊a / b⌋ ≤ ⌊binary64_round (a / b)⌋ ∧ ⌊binary64_round (a / b)⌋ ≤ ⌊a / b⌋ + 1 := by
  have hq : 0 ≤ a / b := div_nonneg ha (le_of_lt hb)
  have habs : |a / b| < 2 ^ 53 := by
    rw [abs_of_nonneg hq]
    exact lt_of_le_of_lt hr (by norm_num)
  have hfl0 : 0 ≤ binary64_round (a / b) := binary64_round_nonneg _ hq
  have hfl1 : binary64_round (a / b) ≤ 2147483647 := by
    have := (binary64_round_int_bounds (a / b) 2147483647 habs).2 (by push_cast; exact hr)
    push_cast at this
    exact this
  refine ⟨?_, floor_binary64_round _ habs⟩
  unfold double_div
  rw [if_neg (ne_of_gt hb)]
  exact static_cast_int_floor _ hfl0 hfl1

/-- C8 as stated fails.  With one 5 V source and a voltage ramp step of 0.1 (the double
nearest to 0.1, slightly above 1/10) the ratio is just below 50 and its floor is 49, but the
double quotient rounds to 50 and the step count of the code is 50.  With one source of 10^10 V
at 1 V per step and minimum 3 the quotient is beyond the range of int: the count of the code
is 3, not 10^10. -/
theorem rampup_steps_init_not_floor_of_ratio :
    binary64_round (1 / 10) = double_0_1 ∧
    (0 : ℚ) < double_0_1 ∧
    rampup_steps_init [5] [] double_0_1 1 1 = 50 ∧
    max (max ⌊spec_peak_magnitude [5] / double_0_1⌋ ⌊spec_peak_magnitude [] / (1 : ℚ)⌋) 1 = 49 ∧
    rampup_steps_init [10000000000] [] 1 1 3 = 3 ∧
    max (max ⌊spec_peak_magnitude [10000000000] / (1 : ℚ)⌋ ⌊spec_peak_magnitude [] / (1 : ℚ)⌋) 3
      = 10000000000 := by
  have hd : binary64_round (1 / 10) = double_0_1 := by
    rw [binary64_round_eq (1 / 10) (-4) 7205759403792794 (by norm_num) (by norm_num)
      (by norm_num) (by norm_num) (by norm_num)]
    norm_num [double_0_1]
  have h50 : binary64_round (5 / double_0_1) = 50 := by
    rw [binary64_round_eq (5 / double_0_1) 5 7036874417766400 (by norm_num)
      (by norm_num [double_0_1]) (by norm_num [double_0_1]) (by norm_num [double_0_1])
      (by norm_num [double_0_1])]
    norm_num
  have h0 : binary64_round (0 / 1) = 0 := by
    rw [zero_div]
    exact binary64_round_zero
  have hbig : binary64_round (10000000000 / 1) = 10000000000 := by
    rw [binary64_round_eq (10000000000 / 1) 33 5242880000000000 (by norm_num) (by norm_num)
      (by norm_num) (by norm_num) (by norm_num)]
    norm_num
  have ha5 : absmax_loop [5] = 5 := by norm_num [absmax_loop]
  have ha0 : absmax_loop [] = 0 := rfl
  have hab : absmax_loop [10000000000] = 10000000000 := by norm_num [absmax_loop]
  have hp5 : spec_peak_magnitude [5] = 5 := by norm_num [spec_peak_magnitude]
  have hp0 : spec_peak_magnitude [] = 0 := rfl
  have hpb : spec_peak_magnitude [10000000000] = 10000000000 := by
    norm_num [spec_peak_magnitude]
  have hpos : (0 : ℚ) < double_0_1 := by norm_num [double_0_1]
  refine ⟨hd, hpos, ?_, ?_, ?_, ?_⟩
  · unfold rampup_steps_init double_div
    rw [ha5, ha0, if_neg (ne_of_gt hpos), if_neg one_ne_zero, h50, h0]
    norm_num [static_cast_int]
  · rw [hp5, hp0]
    have : ⌊(5 : ℚ) / double_0_1⌋ = 49 := by
      rw [Int.floor_eq_iff]
      constructor <;> norm_num [double_0_1]
    rw [this]
    norm_num
  · unfold rampup_steps_init double_div
    rw [hab, ha0, if_neg one_ne_zero, hbig, h0]
    norm_num [static_cast_int]
  · rw [hpb, hp0]
    norm_num

/-- C8 (amended): for positive ramp steps and ratios vabsmax / RampUpVStep and
iabsmax / RampUpIStep not above INT_MAX, the ramp step count of solve_dcop is
max(floor(fl(vabsmax / RampUpVStep)), floor(fl(iabsmax / RampUpIStep)), RampUpSteps), where
vabsmax and iabsmax are the largest absolute DC values (0 without sources) and fl rounds the
quotient to a double; equivalently the floor of the larger rounded ratio, never below the
configured minimum RampUpSteps.  The floor of a rounded ratio is the floor of the ratio or
one more, so the count is the value max(floor, floor, RampUpSteps) of the exact ratios or one
more. -/
theorem rampup_steps_init_eq (vdc idc : List ℚ) (RampUpVStep RampUpIStep : ℚ) (RampUpSteps : Int)
    (hV : 0 < RampUpVStep) (hI : 0 < RampUpIStep)
    (hVr : spec_peak_magnitude vdc / RampUpVStep ≤ 2147483647)
    (hIr : spec_peak_magnitude idc / RampUpIStep ≤ 2147483647) :
    absmax_loop vdc = spec_peak_magnitude vdc ∧ absmax_loop idc = spec_peak_magnitude idc ∧
    rampup_steps_init vdc idc RampUpVStep RampUpIStep RampUpSteps
      = max (max ⌊binary64_round (spec_peak_magnitude vdc / RampUpVStep)⌋
              ⌊binary64_round (spec_peak_magnitude idc / RampUpIStep)⌋) RampUpSteps ∧
    rampup_steps_init vdc idc RampUpVStep RampUpIStep RampUpSteps
      = max ⌊max (binary64_round (spec_peak_magnitude vdc / RampUpVStep))
              (binary64_round (spec_peak_magnitude idc / RampUpIStep))⌋ RampUpSteps ∧
    RampUpSteps ≤ rampup_steps_init vdc idc RampUpVStep RampUpIStep RampUpSteps ∧
    (⌊spec_peak_magnitude vdc / RampUpVStep⌋
        ≤ ⌊binary64_round (spec_peak_magnitude vdc / RampUpVStep)⌋ ∧
      ⌊binary64_round (spec_peak_magnitude vdc / RampUpVStep)⌋
        ≤ ⌊spec_peak_magnitude vdc / RampUpVStep⌋ + 1) ∧
    (⌊spec_peak_magnitude idc / RampUpIStep⌋
        ≤ ⌊binary64_round (spec_peak_magnitude idc / RampUpIStep)⌋ ∧
      ⌊binary64_round (spec_peak_magnitude idc / RampUpIStep)⌋
        ≤ ⌊spec_peak_magnitude idc / RampUpIStep⌋ + 1) ∧
    max (max ⌊spec_peak_magnitude vdc / RampUpVStep⌋ ⌊spec_peak_magnitude idc / RampUpIStep⌋)
        RampUpSteps
      ≤ rampup_steps_init vdc idc RampUpVStep RampUpIStep RampUpSteps ∧
    rampup_steps_init vdc idc RampUpVStep RampUpIStep RampUpSteps
      ≤ max (max ⌊spec_peak_magnitude vdc / RampUpVStep⌋ ⌊spec_peak_magnitude idc / RampUpIStep⌋)
          RampUpSteps + 1 := by
  obtain ⟨cv, cv1, cv2⟩ := cast_double_div (spec_peak_magnitude vdc) RampUpVStep
    (spec_peak_magnitude_nonneg vdc) hV hVr
  obtain ⟨ci, ci1, ci2⟩ := cast_double_div (spec_peak_magnitude idc) RampUpIStep
    (spec_peak_magnitude_nonneg idc) hI hIr
  have key : rampup_steps_init vdc idc RampUpVStep RampUpIStep RampUpSteps
      = max (max ⌊binary64_round (spec_peak_magnitude vdc / RampUpVStep)⌋
              ⌊binary64_round (spec_peak_magnitude idc / RampUpIStep)⌋) RampUpSteps := by
    unfold rampup_steps_init
    rw [absmax_loop_eq_peak, absmax_loop_eq_peak, cv, ci]
  refine ⟨absmax_loop_eq_peak vdc, absmax_loop_eq_peak idc, key, ?_, ?_, ⟨cv1, cv2⟩, ⟨ci1, ci2⟩,
    ?_, ?_⟩
  · rw [key, (Int.floor_mono (α := ℚ)).map_max]
  · rw [key]; exact le_max_right _ _
  · rw [key]
    exact max_le_max (max_le_max cv1 ci1) (le_refl _)
  · rw [key]
    refine max_le (max_le ?_ ?_) ?_
    · exact le_trans cv2 (add_le_add_right (le_trans (le_max_left _ _) (le_max_left _ _)) 1)
    · exact le_trans ci2 (add_le_add_right (le_trans (le_max_right _ _) (le_max_left _ _)) 1)
    · exact le_trans (le_max_right _ _) (le_add_of_nonneg_right (by norm_num))

/-- Witness for C8 (amended): one source of 0.3 V ramped with 0.1 V per step (the doubles
nearest to 0.3 and 0.1, whose quotient rounds to 2.9999999999999996), one current source of
value -7/2 with step 2, and minimum 1: the count is 2. -/
theorem rampup_steps_init_eq_witness :
    (0 : ℚ) < double_0_1 ∧ (0 : ℚ) < 2 ∧
    spec_peak_magnitude [double_0_3] / double_0_1 ≤ 2147483647 ∧
    spec_peak_magnitude [-7 / 2] / (2 : ℚ) ≤ 2147483647 ∧
    rampup_steps_init [double_0_3] [-7 / 2] double_0_1 2 1
      = max (max ⌊binary64_round (spec_peak_magnitude [double_0_3] / double_0_1)⌋
              ⌊binary64_round (spec_peak_magnitude [-7 / 2] / (2 : ℚ))⌋) 1 ∧
    rampup_steps_init [double_0_3] [-7 / 2] double_0_1 2 1 = 2 :=
  have hpos : (0 : ℚ) < double_0_1 := by norm_num [double_0_1]
  have hp3 : spec_peak_magnitude [double_0_3] = double_0_3 := by
    norm_num [spec_peak_magnitude, double_0_3, abs_of_pos]
  have hp7 : spec_peak_magnitude [-7 / 2] = 7 / 2 := by
    norm_num [spec_peak_magnitude, abs_of_pos]
  have hVr : spec_peak_magnitude [double_0_3] / double_0_1 ≤ 2147483647 := by
    rw [hp3]
    norm_num [double_0_3, double_0_1]
  have hIr : spec_peak_magnitude [-7 / 2] / (2 : ℚ) ≤ 2147483647 := by
    rw [hp7]
    norm_num
  have h := rampup_steps_init_eq [double_0_3] [-7 / 2] double_0_1 2 1 hpos (by norm_num) hVr hIr
  have hq3 : binary64_round (double_0_3 / double_0_1)
      = 6755399441055743 / 2251799813685248 := by
    rw [binary64_round_eq (double_0_3 / double_0_1) 1 6755399441055743 (by norm_num)
      (by norm_num [double_0_3, double_0_1]) (by norm_num [double_0_3, double_0_1])
      (by norm_num [double_0_3, double_0_1]) (by norm_num [double_0_3, double_0_1])]
    norm_num
  have hq7 : binary64_round (7 / 2 / 2) = 7 / 4 := by
    rw [binary64_round_eq (7 / 2 / 2) 0 7881299347898368 (by norm_num) (by norm_num)
      (by norm_num) (by norm_num) (by norm_num)]
    norm_num
  have hval : rampup_steps_init [double_0_3] [-7 / 2] double_0_1 2 1 = 2 := by
    rw [h.2.2.1, hp3, hp7, hq3, hq7]
    have e1 : ⌊(6755399441055743 / 2251799813685248 : ℚ)⌋ = 2 := by
      rw [Int.floor_eq_iff]
      constructor <;> norm_num
    have e2 : ⌊(7 / 4 : ℚ)⌋ = 1 := by
      rw [Int.floor_eq_iff]
      constructor <;> norm_num
    rw [e1, e2]
    rfl
  ⟨hpos, by norm_num, hVr, hIr, h.2.2.1, hval⟩

end RampSteps

section LoopLemmas
variable {σ ε : Type}

theorem while_loop_nil (cond : σ → Bool) (body : ε → σ → LoopStep σ) (s : σ) :
    while_loop cond body [] s
      = if cond s then ⟨LoopEnd.running, s, []⟩ else ⟨LoopEnd.completed, s, []⟩ := rfl

theorem while_loop_cons_false (cond : σ → Bool) (body : ε → σ → LoopStep σ) (e : ε)
    (es : List ε) (s : σ) (h : cond s = false) :
    while_loop cond body (e :: es) s = ⟨LoopEnd.completed, s, []⟩ := by
  simp [while_loop, h]

theorem while_loop_false (cond : σ → Bool) (body : ε → σ → LoopStep σ)
    (es : List ε) (s : σ) (h : cond s = false) :
    while_loop cond body es s = ⟨LoopEnd.completed, s, []⟩ := by
  cases es with
  | nil => simp [while_loop, h]
  | cons e es => exact while_loop_cons_false cond body e es s h

theorem while_loop_cons_brk (cond : σ → Bool) (body : ε → σ → LoopStep σ) (e : ε)
    (es : List ε) (s s' : σ) (h : cond s = true) (hb : body e s = LoopStep.brk s') :
    while_loop cond body (e :: es) s = ⟨LoopEnd.aborted, s', [(s, e)]⟩ := by
  simp [while_loop, h, hb]

theorem while_loop_cons_next (cond : σ → Bool) (body : ε → σ → LoopStep σ) (e : ε)
    (es : List ε) (s s' : σ) (h : cond s = true) (hb : body e s = LoopStep.next s') :
    while_loop cond body (e :: es) s
      = ⟨(while_loop cond body es s').status, (while_loop cond body es s').final,
          (s, e) :: (while_loop cond body es s').trace⟩ := by
  simp [while_loop, h, hb]

theorem while_loop_running_cond (cond : σ → Bool) (body : ε → σ → LoopStep σ) (es : List ε) :
    ∀ s : σ, (while_loop cond body es s).status = LoopEnd.running →
      cond (while_loop cond body es s).final = true := by
  induction es with
  | nil =>
    intro s h
    rw [while_loop_nil] at h ⊢
    by_cases hc : cond s = true
    · rw [if_pos hc]; exact hc
    · rw [if_neg hc] at h; cases h
  | cons e es ih =>
    intro s h
    by_cases hc : cond s = true
    · cases hb : body e s with
      | brk s' => rw [while_loop_cons_brk _ _ _ _ _ _ hc hb] at h; cases h
      | next s' =>
        rw [while_loop_cons_next _ _ _ _ _ _ hc hb] at h ⊢
        exact ih s' h
    · rw [while_loop_cons_false _ _ _ _ _ (by simpa using hc)] at h; cases h

theorem while_loop_append (cond : σ → Bool) (body : ε → σ → LoopStep σ) (es es2 : List ε) :
    ∀ s : σ, (while_loop cond body es s).status = LoopEnd.running →
      while_loop cond body (es ++ es2) s
        = ⟨(while_loop cond body es2 (while_loop cond body es s).final).status,
            (while_loop cond body es2 (while_loop cond body es s).final).final,
            (while_loop cond body es s).trace
              ++ (while_loop cond body es2 (while_loop cond body es s).final).trace⟩ := by
  induction es with
  | nil =>
    intro s h
    rw [while_loop_nil] at h ⊢
    by_cases hc : cond s = true
    · simp [if_pos hc]
    · rw [if_neg hc] at h; cases h
  | cons e es ih =>
    intro s h
    by_cases hc : cond s = true
    · cases hb : body e s with
      | brk s' => rw [while_loop_cons_brk _ _ _ _ _ _ hc hb] at h; cases h
      | next s' =>
        rw [while_loop_cons_next _ _ _ _ _ _ hc hb] at h
        rw [List.cons_append, while_loop_cons_next _ _ _ _ _ _ hc hb,
          while_loop_cons_next _ _ _ _ _ _ hc hb, ih s' h]
        simp
    · rw [while_loop_cons_false _ _ _ _ _ (by simpa using hc)] at h; cases h

theorem do_while_cons_brk (cond : σ → Bool) (body : ε → σ → LoopStep σ) (e : ε)
    (es : List ε) (s s' : σ) (hb : body e s = LoopStep.brk s') :
    do_while_loop cond body (e :: es) s = ⟨LoopEnd.aborted, s', [(s, e)]⟩ := by
  simp [do_while_loop, hb]

theorem do_while_cons_next (cond : σ → Bool) (body : ε → σ → LoopStep σ) (e : ε)
    (es : List ε) (s s' : σ) (hb : body e s = LoopStep.next s') (hc : cond s' = true) :
    do_while_loop cond body (e :: es) s
      = ⟨(do_while_loop cond body es s').status, (do_while_loop cond body es s').final,
          (s, e) :: (do_while_loop cond body es s').trace⟩ := by
  simp [do_while_loop, hb, hc]

theorem do_while_cons_done (cond : σ → Bool) (body : ε → σ → LoopStep σ) (e : ε)
    (es : List ε) (s s' : σ) (hb : body e s = LoopStep.next s') (hc : cond s' = false) :
    do_while_loop cond body (e :: es) s = ⟨LoopEnd.completed, s', [(s, e)]⟩ := by
  simp [do_while_loop, hb, hc]

theorem do_while_append (cond : σ → Bool) (body : ε → σ → LoopStep σ) (es es2 : List ε) :
    ∀ s : σ, (do_while_loop cond body es s).status = LoopEnd.running →
      do_while_loop cond body (es ++ es2) s
        = ⟨(do_while_loop cond body es2 (do_while_loop cond body es s).final).status,
            (do_while_loop cond body es2 (do_while_loop cond body es s).final).final,
            (do_while_loop cond body es s).trace
              ++ (do_while_loop cond body es2 (do_while_loop cond body es s).final).trace⟩ := by
  induction es with
  | nil =>
    intro s _
    simp [do_while_loop]
  | cons e es ih =>
    intro s h
    cases hb : body e s with
    | brk s' => rw [do_while_cons_brk _ _ _ _ _ _ hb] at h; cases h
    | next s' =>
      by_cases hc : cond s' = true
      · rw [do_while_cons_next _ _ _ _ _ _ hb hc] at h
        rw [List.cons_append, do_while_cons_next _ _ _ _ _ _ hb hc,
          do_while_cons_next _ _ _ _ _ _ hb hc, ih s' h]
        simp
      · rw [do_while_cons_done _ _ _ _ _ _ hb (by simpa using hc)] at h; cases h

theorem do_while_running_of_append (cond : σ → Bool) (body : ε → σ → LoopStep σ)
    (es es2 : List ε) :
    ∀ s : σ, (do_while_loop cond body (es ++ es2) s).status = LoopEnd.running →
      (do_while_loop cond body es s).status = LoopEnd.running := by
  induction es with
  | nil =>
    intro s _
    rfl
  | cons e es ih =>
    intro s h
    cases hb : body e s with
    | brk s' => rw [List.cons_append, do_while_cons_brk _ _ _ _ _ _ hb] at h; cases h
    | next s' =>
      by_cases hc : cond s' = true
      · rw [List.cons_append, do_while_cons_next _ _ _ _ _ _ hb hc] at h
        rw [do_while_cons_next _ _ _ _ _ _ hb hc]
        exact ih s' h
      · rw [List.cons_append, do_while_cons_done _ _ _ _ _ _ hb (by simpa using hc)] at h
        cases h

/-- Running one more iteration from a running do-while loop: the status is aborted exactly
when the body breaks, and otherwise the final state is the state the body produced. -/
theorem do_while_snoc (cond : σ → Bool) (body : ε → σ → LoopStep σ) (es : List ε) (e : ε)
    (s : σ) (h : (do_while_loop cond body es s).status = LoopEnd.running) :
    (∀ s', body e (do_while_loop cond body es s).final = LoopStep.brk s' →
      (do_while_loop cond body (es ++ [e]) s).status = LoopEnd.aborted) ∧
    (∀ s', body e (do_while_loop cond body es s).final = LoopStep.next s' →
      (do_while_loop cond body (es ++ [e]) s).status ≠ LoopEnd.aborted ∧
      (do_while_loop cond body (es ++ [e]) s).final = s') := by
  rw [do_while_append _ _ _ _ _ h]
  constructor
  · intro s' hb
    rw [do_while_cons_brk _ _ _ _ _ _ hb]
  · intro s' hb
    by_cases hc : cond s' = true
    · rw [do_while_cons_next _ _ _ _ _ _ hb hc]
      simp [do_while_loop]
    · rw [do_while_cons_done _ _ _ _ _ _ hb (by simpa using hc)]
      simp

theorem while_loop_not_running_append (cond : σ → Bool) (body : ε → σ → LoopStep σ)
    (es es2 : List ε) :
    ∀ s : σ, (while_loop cond body es s).status ≠ LoopEnd.running →
      while_loop cond body (es ++ es2) s = while_loop cond body es s := by
  induction es with
  | nil =>
    intro s h
    rw [while_loop_nil] at h
    by_cases hc : cond s = true
    · rw [if_pos hc] at h; exact absurd rfl h
    · rw [List.nil_append, while_loop_false _ _ _ _ (by simpa using hc),
        while_loop_false _ _ _ _ (by simpa using hc)]
  | cons e es ih =>
    intro s h
    by_cases hc : cond s = true
    · cases hb : body e s with
      | brk s' =>
        rw [List.cons_append, while_loop_cons_brk _ _ _ _ _ _ hc hb,
          while_loop_cons_brk _ _ _ _ _ _ hc hb]
      | next s' =>
        rw [while_loop_cons_next _ _ _ _ _ _ hc hb] at h
        rw [List.cons_append, while_loop_cons_next _ _ _ _ _ _ hc hb,
          while_loop_cons_next _ _ _ _ _ _ hc hb, ih s' h]
    · rw [List.cons_append, while_loop_cons_false _ _ _ _ _ (by simpa using hc),
        while_loop_cons_false _ _ _ _ _ (by simpa using hc)]

theorem while_loop_running_of_append (cond : σ → Bool) (body : ε → σ → LoopStep σ)
    (es es2 : List ε) (s : σ)
    (h : (while_loop cond body (es ++ es2) s).status = LoopEnd.running) :
    (while_loop cond body es s).status = LoopEnd.running := by
  by_contra hne
  rw [while_loop_not_running_append _ _ _ _ _ hne] at h
  exact hne h

/-- Running one more iteration from a running loop: the status is aborted exactly when the
body breaks; otherwise the final state is the state the body produced and the loop goes on
exactly when its condition holds there. -/
theorem while_loop_snoc (cond : σ → Bool) (body : ε → σ → LoopStep σ) (es : List ε) (e : ε)
    (s : σ) (h : (while_loop cond body es s).status = LoopEnd.running) :
    (∀ s', body e (while_loop cond body es s).final = LoopStep.brk s' →
      (while_loop cond body (es ++ [e]) s).status = LoopEnd.aborted ∧
      (while_loop cond body (es ++ [e]) s).final = s') ∧
    (∀ s', body e (while_loop cond body es s).final = LoopStep.next s' →
      (while_loop cond body (es ++ [e]) s).final = s' ∧
      (while_loop cond body (es ++ [e]) s).status
        = if cond s' then LoopEnd.running else LoopEnd.completed) := by
  have hc := while_loop_running_cond _ _ _ _ h
  rw [while_loop_append _ _ _ _ _ h]
  constructor
  · intro s' hb
    rw [while_loop_cons_brk _ _ _ _ _ _ hc hb]
    exact ⟨rfl, rfl⟩
  · intro s' hb
    rw [while_loop_cons_next _ _ _ _ _ _ hc hb, while_loop_nil]
    split_ifs <;> exact ⟨rfl, rfl⟩

/-- Invariants of `while` loops: a property that holds at entry and is preserved by every
executed iteration (for the admissible external results) holds in the final state and in every
state at the head of an executed iteration. -/
theorem while_loop_invariant (cond : σ → Bool) (body : ε → σ → LoopStep σ)
    (P : ε → Prop) (Inv : σ → Prop)
    (hnext : ∀ e s s', P e → Inv s → cond s = true → body e s = LoopStep.next s' → Inv s')
    (hbrk : ∀ e s s', P e → Inv s → cond s = true → body e s = LoopStep.brk s' → Inv s')
    (es : List ε) :
    ∀ s : σ, (∀ e ∈ es, P e) → Inv s →
      Inv (while_loop cond body es s).final ∧
      ∀ a ∈ (while_loop cond body es s).trace, Inv a.1 := by
  induction es with
  | nil =>
    intro s _ hs
    rw [while_loop_nil]
    split_ifs <;> simp [hs]
  | cons e es ih =>
    intro s hP hs
    have hPe : P e := hP e (List.mem_cons_self _ _)
    by_cases hc : cond s = true
    · cases hb : body e s with
      | brk s' =>
        rw [while_loop_cons_brk _ _ _ _ _ _ hc hb]
        refine ⟨hbrk e s s' hPe hs hc hb, ?_⟩
        intro a ha
        simp only [List.mem_singleton] at ha
        rw [ha]; exact hs
      | next s' =>
        rw [while_loop_cons_next _ _ _ _ _ _ hc hb]
        obtain ⟨i1, i2⟩ := ih s' (fun e' he' => hP e' (List.mem_cons_of_mem _ he'))
          (hnext e s s' hPe hs hc hb)
        refine ⟨i1, ?_⟩
        intro a ha
        rcases List.mem_cons.mp ha with ha | ha
        · rw [ha]; exact hs
        · exact i2 a ha
    · rw [while_loop_cons_false _ _ _ _ _ (by simpa using hc)]
      simp [hs]

/-- Invariants of `while` loops with a weaker property `InvF` for the state in which the loop
is left (a break may spoil the invariant of the loop heads). -/
theorem while_loop_invariant_final (cond : σ → Bool) (body : ε → σ → LoopStep σ)
    (P : ε → Prop) (Inv InvF : σ → Prop) (hF : ∀ s, Inv s → InvF s)
    (hnext : ∀ e s s', P e → Inv s → cond s = true → body e s = LoopStep.next s' → Inv s')
    (hbrk : ∀ e s s', P e → Inv s → cond s = true → body e s = LoopStep.brk s' → InvF s')
    (es : List ε) :
    ∀ s : σ, (∀ e ∈ es, P e) → Inv s →
      InvF (while_loop cond body es s).final ∧
      ∀ a ∈ (while_loop cond body es s).trace, Inv a.1 := by
  induction es with
  | nil =>
    intro s _ hs
    rw [while_loop_nil]
    split_ifs <;> simp [hF s hs]
  | cons e es ih =>
    intro s hP hs
    have hPe : P e := hP e (List.mem_cons_self _ _)
    by_cases hc : cond s = true
    · cases hb : body e s with
      | brk s' =>
        rw [while_loop_cons_brk _ _ _ _ _ _ hc hb]
        refine ⟨hbrk e s s' hPe hs hc hb, ?_⟩
        intro a ha
        simp only [List.mem_singleton] at ha
        rw [ha]; exact hs
      | next s' =>
        rw [while_loop_cons_next _ _ _ _ _ _ hc hb]
        obtain ⟨i1, i2⟩ := ih s' (fun e' he' => hP e' (List.mem_cons_of_mem _ he'))
          (hnext e s s' hPe hs hc hb)
        refine ⟨i1, ?_⟩
        intro a ha
        rcases List.mem_cons.mp ha with ha | ha
        · rw [ha]; exact hs
        · exact i2 a ha
    · rw [while_loop_cons_false _ _ _ _ _ (by simpa using hc)]
      simp [hF s hs]

end LoopLemmas

section RampLemmas
variable {V : Type} [AddCommGroup V] [Module ℚ V]

theorem dcop_ramp_body_converged (Predict : Bool) (clamp : V → V → V) (x1 : V)
    (s : RampState V) :
    ∃ s', dcop_ramp_body Predict clamp (SolveResult.converged x1) s = LoopStep.next s' ∧
      s'.step = s.step + 1 ∧ s'.rampup_steps = s.rampup_steps ∧ s'.retry = s.retry ∧
      s'.DC_Cycles = s.DC_Cycles + 1 := by
  cases Predict <;> simp [dcop_ramp_body, dcop_ramp_verdict, dcop_ramp_finish]

theorem dcop_ramp_body_diverged_brk (Predict : Bool) (clamp : V → V → V) (xf xr : V)
    (s : RampState V) (h : s.DC_Cycles = 0 ∨ 3 ≤ s.retry) :
    ∃ s', dcop_ramp_body Predict clamp (SolveResult.diverged xf xr) s = LoopStep.brk s' := by
  by_cases h0 : s.DC_Cycles = 0
  · simp [dcop_ramp_body, dcop_ramp_verdict, h0]
  · have h3 : 3 ≤ s.retry := by tauto
    simp [dcop_ramp_body, dcop_ramp_verdict, h0, h3]

theorem dcop_ramp_body_diverged_next (Predict : Bool) (clamp : V → V → V) (xf xr : V)
    (s : RampState V) (h0 : s.DC_Cycles ≠ 0) (h3 : s.retry < 3) :
    ∃ s', dcop_ramp_body Predict clamp (SolveResult.diverged xf xr) s = LoopStep.next s' ∧
      s'.step = 2 * s.step - 1 ∧ s'.rampup_steps = 2 * s.rampup_steps ∧
      s'.retry = s.retry + 1 ∧ s'.DC_Cycles = s.DC_Cycles := by
  have h3n : ¬ 3 ≤ s.retry := not_le.mpr h3
  simp only [dcop_ramp_body, dcop_ramp_verdict, h0, h3n, ge_iff_le, if_false, dcop_ramp_finish]
  refine ⟨_, rfl, ?_, ?_, rfl, rfl⟩
  · show s.step * 2 - 2 + 1 = 2 * s.step - 1
    ring
  · show s.rampup_steps * 2 = 2 * s.rampup_steps
    ring

theorem dcop_ramp_cond_iff (s : RampState V) :
    dcop_ramp_cond s = true ↔ s.step ≤ s.rampup_steps := by
  simp [dcop_ramp_cond]

theorem dcop_ramp_cond_false_iff (s : RampState V) :
    dcop_ramp_cond s = false ↔ ¬ s.step ≤ s.rampup_steps := by
  simp [dcop_ramp_cond]

/-- Along any run the accepted ramp fractions increase strictly and stay above the
fraction `(step-1)/rampup_steps` the loop was entered with. -/
theorem ramp_accepted_increasing (Predict : Bool) (clamp : V → V → V)
    (evs : List (SolveResult V)) :
    ∀ s : RampState V, 1 ≤ s.step →
      List.Pairwise (fun a b : ℚ => a < b) (accepted_ramp_fractions
        (while_loop dcop_ramp_cond (dcop_ramp_body Predict clamp) evs s)) ∧
      ∀ f ∈ accepted_ramp_fractions
          (while_loop dcop_ramp_cond (dcop_ramp_body Predict clamp) evs s),
        ((s.step : ℚ) - 1) / (s.rampup_steps : ℚ) < f := by
  induction evs with
  | nil =>
    intro s _
    rw [while_loop_nil]
    split_ifs <;> simp [accepted_ramp_fractions]
  | cons e es ih =>
    intro s h1
    by_cases hle : s.step ≤ s.rampup_steps
    · have hcond := (dcop_ramp_cond_iff s).mpr hle
      have hpos : (0 : ℚ) < (s.rampup_steps : ℚ) := by
        have : (0 : Int) < s.rampup_steps := by omega
        exact_mod_cast this
      cases e with
      | converged x1 =>
        obtain ⟨s', hb, hstep, hramp, -, -⟩ := dcop_ramp_body_converged Predict clamp x1 s
        rw [while_loop_cons_next _ _ _ _ _ _ hcond hb]
        obtain ⟨ihp, ihb⟩ := ih s' (by omega)
        have hfr : ((s'.step : ℚ) - 1) / (s'.rampup_steps : ℚ) = ramp_fraction s := by
          unfold ramp_fraction
          rw [hstep, hramp]
          push_cast
          ring
        rw [hfr] at ihb
        have hlt : ((s.step : ℚ) - 1) / (s.rampup_steps : ℚ) < ramp_fraction s := by
          unfold ramp_fraction
          exact div_lt_div_of_pos_right (by linarith) hpos
        have hacc : accepted_ramp_fractions
            (⟨(while_loop dcop_ramp_cond (dcop_ramp_body Predict clamp) es s').status,
              (while_loop dcop_ramp_cond (dcop_ramp_body Predict clamp) es s').final,
              (s, SolveResult.converged x1) ::
                (while_loop dcop_ramp_cond (dcop_ramp_body Predict clamp) es s').trace⟩ :
              Run (RampState V) (SolveResult V))
            = ramp_fraction s :: accepted_ramp_fractions
                (while_loop dcop_ramp_cond (dcop_ramp_body Predict clamp) es s') := by
          simp [accepted_ramp_fractions, SolveResult.isConverged]
        rw [hacc]
        refine ⟨List.pairwise_cons.mpr ⟨ihb, ihp⟩, ?_⟩
        intro f hf
        rcases List.mem_cons.mp hf with hf | hf
        · rw [hf]; exact hlt
        · exact lt_trans hlt (ihb f hf)
      | diverged xf xr =>
        by_cases hab : s.DC_Cycles = 0 ∨ 3 ≤ s.retry
        · obtain ⟨s', hb⟩ := dcop_ramp_body_diverged_brk Predict clamp xf xr s hab
          rw [while_loop_cons_brk _ _ _ _ _ _ hcond hb]
          simp [accepted_ramp_fractions, SolveResult.isConverged]
        · push_neg at hab
          obtain ⟨s', hb, hstep, hramp, -, -⟩ :=
            dcop_ramp_body_diverged_next Predict clamp xf xr s hab.1 hab.2
          rw [while_loop_cons_next _ _ _ _ _ _ hcond hb]
          obtain ⟨ihp, ihb⟩ := ih s' (by omega)
          have hfr : ((s'.step : ℚ) - 1) / (s'.rampup_steps : ℚ)
              = ((s.step : ℚ) - 1) / (s.rampup_steps : ℚ) := by
            rw [hstep, hramp]
            push_cast
            field_simp
            ring
          rw [hfr] at ihb
          have hacc : accepted_ramp_fractions
              (⟨(while_loop dcop_ramp_cond (dcop_ramp_body Predict clamp) es s').status,
                (while_loop dcop_ramp_cond (dcop_ramp_body Predict clamp) es s').final,
                (s, SolveResult.diverged xf xr) ::
                  (while_loop dcop_ramp_cond (dcop_ramp_body Predict clamp) es s').trace⟩ :
                Run (RampState V) (SolveResult V))
              = accepted_ramp_fractions
                  (while_loop dcop_ramp_cond (dcop_ramp_body Predict clamp) es s') := by
            simp [accepted_ramp_fractions, SolveResult.isConverged]
          rw [hacc]
          exact ⟨ihp, ihb⟩
    · rw [while_loop_false _ _ _ _ ((dcop_ramp_cond_false_iff s).mpr hle)]
      simp [accepted_ramp_fractions]

/-- While the ramp loop is running, `retry` counts all divergences so far and
`DC_Cycles` counts all accepted solves so far. -/
theorem ramp_counters (Predict : Bool) (clamp : V → V → V) (evs : List (SolveResult V)) :
    ∀ s : RampState V,
      (while_loop dcop_ramp_cond (dcop_ramp_body Predict clamp) evs s).status
        = LoopEnd.running →
      (while_loop dcop_ramp_cond (dcop_ramp_body Predict clamp) evs s).final.retry
        = s.retry + (evs.countP (fun e => !e.isConverged) : Nat) ∧
      (while_loop dcop_ramp_cond (dcop_ramp_body Predict clamp) evs s).final.DC_Cycles
        = s.DC_Cycles + (evs.countP (fun e => e.isConverged) : Nat) := by
  induction evs with
  | nil =>
    intro s h
    rw [while_loop_nil] at h ⊢
    split_ifs <;> simp
  | cons e es ih =>
    intro s h
    by_cases hcond : dcop_ramp_cond s = true
    · cases e with
      | converged x1 =>
        obtain ⟨s', hb, -, -, hretry, hcyc⟩ := dcop_ramp_body_converged Predict clamp x1 s
        rw [while_loop_cons_next _ _ _ _ _ _ hcond hb] at h ⊢
        obtain ⟨i1, i2⟩ := ih s' h
        simp only [i1, i2, hretry, hcyc, List.countP_cons, SolveResult.isConverged]
        constructor
        · simp
        · push_cast; ring
      | diverged xf xr =>
        by_cases hab : s.DC_Cycles = 0 ∨ 3 ≤ s.retry
        · obtain ⟨s', hb⟩ := dcop_ramp_body_diverged_brk Predict clamp xf xr s hab
          rw [while_loop_cons_brk _ _ _ _ _ _ hcond hb] at h
          cases h
        · push_neg at hab
          obtain ⟨s', hb, -, -, hretry, hcyc⟩ :=
            dcop_ramp_body_diverged_next Predict clamp xf xr s hab.1 hab.2
          rw [while_loop_cons_next _ _ _ _ _ _ hcond hb] at h ⊢
          obtain ⟨i1, i2⟩ := ih s' h
          simp only [i1, i2, hretry, hcyc, List.countP_cons, SolveResult.isConverged]
          constructor
          · push_cast; simp; ring
          · simp
    · rw [while_loop_cons_false _ _ _ _ _ (by simpa using hcond)] at h
      cases h

end RampLemmas

section RampTheorems
variable {V : Type} [AddCommGroup V] [Module ℚ V]

/-- C3 (as stated, refuted): with two ramp steps, an accepted first step and a diverging second
step, the fractions applied on successive iterations are 1/2, 1, 3/4, which is not a
non-decreasing sequence. -/
theorem dcop_ramp_fractions_not_monotone :
    ramp_fractions (dcop_ramp true no_clamp 2 ramp_zero [conv0, div0, conv0]) = [1 / 2, 1, 3 / 4] ∧
    ¬ List.Chain' (fun a b : ℚ => a ≤ b)
      (ramp_fractions (dcop_ramp true no_clamp 2 ramp_zero [conv0, div0, conv0])) := by
  have h : ramp_fractions (dcop_ramp true no_clamp 2 ramp_zero [conv0, div0, conv0])
      = [1 / 2, 1, 3 / 4] := by
    norm_num [ramp_fractions, ramp_fraction, dcop_ramp, while_loop, dcop_ramp_cond,
      dcop_ramp_body, dcop_ramp_verdict, dcop_ramp_finish, dcop_ramp_start, ramp_zero, conv0, div0]
  refine ⟨h, ?_⟩
  rw [h]
  norm_num

/-- C3 (amended): for every step count and every sequence of solver verdicts, the ramp fractions
of the accepted iterations of the solve_dcop ramp loop form a strictly increasing (hence
non-decreasing) sequence. -/
theorem dcop_ramp_accepted_fractions_increasing (Predict : Bool) (clamp : V → V → V) (N : Int)
    (g : RampState V) (evs : List (SolveResult V)) :
    List.Pairwise (fun a b : ℚ => a < b)
      (accepted_ramp_fractions (dcop_ramp Predict clamp N g evs)) ∧
    List.Chain' (fun a b : ℚ => a ≤ b)
      (accepted_ramp_fractions (dcop_ramp Predict clamp N g evs)) := by
  have h := (ramp_accepted_increasing Predict clamp evs (dcop_ramp_start N g) (le_refl _)).1
  refine ⟨h, ?_⟩
  exact List.Pairwise.chain' (h.imp (fun hab => le_of_lt hab))

/-- C9 (as stated, refuted): with two ramp steps and verdicts alternating accepted / diverged, the
fourth divergence aborts the ramp although it directly follows an accepted step (zero consecutive
failures, four accepted steps): the retry counter was not reset by the accepted steps. -/
theorem dcop_ramp_retry_not_reset :
    (dcop_ramp true no_clamp 2 ramp_zero
      [conv0, div0, conv0, div0, conv0, div0, conv0]).status = LoopEnd.running ∧
    (dcop_ramp true no_clamp 2 ramp_zero
      [conv0, div0, conv0, div0, conv0, div0, conv0]).final.DC_Cycles = 4 ∧
    (dcop_ramp true no_clamp 2 ramp_zero
      [conv0, div0, conv0, div0, conv0, div0, conv0]).final.retry = 3 ∧
    trailing_divergences [conv0, div0, conv0, div0, conv0, div0, conv0] = 0 ∧
    (dcop_ramp true no_clamp 2 ramp_zero
      [conv0, div0, conv0, div0, conv0, div0, conv0, div0]).status = LoopEnd.aborted := by
  refine ⟨?_, ?_, ?_, ?_, ?_⟩ <;>
  simp [dcop_ramp, while_loop, dcop_ramp_cond, dcop_ramp_body, dcop_ramp_verdict,
    dcop_ramp_finish, dcop_ramp_start, ramp_zero, conv0, div0, trailing_divergences,
    SolveResult.isConverged]

/-- C9 (amended): in the solve_dcop ramp the retry counter is never reset: while the loop is
running it equals the number of divergences since the start of the ramp, and a further divergence
aborts the ramp exactly when no step has been accepted yet or three recoveries have already been
performed (consecutive or not); a converged solve never aborts. -/
theorem dcop_ramp_abort_iff (Predict : Bool) (clamp : V → V → V) (N : Int)
    (g : RampState V) (evs : List (SolveResult V)) (xf xr : V)
    (hrun : (dcop_ramp Predict clamp N g evs).status = LoopEnd.running) :
    (dcop_ramp Predict clamp N g evs).final.retry
      = ((evs.countP (fun e => !e.isConverged) : Nat) : Int) ∧
    (dcop_ramp Predict clamp N g evs).final.DC_Cycles
      = ((evs.countP (fun e => e.isConverged) : Nat) : Int) ∧
    ((dcop_ramp Predict clamp N g (evs ++ [SolveResult.diverged xf xr])).status = LoopEnd.aborted ↔
      (evs.countP (fun e => e.isConverged) = 0 ∨ 3 ≤ evs.countP (fun e => !e.isConverged))) ∧
    (∀ x1 : V,
      (dcop_ramp Predict clamp N g (evs ++ [SolveResult.converged x1])).status
        ≠ LoopEnd.aborted) := by
  unfold dcop_ramp at hrun ⊢
  obtain ⟨hr, hc⟩ := ramp_counters Predict clamp evs (dcop_ramp_start N g) hrun
  have hr0 : (dcop_ramp_start N g).retry = 0 := rfl
  have hc0 : (dcop_ramp_start N g).DC_Cycles = 0 := rfl
  rw [hr0, zero_add] at hr
  rw [hc0, zero_add] at hc
  have hcond := while_loop_running_cond _ _ evs (dcop_ramp_start N g) hrun
  refine ⟨hr, hc, ?_, ?_⟩
  · rw [while_loop_append _ _ _ _ _ hrun]
    simp only
    generalize (while_loop dcop_ramp_cond (dcop_ramp_body Predict clamp) evs
      (dcop_ramp_start N g)).final = sf at hr hc hcond
    by_cases hab : sf.DC_Cycles = 0 ∨ 3 ≤ sf.retry
    · obtain ⟨s', hb⟩ := dcop_ramp_body_diverged_brk Predict clamp xf xr sf hab
      rw [while_loop_cons_brk _ _ _ _ _ _ hcond hb]
      simp only [true_iff]
      rw [hr, hc] at hab
      omega
    · have hab2 := hab
      push_neg at hab2
      obtain ⟨s', hb, -⟩ := dcop_ramp_body_diverged_next Predict clamp xf xr sf hab2.1 hab2.2
      rw [while_loop_cons_next _ _ _ _ _ _ hcond hb, while_loop_nil]
      rw [hr, hc] at hab
      have hno : ¬ (evs.countP (fun e => e.isConverged) = 0 ∨
          3 ≤ evs.countP (fun e => !e.isConverged)) := by omega
      simp only [hno, iff_false]
      split_ifs <;> simp
  · intro x1
    rw [while_loop_append _ _ _ _ _ hrun]
    simp only
    obtain ⟨s', hb, -⟩ := dcop_ramp_body_converged Predict clamp x1
      (while_loop dcop_ramp_cond (dcop_ramp_body Predict clamp) evs (dcop_ramp_start N g)).final
    rw [while_loop_cons_next _ _ _ _ _ _ hcond hb, while_loop_nil]
    split_ifs <;> simp

/-- Witness for C9 (amended): after one accepted step of four, a first divergence is recovered. -/
theorem dcop_ramp_abort_iff_witness :
    (dcop_ramp true no_clamp 4 ramp_zero [conv0]).status = LoopEnd.running ∧
    ((dcop_ramp true no_clamp 4 ramp_zero ([conv0] ++ [SolveResult.diverged 0 0])).status
        = LoopEnd.aborted ↔
      ([conv0].countP (fun e => e.isConverged) = 0 ∨
        3 ≤ [conv0].countP (fun e => !e.isConverged))) :=
  have hrun : (dcop_ramp true no_clamp 4 ramp_zero [conv0]).status = LoopEnd.running := by
    simp [dcop_ramp, while_loop, dcop_ramp_cond, dcop_ramp_body, dcop_ramp_verdict,
      dcop_ramp_finish, dcop_ramp_start, ramp_zero, conv0]
  ⟨hrun, (dcop_ramp_abort_iff true no_clamp 4 ramp_zero [conv0] 0 0 hrun).2.2.1⟩

end RampTheorems

section SweepTheorems

/-- C4 (code evaluated at the failing input): with prediction switched off the sweep never
assigns Vs1, so after a divergence the next probe is the midpoint of the failed value and the
unset content gv of Vs1, not of the failed value and the last accepted value: sweeping from 0 in
steps of 1, a divergence at 1 (last accepted 0) probes (1+gv)/2 and a divergence at 2 (last
accepted 1) probes (2+gv)/2, and no gv makes both the midpoints 1/2 and 3/2.  With prediction on,
a divergence at a re-solved stop value probes the stop value itself, not a value strictly
between. -/
theorem dcsweep_midpoint_uses_unset_Vs1 (gv : ℚ) :
    solved_values (dcsweep ⟨0, 1, 5, 1, false⟩ no_clamp { sweep_zero with Vs1 := gv }
      [conv0, div0]) = [0, 1] ∧
    (dcsweep ⟨0, 1, 5, 1, false⟩ no_clamp { sweep_zero with Vs1 := gv }
      [conv0, div0]).final.Vscan = (1 + gv) / 2 ∧
    solved_values (dcsweep ⟨0, 1, 5, 1, false⟩ no_clamp { sweep_zero with Vs1 := gv }
      [conv0, conv0, div0]) = [0, 1, 2] ∧
    (dcsweep ⟨0, 1, 5, 1, false⟩ no_clamp { sweep_zero with Vs1 := gv }
      [conv0, conv0, div0]).final.Vscan = (2 + gv) / 2 ∧
    ¬ ((1 + gv) / 2 = (1 + 0) / 2 ∧ (2 + gv) / 2 = (2 + 1) / 2) ∧
    solved_values (dcsweep ⟨0, 1, 2, 2, true⟩ no_clamp sweep_zero
      [conv0, conv0, conv0, div0]) = [0, 1, 2, 2] ∧
    (dcsweep ⟨0, 1, 2, 2, true⟩ no_clamp sweep_zero
      [conv0, conv0, conv0, div0]).final.Vscan = 2 := by
  refine ⟨?_, ?_, ?_, ?_, ?_, ?_, ?_⟩
  · norm_num [solved_values, dcsweep, while_loop, dcsweep_cond, dcsweep_body, dcsweep_verdict,
      dcsweep_finish, dcsweep_advance, dcsweep_start, fabs, sweep_zero, conv0, div0]
    split_ifs <;> simp
  · norm_num [solved_values, dcsweep, while_loop, dcsweep_cond, dcsweep_body, dcsweep_verdict,
      dcsweep_finish, dcsweep_advance, dcsweep_start, fabs, sweep_zero, conv0, div0]
    split_ifs <;> simp
  · norm_num [solved_values, dcsweep, while_loop, dcsweep_cond, dcsweep_body, dcsweep_verdict,
      dcsweep_finish, dcsweep_advance, dcsweep_start, fabs, sweep_zero, conv0, div0]
    split_ifs <;> simp
  · norm_num [solved_values, dcsweep, while_loop, dcsweep_cond, dcsweep_body, dcsweep_verdict,
      dcsweep_finish, dcsweep_advance, dcsweep_start, fabs, sweep_zero, conv0, div0]
    split_ifs <;> simp
  · rintro ⟨h1, h2⟩
    linarith
  · norm_num [solved_values, dcsweep, while_loop, dcsweep_cond, dcsweep_body, dcsweep_verdict,
      dcsweep_finish, dcsweep_advance, dcsweep_start, fabs, sweep_zero, conv0, div0, dc_predict,
      no_clamp, dc_quadratic_projection, dc_linear_projection]
  · norm_num [solved_values, dcsweep, while_loop, dcsweep_cond, dcsweep_body, dcsweep_verdict,
      dcsweep_finish, dcsweep_advance, dcsweep_start, fabs, sweep_zero, conv0, div0, dc_predict,
      no_clamp, dc_quadratic_projection, dc_linear_projection]

/-- C7 (code evaluated at failing inputs): sweeps whose direction agrees with their range and in
which every solve converges end without ever solving the stop value when the stop value is 0
(ascending from -2 or descending from 5) or when VStop*VStep is negative (ascending from -5 to
-1): the loop condition already fails at Vscan = VStop. -/
theorem dcsweep_stop_value_not_solved :
    ((0 : ℚ) - (-2)) * 1 ≥ 0 ∧
    (dcsweep ⟨-2, 1, 0, 1, true⟩ no_clamp sweep_zero (List.replicate 10 conv0)).status
      = LoopEnd.completed ∧
    solved_values (dcsweep ⟨-2, 1, 0, 1, true⟩ no_clamp sweep_zero (List.replicate 10 conv0))
      = [-2, -1] ∧
    ((0 : ℚ) - 5) * (-1) ≥ 0 ∧
    (dcsweep ⟨5, -1, 0, 1, true⟩ no_clamp sweep_zero (List.replicate 10 conv0)).status
      = LoopEnd.completed ∧
    solved_values (dcsweep ⟨5, -1, 0, 1, true⟩ no_clamp sweep_zero (List.replicate 10 conv0))
      = [5, 4, 3, 2, 1] ∧
    ((-1 : ℚ) - (-5)) * 1 ≥ 0 ∧
    (dcsweep ⟨-5, 1, -1, 1, true⟩ no_clamp sweep_zero (List.replicate 10 conv0)).status
      = LoopEnd.completed ∧
    solved_values (dcsweep ⟨-5, 1, -1, 1, true⟩ no_clamp sweep_zero (List.replicate 10 conv0))
      = [-5, -4, -3, -2] := by
  refine ⟨by norm_num, ?_, ?_, by norm_num, ?_, ?_, by norm_num, ?_, ?_⟩ <;>
  norm_num [solved_values, dcsweep, while_loop, dcsweep_cond, dcsweep_body, dcsweep_verdict,
    dcsweep_finish, dcsweep_advance, dcsweep_start, fabs, sweep_zero, conv0, List.replicate]

end SweepTheorems

section ProjectionTheorems
variable {V : Type} [AddCommGroup V] [Module ℚ V]

theorem proj_weights_sum (hn hn1 hn2 : ℚ) (h1 : hn1 ≠ 0) (h2 : hn2 ≠ 0) (h12 : hn1 + hn2 ≠ 0) :
    proj_cn hn hn1 hn2 + proj_cn1 hn hn1 hn2 + proj_cn2 hn hn1 hn2 = 0 := by
  unfold proj_cn proj_cn1 proj_cn2
  field_simp
  ring

theorem proj_weights_moment (hn hn1 hn2 : ℚ) (h1 : hn1 ≠ 0) (h2 : hn2 ≠ 0)
    (h12 : hn1 + hn2 ≠ 0) :
    proj_cn1 hn hn1 hn2 * (-hn1) + proj_cn2 hn hn1 hn2 * (-hn1 - hn2) = hn := by
  unfold proj_cn1 proj_cn2
  field_simp
  ring

/-- C5: for nonzero spacings hn1, hn2 with hn1 + hn2 nonzero (in particular for equally spaced
points) and history values on a straight line a + t b, the quadratic projection of the DC
controllers (started from x = xs1) and the BDF2 predictor of the transient controller both return
the value of that line at distance hn beyond the newest point; the three weights sum to 1 and are
the Lagrange weights of the three history points. -/
theorem quadratic_projection_exact_on_lines (a b : V) (t hn hn1 hn2 : ℚ)
    (h1 : hn1 ≠ 0) (h2 : hn2 ≠ 0) (h12 : hn1 + hn2 ≠ 0) :
    dc_quadratic_projection hn hn1 hn2 (a + t • b) (a + t • b) (a + (t - hn1) • b)
        (a + (t - hn1 - hn2) • b) = a + (t + hn) • b ∧
    tran_quadratic_predictor hn hn1 hn2 (a + t • b) (a + (t - hn1) • b)
        (a + (t - hn1 - hn2) • b) = a + (t + hn) • b ∧
    (1 + proj_cn hn hn1 hn2) + proj_cn1 hn hn1 hn2 + proj_cn2 hn hn1 hn2 = 1 ∧
    1 + proj_cn hn hn1 hn2
      = ((t + hn) - (t - hn1)) * ((t + hn) - (t - hn1 - hn2))
          / ((t - (t - hn1)) * (t - (t - hn1 - hn2))) ∧
    proj_cn1 hn hn1 hn2
      = ((t + hn) - t) * ((t + hn) - (t - hn1 - hn2))
          / (((t - hn1) - t) * ((t - hn1) - (t - hn1 - hn2))) ∧
    proj_cn2 hn hn1 hn2
      = ((t + hn) - t) * ((t + hn) - (t - hn1))
          / (((t - hn1 - hn2) - t) * ((t - hn1 - hn2) - (t - hn1))) := by
  have e0 := proj_weights_sum hn hn1 hn2 h1 h2 h12
  have e1 := proj_weights_moment hn hn1 hn2 h1 h2 h12
  have hdc : dc_quadratic_projection hn hn1 hn2 (a + t • b) (a + t • b) (a + (t - hn1) • b)
      (a + (t - hn1 - hn2) • b) = a + (t + hn) • b := by
    unfold dc_quadratic_projection
    generalize proj_cn hn hn1 hn2 = c0 at e0 e1 ⊢
    generalize proj_cn1 hn hn1 hn2 = c1 at e0 e1 ⊢
    generalize proj_cn2 hn hn1 hn2 = c2 at e0 e1 ⊢
    have hm : a + t • b + c0 • (a + t • b) + c1 • (a + (t - hn1) • b)
          + c2 • (a + (t - hn1 - hn2) • b)
        = a + (t + (c1 * (-hn1) + c2 * (-hn1 - hn2))) • b + (c0 + c1 + c2) • (a + t • b) := by
      module
    rw [hm, e0, e1, zero_smul, add_zero]
  refine ⟨hdc, ?_, ?_, ?_, ?_, ?_⟩
  · rw [← hdc]
    unfold tran_quadratic_predictor dc_quadratic_projection proj_cn proj_cn1 proj_cn2
    module
  · rw [add_assoc, add_assoc, ← add_assoc (proj_cn hn hn1 hn2), e0, add_zero]
  · rw [show (t + hn) - (t - hn1) = hn + hn1 by ring,
      show (t + hn) - (t - hn1 - hn2) = hn + hn1 + hn2 by ring,
      show t - (t - hn1) = hn1 by ring, show t - (t - hn1 - hn2) = hn1 + hn2 by ring]
    unfold proj_cn
    rw [eq_div_iff (mul_ne_zero h1 h12), add_mul, one_mul,
      div_mul_cancel₀ _ (mul_ne_zero h1 h12)]
    ring
  · rw [show (t + hn) - t = hn by ring,
      show (t + hn) - (t - hn1 - hn2) = hn + hn1 + hn2 by ring,
      show (t - hn1) - t = -hn1 by ring, show (t - hn1) - (t - hn1 - hn2) = hn2 by ring]
    unfold proj_cn1
    rw [div_eq_div_iff (mul_ne_zero h1 h2) (mul_ne_zero (neg_ne_zero.mpr h1) h2)]
    ring
  · rw [show (t + hn) - t = hn by ring, show (t + hn) - (t - hn1) = hn + hn1 by ring,
      show (t - hn1 - hn2) - t = -(hn1 + hn2) by ring,
      show (t - hn1 - hn2) - (t - hn1) = -hn2 by ring]
    unfold proj_cn2
    rw [div_eq_div_iff (mul_ne_zero h2 h12)
      (mul_ne_zero (neg_ne_zero.mpr h12) (neg_ne_zero.mpr h2))]
    ring

/-- Witness for C5: the line 1 + 2 t sampled at t = 1, 2, 3 (equal spacing 1) is projected to
its value 9 at t = 4. -/
theorem quadratic_projection_exact_on_lines_witness :
    (1 : ℚ) ≠ 0 ∧ (1 : ℚ) + 1 ≠ 0 ∧
    dc_quadratic_projection 1 1 1 ((1 : ℚ) + (3 : ℚ) • (2 : ℚ)) (1 + (3 : ℚ) • (2 : ℚ))
        (1 + ((3 : ℚ) - 1) • (2 : ℚ)) (1 + ((3 : ℚ) - 1 - 1) • (2 : ℚ))
      = 1 + ((3 : ℚ) + 1) • (2 : ℚ) ∧
    tran_quadratic_predictor 1 1 1 ((1 : ℚ) + (3 : ℚ) • (2 : ℚ))
        (1 + ((3 : ℚ) - 1) • (2 : ℚ)) (1 + ((3 : ℚ) - 1 - 1) • (2 : ℚ))
      = 1 + ((3 : ℚ) + 1) • (2 : ℚ) :=
  have h := quadratic_projection_exact_on_lines (1 : ℚ) (2 : ℚ) 3 1 1 1
    one_ne_zero one_ne_zero (by norm_num)
  ⟨one_ne_zero, by norm_num, h.1, h.2.1⟩

end ProjectionTheorems

section TransientTheorems
variable {V : Type} [AddCommGroup V] [Module ℚ V]

theorem lte_next_dt_eq_min (TStepMax r dt : ℚ) :
    lte_next_dt TStepMax r dt
      = min ((if r > 10 then 2 else if r > 3 then 3 / 2 else if r > 13 / 10 then 11 / 10
              else if r > 1 then 1 else 9 / 10) * dt) TStepMax := by
  unfold lte_next_dt
  simp only []
  have hmin : ∀ d : ℚ, (if d > TStepMax then TStepMax else d) = min d TStepMax := by
    intro d
    split_ifs with h
    · exact (min_eq_right (le_of_lt h)).symm
    · exact (min_eq_left (not_lt.mp h)).symm
  rw [hmin]
  congr 1
  split_ifs <;> ring

theorem tran_predict_control (cfg : TranConfig) (clamp : V → V → V) (s : TranState V) :
    (tran_predict cfg clamp s).dt = s.dt ∧ (tran_predict cfg clamp s).T_Cycles = s.T_Cycles ∧
    (tran_predict cfg clamp s).clock = s.clock := by
  unfold tran_predict
  split_ifs <;> exact ⟨rfl, rfl, rfl⟩

theorem tran_accept_control (cfg : TranConfig) (s : TranState V) :
    (tran_accept cfg s).T_Cycles = s.T_Cycles + 1 ∧
    ((tran_accept cfg s).dt = s.dt ∨ (tran_accept cfg s).clock = cfg.TStop) := by
  refine ⟨rfl, ?_⟩
  by_cases h : s.clock + s.dt > cfg.TStop ∧
      s.clock + s.dt < cfg.TStop + s.dt - 1 / 10 ^ 10 * s.dt
  · right
    simp only [tran_accept]
    rw [if_pos (by simpa using h)]
  · left
    simp only [tran_accept]
    rw [if_neg (by simpa using h)]

theorem tran_body_lte_reject (cfg : TranConfig) (clamp : V → V → V) (s : TranState V)
    (x1 : V) (r : ℚ) (hact : lte_active cfg s = true) (hr : r < 9 / 10) :
    ∃ s', tran_body cfg clamp (TranResult.converged x1 r) s = LoopStep.next s' ∧
      s'.dt = 9 / 10 * r * s.dt ∧ s'.T_Cycles = s.T_Cycles ∧
      s'.clock = s.clock - s.dt + 9 / 10 * r * s.dt := by
  have hact0 : lte_active cfg { s with x := x1, diverged_retry := 0 } = true := hact
  have hc : tran_step_control cfg clamp r { s with x := x1, diverged_retry := 0 }
      = (false, tran_lte_reject clamp r { s with x := x1, diverged_retry := 0 }) := by
    simp only [tran_step_control, hact0, hr, if_true]
  refine ⟨tran_predict cfg clamp (tran_lte_reject clamp r { s with x := x1, diverged_retry := 0 }),
    ?_, ?_, ?_, ?_⟩
  · simp only [tran_body, hc]
    simp
  · rw [(tran_predict_control cfg clamp _).1]
    simp only [tran_lte_reject]
    ring
  · rw [(tran_predict_control cfg clamp _).2.1]
    rfl
  · rw [(tran_predict_control cfg clamp _).2.2]
    simp only [tran_lte_reject]
    ring

theorem tran_body_lte_accept (cfg : TranConfig) (clamp : V → V → V) (s : TranState V)
    (x1 : V) (r : ℚ) (hact : lte_active cfg s = true) (hr : 9 / 10 ≤ r) :
    ∃ s', tran_body cfg clamp (TranResult.converged x1 r) s = LoopStep.next s' ∧
      s'.T_Cycles = s.T_Cycles + 1 ∧
      (s'.dt = lte_next_dt cfg.TStepMax r s.dt ∨ s'.clock = cfg.TStop) := by
  have hact0 : lte_active cfg { s with x := x1, diverged_retry := 0 } = true := hact
  have hc : tran_step_control cfg clamp r { s with x := x1, diverged_retry := 0 }
      = (true, { ({ s with x := x1, diverged_retry := 0 } : TranState V) with
                  dt_last_last := s.dt_last, dt_last := s.dt,
                  dt := lte_next_dt cfg.TStepMax r s.dt }) := by
    simp only [tran_step_control, hact0, not_lt.mpr hr, if_true, if_false]
  refine ⟨tran_predict cfg clamp (tran_accept cfg
    { ({ s with x := x1, diverged_retry := 0 } : TranState V) with
        dt_last_last := s.dt_last, dt_last := s.dt,
        dt := lte_next_dt cfg.TStepMax r s.dt }), ?_, ?_, ?_⟩
  · simp only [tran_body, hc]
    simp
  · rw [(tran_predict_control cfg clamp _).2.1, (tran_accept_control cfg _).1]
  · rw [(tran_predict_control cfg clamp _).1, (tran_predict_control cfg clamp _).2.2]
    exact (tran_accept_control cfg _).2

/-- C1: with LTE control active the step-size update of solve_transient depends only on the
ratio r and the current dt (and the cap TStepMax): for r < 0.9 the step is rejected and dt becomes
0.9 r dt; otherwise it is accepted and dt becomes min(g(r) dt, TStepMax) with g(r) = 2 for r > 10,
1.5 for 3 < r <= 10, 1.1 for 1.3 < r <= 3, 1 for 1 < r <= 1.3 and 0.9 for 0.9 <= r <= 1.  In the
loop body a rejected step leaves the cycle counter and ends the iteration with that dt; an
accepted step increments the counter and keeps that dt unless the clock is snapped to TStop. -/
theorem lte_step_update (cfg : TranConfig) (clamp : V → V → V) (s : TranState V) (r : ℚ)
    (hact : lte_active cfg s = true) :
    (r < 9 / 10 → (tran_step_control cfg clamp r s).1 = false ∧
      (tran_step_control cfg clamp r s).2.dt = 9 / 10 * r * s.dt) ∧
    (10 < r → (tran_step_control cfg clamp r s).1 = true ∧
      (tran_step_control cfg clamp r s).2.dt = min (2 * s.dt) cfg.TStepMax) ∧
    (3 < r → r ≤ 10 → (tran_step_control cfg clamp r s).1 = true ∧
      (tran_step_control cfg clamp r s).2.dt = min (3 / 2 * s.dt) cfg.TStepMax) ∧
    (13 / 10 < r → r ≤ 3 → (tran_step_control cfg clamp r s).1 = true ∧
      (tran_step_control cfg clamp r s).2.dt = min (11 / 10 * s.dt) cfg.TStepMax) ∧
    (1 < r → r ≤ 13 / 10 → (tran_step_control cfg clamp r s).1 = true ∧
      (tran_step_control cfg clamp r s).2.dt = min (1 * s.dt) cfg.TStepMax) ∧
    (9 / 10 ≤ r → r ≤ 1 → (tran_step_control cfg clamp r s).1 = true ∧
      (tran_step_control cfg clamp r s).2.dt = min (9 / 10 * s.dt) cfg.TStepMax) ∧
    (r < 9 / 10 → ∀ x1 : V, ∃ s',
      tran_body cfg clamp (TranResult.converged x1 r) s = LoopStep.next s' ∧
      s'.dt = 9 / 10 * r * s.dt ∧ s'.T_Cycles = s.T_Cycles) ∧
    (9 / 10 ≤ r → ∀ x1 : V, ∃ s',
      tran_body cfg clamp (TranResult.converged x1 r) s = LoopStep.next s' ∧
      s'.T_Cycles = s.T_Cycles + 1 ∧
      (s'.dt = (tran_step_control cfg clamp r s).2.dt ∨ s'.clock = cfg.TStop)) := by
  have hacc : ¬ r < 9 / 10 → (tran_step_control cfg clamp r s).1 = true ∧
      (tran_step_control cfg clamp r s).2.dt = lte_next_dt cfg.TStepMax r s.dt := by
    intro h
    simp [tran_step_control, hact, h]
  refine ⟨?_, ?_, ?_, ?_, ?_, ?_, ?_, ?_⟩
  rotate_left 6
  · intro h x1
    obtain ⟨s', hb, hdt, hcyc, -⟩ := tran_body_lte_reject cfg clamp s x1 r hact h
    exact ⟨s', hb, hdt, hcyc⟩
  · intro h x1
    obtain ⟨s', hb, hcyc, hdt⟩ := tran_body_lte_accept cfg clamp s x1 r hact h
    refine ⟨s', hb, hcyc, ?_⟩
    rw [(hacc (not_lt.mpr h)).2]
    exact hdt
  · intro h
    constructor
    · simp [tran_step_control, hact, h]
    · simp only [tran_step_control, hact, h, if_true, tran_lte_reject]
      ring
  · intro h
    obtain ⟨ha, hd⟩ := hacc (by linarith)
    refine ⟨ha, ?_⟩
    rw [hd, lte_next_dt_eq_min, if_pos h]
  · intro h h'
    obtain ⟨ha, hd⟩ := hacc (by linarith)
    refine ⟨ha, ?_⟩
    rw [hd, lte_next_dt_eq_min, if_neg (not_lt.mpr h'), if_pos h]
  · intro h h'
    obtain ⟨ha, hd⟩ := hacc (by linarith)
    refine ⟨ha, ?_⟩
    rw [hd, lte_next_dt_eq_min, if_neg (by linarith), if_neg (not_lt.mpr h'), if_pos h]
  · intro h h'
    obtain ⟨ha, hd⟩ := hacc (by linarith)
    refine ⟨ha, ?_⟩
    rw [hd, lte_next_dt_eq_min, if_neg (by linarith), if_neg (by linarith),
      if_neg (not_lt.mpr h'), if_pos h]
  · intro h h'
    obtain ⟨ha, hd⟩ := hacc (by linarith)
    refine ⟨ha, ?_⟩
    rw [hd, lte_next_dt_eq_min, if_neg (by linarith), if_neg (by linarith),
      if_neg (by linarith), if_neg (not_lt.mpr h')]

/-- Witness for C1: after three cycles of an adaptive first-order run with dt = 1 and cap 10,
r = 15 accepts with dt = 2 and r = 1/2 rejects with dt = 0.45. -/
theorem lte_step_update_witness :
    lte_active tran_cfg_auto tran_three_cycles = true ∧
    ((10 : ℚ) < 15 ∧ (tran_step_control tran_cfg_auto no_clamp 15 tran_three_cycles).1 = true ∧
      (tran_step_control tran_cfg_auto no_clamp 15 tran_three_cycles).2.dt
        = min (2 * tran_three_cycles.dt) tran_cfg_auto.TStepMax) ∧
    ((1 / 2 : ℚ) < 9 / 10 ∧
      (tran_step_control tran_cfg_auto no_clamp (1 / 2) tran_three_cycles).1 = false ∧
      (tran_step_control tran_cfg_auto no_clamp (1 / 2) tran_three_cycles).2.dt
        = 9 / 10 * (1 / 2) * tran_three_cycles.dt) :=
  have hact : lte_active tran_cfg_auto tran_three_cycles = true := by
    simp [lte_active, tran_cfg_auto, tran_three_cycles]
  ⟨hact,
    ⟨by norm_num, (lte_step_update tran_cfg_auto no_clamp tran_three_cycles 15 hact).2.1
      (by norm_num)⟩,
    ⟨by norm_num, (lte_step_update tran_cfg_auto no_clamp tran_three_cycles (1 / 2) hact).1
      (by norm_num)⟩⟩

theorem trailing_tran_divergences_snoc (es : List (TranResult V)) (e : TranResult V) :
    trailing_tran_divergences (es ++ [e])
      = if e.isConverged then 0 else trailing_tran_divergences es + 1 := by
  unfold trailing_tran_divergences
  rw [List.reverse_append, List.reverse_singleton, List.singleton_append, List.takeWhile_cons]
  cases h : e.isConverged <;> simp

theorem tran_predict_retry (cfg : TranConfig) (clamp : V → V → V) (s : TranState V) :
    (tran_predict cfg clamp s).diverged_retry = s.diverged_retry := by
  unfold tran_predict
  split_ifs <;> rfl

theorem tran_accept_retry (cfg : TranConfig) (s : TranState V) :
    (tran_accept cfg s).diverged_retry = s.diverged_retry := rfl

theorem tran_step_control_retry (cfg : TranConfig) (clamp : V → V → V) (r : ℚ)
    (s : TranState V) :
    (tran_step_control cfg clamp r s).2.diverged_retry = s.diverged_retry := by
  unfold tran_step_control
  split_ifs <;> rfl

theorem tran_body_converged (cfg : TranConfig) (clamp : V → V → V) (x1 : V) (r : ℚ)
    (s : TranState V) :
    ∃ s', tran_body cfg clamp (TranResult.converged x1 r) s = LoopStep.next s' ∧
      s'.diverged_retry = 0 := by
  simp only [tran_body]
  split_ifs
  · refine ⟨_, rfl, ?_⟩
    rw [tran_predict_retry, tran_accept_retry, tran_step_control_retry]
  · refine ⟨_, rfl, ?_⟩
    rw [tran_predict_retry, tran_step_control_retry]

theorem tran_body_diverged_brk (cfg : TranConfig) (clamp : V → V → V) (xf xr : V)
    (s : TranState V) (h : 7 ≤ s.diverged_retry) :
    ∃ s', tran_body cfg clamp (TranResult.diverged xf xr) s = LoopStep.brk s' := by
  have h8 : s.diverged_retry + 1 ≥ 8 := by omega
  simp [tran_body, h8]

theorem tran_body_diverged_next (cfg : TranConfig) (clamp : V → V → V) (xf xr : V)
    (s : TranState V) (h : s.diverged_retry < 7) :
    ∃ s', tran_body cfg clamp (TranResult.diverged xf xr) s = LoopStep.next s' ∧
      s'.diverged_retry = s.diverged_retry + 1 ∧ s'.dt = s.dt / 2 := by
  have h8 : ¬ s.diverged_retry + 1 ≥ 8 := by omega
  simp [tran_body, h8]

/-- While the transient loop is running, `diverged_retry` is the number of consecutive
divergences since the last converged solve, and it is at most 7. -/
theorem tran_retry_invariant (cfg : TranConfig) (clamp : V → V → V) (g : TranState V)
    (evs : List (TranResult V)) :
    (solve_transient_loop cfg clamp g evs).status = LoopEnd.running →
      (solve_transient_loop cfg clamp g evs).final.diverged_retry
        = (trailing_tran_divergences evs : Int) ∧
      trailing_tran_divergences evs ≤ 7 := by
  induction evs using List.reverseRecOn with
  | nil =>
    intro _
    simp [solve_transient_loop, do_while_loop, tran_start, trailing_tran_divergences]
  | append_singleton es e ih =>
    intro h
    unfold solve_transient_loop at h ih ⊢
    have hpre := do_while_running_of_append _ _ es [e] _ h
    obtain ⟨ih1, ih2⟩ := ih hpre
    obtain ⟨hbrk, hnext⟩ := do_while_snoc (tran_cond cfg) (tran_body cfg clamp) es e _ hpre
    rw [trailing_tran_divergences_snoc]
    cases e with
    | converged x1 r =>
      obtain ⟨s', hb, hr⟩ := tran_body_converged cfg clamp x1 r
        (do_while_loop (tran_cond cfg) (tran_body cfg clamp) es (tran_start cfg g)).final
      rw [(hnext s' hb).2, hr]
      simp [TranResult.isConverged]
    | diverged xf xr =>
      by_cases h7 : (do_while_loop (tran_cond cfg) (tran_body cfg clamp) es
          (tran_start cfg g)).final.diverged_retry < 7
      · obtain ⟨s', hb, hr, -⟩ := tran_body_diverged_next cfg clamp xf xr _ h7
        rw [(hnext s' hb).2, hr, ih1]
        simp only [TranResult.isConverged, Bool.false_eq_true, if_false]
        rw [ih1] at h7
        constructor
        · push_cast; ring
        · omega
      · obtain ⟨s', hb⟩ := tran_body_diverged_brk cfg clamp xf xr _ (not_lt.mp h7)
        rw [hbrk s' hb] at h
        cases h

theorem trailing_tran_divergences_append_divs (es divs : List (TranResult V))
    (hd : ∀ d ∈ divs, TranResult.isConverged d = false) :
    trailing_tran_divergences (es ++ divs) = trailing_tran_divergences es + divs.length := by
  induction divs using List.reverseRecOn with
  | nil => simp
  | append_singleton ds d ih =>
    rw [← List.append_assoc, trailing_tran_divergences_snoc,
      hd d (by simp), ih (fun d' hd' => hd d' (by simp [hd']))]
    simp only [Bool.false_eq_true, if_false, List.length_append, List.length_singleton]
    ring

/-- A run of consecutive divergences that leaves the loop running halves `dt` once per
divergence. -/
theorem tran_divs_halve_dt (cfg : TranConfig) (clamp : V → V → V) (g : TranState V)
    (evs divs : List (TranResult V)) (hd : ∀ d ∈ divs, TranResult.isConverged d = false) :
    (solve_transient_loop cfg clamp g (evs ++ divs)).status = LoopEnd.running →
      (solve_transient_loop cfg clamp g (evs ++ divs)).final.dt
        = (solve_transient_loop cfg clamp g evs).final.dt / 2 ^ divs.length := by
  induction divs using List.reverseRecOn with
  | nil =>
    intro _
    simp
  | append_singleton ds d ih =>
    intro h
    rw [← List.append_assoc] at h ⊢
    have hpre : (solve_transient_loop cfg clamp g (evs ++ ds)).status = LoopEnd.running :=
      do_while_running_of_append _ _ (evs ++ ds) [d] _ h
    have ih' := ih (fun d' hd' => hd d' (by simp [hd'])) hpre
    obtain ⟨hbrk, hnext⟩ := do_while_snoc (tran_cond cfg) (tran_body cfg clamp) (evs ++ ds) d
      (tran_start cfg g) hpre
    have hdd := hd d (by simp)
    cases d with
    | converged x1 r => simp [TranResult.isConverged] at hdd
    | diverged xf xr =>
      by_cases h7 : (solve_transient_loop cfg clamp g (evs ++ ds)).final.diverged_retry < 7
      · obtain ⟨s', hb, -, hdt⟩ := tran_body_diverged_next cfg clamp xf xr _ h7
        have hfin : (solve_transient_loop cfg clamp g (evs ++ ds ++ [TranResult.diverged xf xr])).final
            = s' := (hnext s' hb).2
        rw [hfin, hdt, ih', List.length_append, List.length_singleton, pow_succ]
        field_simp
      · obtain ⟨s', hb⟩ := tran_body_diverged_brk cfg clamp xf xr _ (not_lt.mp h7)
        have hab : (solve_transient_loop cfg clamp g
            (evs ++ ds ++ [TranResult.diverged xf xr])).status = LoopEnd.aborted := hbrk s' hb
        rw [hab] at h
        cases h

/-- C10: while solve_transient is running, a divergence aborts exactly when it is the 8th
consecutive divergence (seven divergences since the last converged solve or the start); every
converged solve, accepted or LTE-rejected, resets the counter to 0; every non-aborting divergence
halves dt, so dt is halved at most 7 times between two converged solves, and an isolated
divergence halves dt once without aborting. -/
theorem tran_divergence_budget (cfg : TranConfig) (clamp : V → V → V) (g : TranState V)
    (evs : List (TranResult V))
    (hrun : (solve_transient_loop cfg clamp g evs).status = LoopEnd.running) :
    (solve_transient_loop cfg clamp g evs).final.diverged_retry
      = (trailing_tran_divergences evs : Int) ∧
    trailing_tran_divergences evs ≤ 7 ∧
    (∀ xf xr : V,
      (solve_transient_loop cfg clamp g (evs ++ [TranResult.diverged xf xr])).status
        = LoopEnd.aborted ↔ trailing_tran_divergences evs = 7) ∧
    (∀ xf xr : V, trailing_tran_divergences evs < 7 →
      (solve_transient_loop cfg clamp g (evs ++ [TranResult.diverged xf xr])).final.dt
        = (solve_transient_loop cfg clamp g evs).final.dt / 2) ∧
    (∀ (x1 : V) (r : ℚ),
      (solve_transient_loop cfg clamp g (evs ++ [TranResult.converged x1 r])).status
        ≠ LoopEnd.aborted ∧
      (solve_transient_loop cfg clamp g (evs ++ [TranResult.converged x1 r])).final.diverged_retry
        = 0) ∧
    (∀ divs : List (TranResult V), (∀ d ∈ divs, TranResult.isConverged d = false) →
      (solve_transient_loop cfg clamp g (evs ++ divs)).status = LoopEnd.running →
      trailing_tran_divergences evs + divs.length ≤ 7 ∧
      (solve_transient_loop cfg clamp g (evs ++ divs)).final.dt
        = (solve_transient_loop cfg clamp g evs).final.dt / 2 ^ divs.length) := by
  obtain ⟨hinv1, hinv2⟩ := tran_retry_invariant cfg clamp g evs hrun
  refine ⟨hinv1, hinv2, ?_, ?_, ?_, ?_⟩
  · intro xf xr
    obtain ⟨hbrk, hnext⟩ := do_while_snoc (tran_cond cfg) (tran_body cfg clamp) evs
      (TranResult.diverged xf xr) (tran_start cfg g) hrun
    by_cases h7 : (solve_transient_loop cfg clamp g evs).final.diverged_retry < 7
    · obtain ⟨s', hb, -⟩ := tran_body_diverged_next cfg clamp xf xr _ h7
      have hne : (solve_transient_loop cfg clamp g (evs ++ [TranResult.diverged xf xr])).status
          ≠ LoopEnd.aborted := (hnext s' hb).1
      rw [hinv1] at h7
      constructor
      · intro hab; exact absurd hab hne
      · intro h; omega
    · obtain ⟨s', hb⟩ := tran_body_diverged_brk cfg clamp xf xr _ (not_lt.mp h7)
      have hab : (solve_transient_loop cfg clamp g (evs ++ [TranResult.diverged xf xr])).status
          = LoopEnd.aborted := hbrk s' hb
      rw [hinv1] at h7
      constructor
      · intro _; omega
      · intro _; exact hab
  · intro xf xr hlt
    obtain ⟨-, hnext⟩ := do_while_snoc (tran_cond cfg) (tran_body cfg clamp) evs
      (TranResult.diverged xf xr) (tran_start cfg g) hrun
    have h7 : (solve_transient_loop cfg clamp g evs).final.diverged_retry < 7 := by
      rw [hinv1]; exact_mod_cast hlt
    obtain ⟨s', hb, -, hdt⟩ := tran_body_diverged_next cfg clamp xf xr _ h7
    have hfin : (solve_transient_loop cfg clamp g (evs ++ [TranResult.diverged xf xr])).final
        = s' := (hnext s' hb).2
    rw [hfin, hdt]
  · intro x1 r
    obtain ⟨-, hnext⟩ := do_while_snoc (tran_cond cfg) (tran_body cfg clamp) evs
      (TranResult.converged x1 r) (tran_start cfg g) hrun
    obtain ⟨s', hb, hr⟩ := tran_body_converged cfg clamp x1 r
      (solve_transient_loop cfg clamp g evs).final
    have hfin : (solve_transient_loop cfg clamp g (evs ++ [TranResult.converged x1 r])).final
        = s' := (hnext s' hb).2
    exact ⟨(hnext s' hb).1, by rw [hfin, hr]⟩
  · intro divs hd hrun2
    refine ⟨?_, tran_divs_halve_dt cfg clamp g evs divs hd hrun2⟩
    have h := (tran_retry_invariant cfg clamp g (evs ++ divs) hrun2).2
    rw [trailing_tran_divergences_append_divs evs divs hd] at h
    exact h

/-- Witness for C10: after two accepted steps of a run from 0 to 10 a single divergence does not
abort and halves dt once. -/
theorem tran_divergence_budget_witness :
    (solve_transient_loop tran_cfg_auto no_clamp tran_zero tran_two_converged).status
      = LoopEnd.running ∧
    trailing_tran_divergences tran_two_converged < 7 ∧
    ((solve_transient_loop tran_cfg_auto no_clamp tran_zero
        (tran_two_converged ++ [TranResult.diverged 0 0])).status = LoopEnd.aborted ↔
      trailing_tran_divergences tran_two_converged = 7) ∧
    (solve_transient_loop tran_cfg_auto no_clamp tran_zero
        (tran_two_converged ++ [TranResult.diverged 0 0])).final.dt
      = (solve_transient_loop tran_cfg_auto no_clamp tran_zero tran_two_converged).final.dt / 2 :=
  have hrun : (solve_transient_loop tran_cfg_auto no_clamp tran_zero tran_two_converged).status
      = LoopEnd.running := by
    norm_num [solve_transient_loop, do_while_loop, tran_body, tran_cond, tran_start,
      tran_step_control, tran_accept, tran_predict, lte_active, tran_cfg_auto, tran_zero,
      tran_two_converged, fabs]
  have hlt : trailing_tran_divergences tran_two_converged < 7 := by
    simp [trailing_tran_divergences, tran_two_converged, TranResult.isConverged]
  have h := tran_divergence_budget tran_cfg_auto no_clamp tran_zero tran_two_converged hrun
  ⟨hrun, hlt, h.2.2.1 0 0, h.2.2.2.1 0 0 hlt⟩

end TransientTheorems

section GroundTheorems

/-- C6: on the circuit-owning process, after ground_spice_0_node(f, flag) the residual entry at
the global offset of node 0 is exactly rhs_old(0), whatever had been accumulated there, every
other entry is unchanged and the flag is INSERT_VALUES (on other processes nothing changes but
the flag); after ground_spice_0_node(jac) the Jacobian row at that offset is zero except for a
diagonal 1 and every other row is unchanged. -/
theorem ground_spice_0_node_pins (rhs_old_0 : ℚ) (global_offset_0 : Int) (f : ResidualVec)
    (add_value_flag : InsertMode) (jac : Int → Int → ℚ)
    (hflag : add_value_flag = InsertMode.INSERT_VALUES ∨
      add_value_flag = InsertMode.NOT_SET_VALUES → f.stash = []) :
    (ground_spice_0_node true rhs_old_0 global_offset_0 f add_value_flag).1.assembled
        global_offset_0 = rhs_old_0 ∧
    (∀ j : Int, j ≠ global_offset_0 →
      (ground_spice_0_node true rhs_old_0 global_offset_0 f add_value_flag).1.assembled j
        = f.assembled j) ∧
    (ground_spice_0_node true rhs_old_0 global_offset_0 f add_value_flag).2
      = InsertMode.INSERT_VALUES ∧
    (∀ j : Int,
      (ground_spice_0_node false rhs_old_0 global_offset_0 f add_value_flag).1.assembled j
        = f.assembled j) ∧
    (ground_spice_0_node false rhs_old_0 global_offset_0 f add_value_flag).2
      = InsertMode.INSERT_VALUES ∧
    (∀ j : Int, ground_spice_0_node_jac global_offset_0 jac global_offset_0 j
      = if j = global_offset_0 then 1 else 0) ∧
    (∀ i j : Int, i ≠ global_offset_0 →
      ground_spice_0_node_jac global_offset_0 jac i j = jac i j) := by
  have hasm : ∀ j : Int, (VecAssembly (VecAssembly f)).vals j = (VecAssembly f).vals j := by
    intro j
    simp [VecAssembly]
  refine ⟨?_, ?_, rfl, ?_, rfl, ?_, ?_⟩
  · by_cases hc : add_value_flag ≠ InsertMode.INSERT_VALUES ∧
        add_value_flag ≠ InsertMode.NOT_SET_VALUES
    · simp [ground_spice_0_node, hc, ResidualVec.assembled, VecSetValue_insert, VecAssembly]
    · have hs : f.stash = [] := hflag (by tauto)
      simp [ground_spice_0_node, hc, ResidualVec.assembled, VecSetValue_insert, VecAssembly, hs]
  · intro j hj
    by_cases hc : add_value_flag ≠ InsertMode.INSERT_VALUES ∧
        add_value_flag ≠ InsertMode.NOT_SET_VALUES
    · simp [ground_spice_0_node, hc, ResidualVec.assembled, VecSetValue_insert, VecAssembly,
        Function.update_noteq hj]
    · have hs : f.stash = [] := hflag (by tauto)
      simp [ground_spice_0_node, hc, ResidualVec.assembled, VecSetValue_insert, VecAssembly, hs,
        Function.update_noteq hj]
  · intro j
    by_cases hc : add_value_flag ≠ InsertMode.INSERT_VALUES ∧
        add_value_flag ≠ InsertMode.NOT_SET_VALUES
    · have hc' : ¬ add_value_flag = InsertMode.INSERT_VALUES ∧
          ¬ add_value_flag = InsertMode.NOT_SET_VALUES := hc
      simp only [ground_spice_0_node, ResidualVec.assembled, ne_eq, if_pos hc']
      simp [hasm]
    · simp [ground_spice_0_node, hc, ResidualVec.assembled]
  · intro j
    simp [ground_spice_0_node_jac, MatZeroRows]
  · intro i j hi
    simp [ground_spice_0_node_jac, MatZeroRows, hi]

/-- Witness for C6: residual 4 everywhere with a pending contribution 5 to the ground row 7,
flag ADD_VALUES, stored scalar 3. -/
theorem ground_spice_0_node_pins_witness :
    (InsertMode.ADD_VALUES = InsertMode.INSERT_VALUES ∨
      InsertMode.ADD_VALUES = InsertMode.NOT_SET_VALUES → residual_demo.stash = []) ∧
    residual_demo.assembled 7 = 9 ∧
    (ground_spice_0_node true 3 7 residual_demo InsertMode.ADD_VALUES).1.assembled 7 = 3 ∧
    (ground_spice_0_node true 3 7 residual_demo InsertMode.ADD_VALUES).2
      = InsertMode.INSERT_VALUES :=
  have hflag : InsertMode.ADD_VALUES = InsertMode.INSERT_VALUES ∨
      InsertMode.ADD_VALUES = InsertMode.NOT_SET_VALUES → residual_demo.stash = [] := by
    intro h
    rcases h with h | h <;> cases h
  have h := ground_spice_0_node_pins 3 7 residual_demo InsertMode.ADD_VALUES (fun _ _ => 0) hflag
  ⟨hflag, by norm_num [ResidualVec.assembled, VecAssembly, residual_demo], h.1, h.2.2.1⟩

end GroundTheorems

section SweepLemmas
variable {V : Type} [AddCommGroup V] [Module ℚ V]

theorem dcsweep_body_converged (cfg : SweepConfig) (clamp : V → V → V) (x1 : V)
    (s : SweepState V) :
    ∃ s', dcsweep_body cfg clamp (SolveResult.converged x1) s = LoopStep.next s' ∧
      s'.DC_Cycles = s.DC_Cycles + 1 ∧ s'.V_retry = s.V_retry.tail ∧
      s'.VStep = (if fabs s.VStep < fabs cfg.VStepMax then s.VStep * (11 / 10) else s.VStep) := by
  cases hP : cfg.Predict <;>
    simp [dcsweep_body, dcsweep_verdict, dcsweep_finish, dcsweep_advance, hP]

theorem dcsweep_body_diverged_brk (cfg : SweepConfig) (clamp : V → V → V) (xf xr : V)
    (s : SweepState V) (h : s.DC_Cycles = 0 ∨ 8 ≤ s.V_retry.length) :
    ∃ s', dcsweep_body cfg clamp (SolveResult.diverged xf xr) s = LoopStep.brk s' ∧
      s'.V_retry = s.V_retry ∧ s'.VStep = s.VStep ∧ s'.DC_Cycles = s.DC_Cycles := by
  by_cases h0 : s.DC_Cycles = 0
  · simp [dcsweep_body, dcsweep_verdict, h0]
  · have h8 : 8 ≤ s.V_retry.length := by tauto
    simp [dcsweep_body, dcsweep_verdict, h0, h8]

theorem dcsweep_body_diverged_next (cfg : SweepConfig) (clamp : V → V → V) (xf xr : V)
    (s : SweepState V) (h0 : s.DC_Cycles ≠ 0) (h8 : s.V_retry.length < 8) :
    ∃ s', dcsweep_body cfg clamp (SolveResult.diverged xf xr) s = LoopStep.next s' ∧
      s'.V_retry = s.Vscan :: s.V_retry ∧ s'.Vscan = (s.Vscan + s.Vs1) / 2 ∧
      s'.VStep = s.VStep ∧ s'.DC_Cycles = s.DC_Cycles := by
  have h8n : ¬ 8 ≤ s.V_retry.length := not_le.mpr h8
  simp [dcsweep_body, dcsweep_verdict, dcsweep_finish, h0, h8n]

/-- In every state of a sweep run the cycle counter is non-negative and the retry stack holds
at most 8 values. -/
theorem dcsweep_stack_bound (cfg : SweepConfig) (clamp : V → V → V) (g : SweepState V)
    (evs : List (SolveResult V)) :
    ((dcsweep cfg clamp g evs).final.V_retry.length ≤ 8 ∧
      0 ≤ (dcsweep cfg clamp g evs).final.DC_Cycles) ∧
    ∀ a ∈ (dcsweep cfg clamp g evs).trace, a.1.V_retry.length ≤ 8 ∧ 0 ≤ a.1.DC_Cycles := by
  unfold dcsweep
  apply while_loop_invariant (dcsweep_cond cfg) (dcsweep_body cfg clamp) (fun _ => True)
    (fun s => s.V_retry.length ≤ 8 ∧ 0 ≤ s.DC_Cycles)
  · intro e s s' _ hs _ hb
    cases e with
    | converged x1 =>
      obtain ⟨s2, hb2, hc, hst, -⟩ := dcsweep_body_converged cfg clamp x1 s
      rw [hb2] at hb
      cases hb
      rw [hst, hc, List.length_tail]
      omega
    | diverged xf xr =>
      by_cases hab : s.DC_Cycles = 0 ∨ 8 ≤ s.V_retry.length
      · obtain ⟨s2, hb2, -⟩ := dcsweep_body_diverged_brk cfg clamp xf xr s hab
        rw [hb2] at hb
        cases hb
      · push_neg at hab
        obtain ⟨s2, hb2, hst, -, -, hc⟩ := dcsweep_body_diverged_next cfg clamp xf xr s hab.1 hab.2
        rw [hb2] at hb
        cases hb
        rw [hst, hc, List.length_cons]
        omega
  · intro e s s' _ hs _ hb
    cases e with
    | converged x1 =>
      obtain ⟨s2, hb2, -⟩ := dcsweep_body_converged cfg clamp x1 s
      rw [hb2] at hb
      cases hb
    | diverged xf xr =>
      by_cases hab : s.DC_Cycles = 0 ∨ 8 ≤ s.V_retry.length
      · obtain ⟨s2, hb2, hst, -, hc⟩ := dcsweep_body_diverged_brk cfg clamp xf xr s hab
        rw [hb2] at hb
        cases hb
        rw [hst, hc]
        exact hs
      · push_neg at hab
        obtain ⟨s2, hb2, -⟩ := dcsweep_body_diverged_next cfg clamp xf xr s hab.1 hab.2
        rw [hb2] at hb
        cases hb
  · intro e _
    trivial
  · simp [dcsweep_start]

/-- While the sweep is running, `DC_Cycles` counts the accepted points. -/
theorem dcsweep_cycles (cfg : SweepConfig) (clamp : V → V → V) (g : SweepState V)
    (evs : List (SolveResult V)) :
    (dcsweep cfg clamp g evs).status = LoopEnd.running →
      (dcsweep cfg clamp g evs).final.DC_Cycles
        = ((evs.countP (fun e => e.isConverged) : Nat) : Int) := by
  induction evs using List.reverseRecOn with
  | nil =>
    intro _
    unfold dcsweep
    rw [while_loop_nil]
    split_ifs <;> simp [dcsweep_start]
  | append_singleton es e ih =>
    intro h
    unfold dcsweep at h ih ⊢
    have hpre := while_loop_running_of_append _ _ es [e] _ h
    have ih' := ih hpre
    obtain ⟨hbrk, hnext⟩ := while_loop_snoc (dcsweep_cond cfg) (dcsweep_body cfg clamp) es e _ hpre
    cases e with
    | converged x1 =>
      obtain ⟨s', hb, hc, -⟩ := dcsweep_body_converged cfg clamp x1
        (while_loop (dcsweep_cond cfg) (dcsweep_body cfg clamp) es (dcsweep_start cfg g)).final
      rw [(hnext s' hb).1, hc, ih']
      simp [List.countP_append, SolveResult.isConverged]
    | diverged xf xr =>
      by_cases hab : (while_loop (dcsweep_cond cfg) (dcsweep_body cfg clamp) es
            (dcsweep_start cfg g)).final.DC_Cycles = 0 ∨
          8 ≤ (while_loop (dcsweep_cond cfg) (dcsweep_body cfg clamp) es
            (dcsweep_start cfg g)).final.V_retry.length
      · obtain ⟨s', hb, -⟩ := dcsweep_body_diverged_brk cfg clamp xf xr _ hab
        rw [(hbrk s' hb).1] at h
        cases h
      · push_neg at hab
        obtain ⟨s', hb, -, -, -, hc⟩ := dcsweep_body_diverged_next cfg clamp xf xr _ hab.1 hab.2
        rw [(hnext s' hb).1, hc, ih']
        simp [List.countP_append, SolveResult.isConverged]

end SweepLemmas

section SweepStackTheorems
variable {V : Type} [AddCommGroup V] [Module ℚ V]

/-- Consecutive divergences that leave the sweep running push one value each. -/
theorem dcsweep_divs_push (cfg : SweepConfig) (clamp : V → V → V) (g : SweepState V)
    (evs divs : List (SolveResult V)) (hd : ∀ d ∈ divs, SolveResult.isConverged d = false) :
    (dcsweep cfg clamp g (evs ++ divs)).status = LoopEnd.running →
      (dcsweep cfg clamp g (evs ++ divs)).final.V_retry.length
        = (dcsweep cfg clamp g evs).final.V_retry.length + divs.length := by
  induction divs using List.reverseRecOn with
  | nil =>
    intro _
    simp
  | append_singleton ds d ih =>
    intro h
    rw [← List.append_assoc] at h ⊢
    unfold dcsweep at h ih ⊢
    have hpre := while_loop_running_of_append _ _ (evs ++ ds) [d] _ h
    have ih' := ih (fun d' hd' => hd d' (by simp [hd'])) hpre
    obtain ⟨hbrk, hnext⟩ := while_loop_snoc (dcsweep_cond cfg) (dcsweep_body cfg clamp)
      (evs ++ ds) d _ hpre
    have hdd := hd d (by simp)
    cases d with
    | converged x1 => simp [SolveResult.isConverged] at hdd
    | diverged xf xr =>
      by_cases hab : (while_loop (dcsweep_cond cfg) (dcsweep_body cfg clamp) (evs ++ ds)
            (dcsweep_start cfg g)).final.DC_Cycles = 0 ∨
          8 ≤ (while_loop (dcsweep_cond cfg) (dcsweep_body cfg clamp) (evs ++ ds)
            (dcsweep_start cfg g)).final.V_retry.length
      · obtain ⟨s', hb, -⟩ := dcsweep_body_diverged_brk cfg clamp xf xr _ hab
        rw [(hbrk s' hb).1] at h
        cases h
      · push_neg at hab
        obtain ⟨s', hb, hst, -⟩ := dcsweep_body_diverged_next cfg clamp xf xr _ hab.1 hab.2
        rw [(hnext s' hb).1, hst, List.length_cons, ih', List.length_append,
          List.length_singleton]
        ring

/-- C11: in the sweep loop of solve_dcsweep (voltage sweep; the current sweep is the same loop),
while the sweep is running a divergence aborts exactly when no point has been accepted yet or the
retry stack already holds 8 values; every other divergence pushes exactly the failed value, so k
consecutive divergences add exactly k values (k <= 8 from an empty stack), and the stack depth
never exceeds 8 in any state of any run. -/
theorem dcsweep_retry_stack (cfg : SweepConfig) (clamp : V → V → V) (g : SweepState V)
    (evs : List (SolveResult V))
    (hrun : (dcsweep cfg clamp g evs).status = LoopEnd.running) :
    (∀ xf xr : V,
      (dcsweep cfg clamp g (evs ++ [SolveResult.diverged xf xr])).status = LoopEnd.aborted ↔
        (evs.countP (fun e => e.isConverged) = 0 ∨
          (dcsweep cfg clamp g evs).final.V_retry.length = 8)) ∧
    (∀ xf xr : V,
      (dcsweep cfg clamp g (evs ++ [SolveResult.diverged xf xr])).status ≠ LoopEnd.aborted →
      (dcsweep cfg clamp g (evs ++ [SolveResult.diverged xf xr])).final.V_retry
        = (dcsweep cfg clamp g evs).final.Vscan :: (dcsweep cfg clamp g evs).final.V_retry) ∧
    (∀ divs : List (SolveResult V), (∀ d ∈ divs, SolveResult.isConverged d = false) →
      (dcsweep cfg clamp g (evs ++ divs)).status = LoopEnd.running →
      (dcsweep cfg clamp g (evs ++ divs)).final.V_retry.length
        = (dcsweep cfg clamp g evs).final.V_retry.length + divs.length ∧
      (dcsweep cfg clamp g evs).final.V_retry.length + divs.length ≤ 8) ∧
    (∀ evs2 : List (SolveResult V),
      (dcsweep cfg clamp g evs2).final.V_retry.length ≤ 8 ∧
      ∀ a ∈ (dcsweep cfg clamp g evs2).trace, a.1.V_retry.length ≤ 8) := by
  have hcyc := dcsweep_cycles cfg clamp g evs hrun
  have hle := (dcsweep_stack_bound cfg clamp g evs).1.1
  refine ⟨?_, ?_, ?_, ?_⟩
  · intro xf xr
    obtain ⟨hbrk, hnext⟩ := while_loop_snoc (dcsweep_cond cfg) (dcsweep_body cfg clamp) evs
      (SolveResult.diverged xf xr) (dcsweep_start cfg g) hrun
    by_cases hab : (dcsweep cfg clamp g evs).final.DC_Cycles = 0 ∨
        8 ≤ (dcsweep cfg clamp g evs).final.V_retry.length
    · obtain ⟨s', hb, -⟩ := dcsweep_body_diverged_brk cfg clamp xf xr _ hab
      have hst : (dcsweep cfg clamp g (evs ++ [SolveResult.diverged xf xr])).status
          = LoopEnd.aborted := (hbrk s' hb).1
      rw [hcyc] at hab
      simp only [hst, true_iff]
      omega
    · have hab2 := hab
      push_neg at hab2
      obtain ⟨s', hb, -⟩ := dcsweep_body_diverged_next cfg clamp xf xr _ hab2.1 hab2.2
      have hst : (dcsweep cfg clamp g (evs ++ [SolveResult.diverged xf xr])).status
          = if dcsweep_cond cfg s' then LoopEnd.running else LoopEnd.completed := (hnext s' hb).2
      rw [hcyc] at hab
      have hno : ¬ (evs.countP (fun e => e.isConverged) = 0 ∨
          (dcsweep cfg clamp g evs).final.V_retry.length = 8) := by omega
      simp only [hst, hno, iff_false]
      split_ifs <;> simp
  · intro xf xr hne
    obtain ⟨hbrk, hnext⟩ := while_loop_snoc (dcsweep_cond cfg) (dcsweep_body cfg clamp) evs
      (SolveResult.diverged xf xr) (dcsweep_start cfg g) hrun
    by_cases hab : (dcsweep cfg clamp g evs).final.DC_Cycles = 0 ∨
        8 ≤ (dcsweep cfg clamp g evs).final.V_retry.length
    · obtain ⟨s', hb, -⟩ := dcsweep_body_diverged_brk cfg clamp xf xr _ hab
      exact absurd (hbrk s' hb).1 hne
    · push_neg at hab
      obtain ⟨s', hb, hst, -⟩ := dcsweep_body_diverged_next cfg clamp xf xr _ hab.1 hab.2
      have hfin : (dcsweep cfg clamp g (evs ++ [SolveResult.diverged xf xr])).final = s' :=
        (hnext s' hb).1
      rw [hfin, hst]
  · intro divs hd hrun2
    have h1 := dcsweep_divs_push cfg clamp g evs divs hd hrun2
    refine ⟨h1, ?_⟩
    rw [← h1]
    exact (dcsweep_stack_bound cfg clamp g (evs ++ divs)).1.1
  · intro evs2
    exact ⟨(dcsweep_stack_bound cfg clamp g evs2).1.1,
      fun a ha => ((dcsweep_stack_bound cfg clamp g evs2).2 a ha).1⟩

/-- Witness for C11: sweeping from 0 to 5 in steps of 1, after one accepted point two
consecutive divergences are recovered and leave two values on the stack. -/
theorem dcsweep_retry_stack_witness :
    (dcsweep ⟨0, 1, 5, 1, true⟩ no_clamp sweep_zero [conv0]).status = LoopEnd.running ∧
    (∀ d ∈ [div0, div0], SolveResult.isConverged d = false) ∧
    (dcsweep ⟨0, 1, 5, 1, true⟩ no_clamp sweep_zero ([conv0] ++ [div0, div0])).status
      = LoopEnd.running ∧
    (dcsweep ⟨0, 1, 5, 1, true⟩ no_clamp sweep_zero ([conv0] ++ [div0, div0])).final.V_retry.length
      = (dcsweep ⟨0, 1, 5, 1, true⟩ no_clamp sweep_zero [conv0]).final.V_retry.length
        + [div0, div0].length ∧
    ((dcsweep ⟨0, 1, 5, 1, true⟩ no_clamp sweep_zero
        ([conv0] ++ [SolveResult.diverged 0 0])).status = LoopEnd.aborted ↔
      ([conv0].countP (fun e => e.isConverged) = 0 ∨
        (dcsweep ⟨0, 1, 5, 1, true⟩ no_clamp sweep_zero [conv0]).final.V_retry.length = 8)) :=
  have hrun : (dcsweep ⟨0, 1, 5, 1, true⟩ no_clamp sweep_zero [conv0]).status
      = LoopEnd.running := by
    norm_num [dcsweep, while_loop, dcsweep_cond, dcsweep_body, dcsweep_verdict,
      dcsweep_finish, dcsweep_advance, dcsweep_start, fabs, sweep_zero, conv0]
  have hd : ∀ d ∈ [div0, div0], SolveResult.isConverged d = false := by
    intro d hd
    simp only [List.mem_cons, List.mem_singleton, List.not_mem_nil, or_false, or_self] at hd
    rw [hd]
    rfl
  have hrun2 : (dcsweep ⟨0, 1, 5, 1, true⟩ no_clamp sweep_zero
      ([conv0] ++ [div0, div0])).status = LoopEnd.running := by
    norm_num [dcsweep, while_loop, dcsweep_cond, dcsweep_body, dcsweep_verdict,
      dcsweep_finish, dcsweep_advance, dcsweep_start, fabs, sweep_zero, conv0, div0]
  have h := dcsweep_retry_stack ⟨0, 1, 5, 1, true⟩ no_clamp sweep_zero [conv0] hrun
  ⟨hrun, hd, hrun2, (h.2.2.1 [div0, div0] hd hrun2).1, h.1 0 0⟩

end SweepStackTheorems

section RampTermination
variable {V : Type} [AddCommGroup V] [Module ℚ V]

/-- The ramp loop runs at most `(rampup_steps + 1 - step) * 2^(3 - retry) + (3 - retry) + 1`
iterations from a state at refinement level `retry <= 3`: every accepted step and every recovery
lowers this count. -/
theorem ramp_terminates (Predict : Bool) (clamp : V → V → V) (evs : List (SolveResult V)) :
    ∀ s : RampState V, 1 ≤ s.step → s.step ≤ s.rampup_steps + 1 → 0 ≤ s.retry → s.retry ≤ 3 →
      ((while_loop dcop_ramp_cond (dcop_ramp_body Predict clamp) evs s).trace.length : Int)
        ≤ (s.rampup_steps + 1 - s.step) * 2 ^ (3 - s.retry).toNat + (3 - s.retry) + 1 ∧
      ((s.rampup_steps + 1 - s.step) * 2 ^ (3 - s.retry).toNat + (3 - s.retry)
          < (evs.length : Int) →
        (while_loop dcop_ramp_cond (dcop_ramp_body Predict clamp) evs s).status
          ≠ LoopEnd.running) := by
  induction evs with
  | nil =>
    intro s h1 h2 h3 h4
    have hpow : (0 : Int) < 2 ^ (3 - s.retry).toNat := by positivity
    have hm : 0 ≤ (s.rampup_steps + 1 - s.step) * 2 ^ (3 - s.retry).toNat :=
      mul_nonneg (by omega) (le_of_lt hpow)
    rw [while_loop_nil]
    constructor
    · split_ifs <;> simp <;> omega
    · intro hlt
      simp only [List.length_nil, Nat.cast_zero] at hlt
      omega
  | cons e es ih =>
    intro s h1 h2 h3 h4
    have hpow : (1 : Int) ≤ 2 ^ (3 - s.retry).toNat := by
      have : (0 : Int) < 2 ^ (3 - s.retry).toNat := by positivity
      omega
    have hm : 0 ≤ (s.rampup_steps + 1 - s.step) * 2 ^ (3 - s.retry).toNat :=
      mul_nonneg (by omega) (by omega)
    by_cases hle : s.step ≤ s.rampup_steps
    · have hcond := (dcop_ramp_cond_iff s).mpr hle
      cases e with
      | converged x1 =>
        obtain ⟨s', hb, hstep, hramp, hretry, -⟩ := dcop_ramp_body_converged Predict clamp x1 s
        rw [while_loop_cons_next _ _ _ _ _ _ hcond hb]
        obtain ⟨i1, i2⟩ := ih s' (by omega) (by omega) (by omega) (by omega)
        rw [hstep, hramp, hretry] at i1 i2
        have hdec : (s.rampup_steps + 1 - (s.step + 1)) * 2 ^ (3 - s.retry).toNat
            ≤ (s.rampup_steps + 1 - s.step) * 2 ^ (3 - s.retry).toNat - 1 := by
          have : (s.rampup_steps + 1 - (s.step + 1)) * 2 ^ (3 - s.retry).toNat
              = (s.rampup_steps + 1 - s.step) * 2 ^ (3 - s.retry).toNat
                - 2 ^ (3 - s.retry).toNat := by ring
          omega
        constructor
        · simp only [List.length_cons, Nat.cast_add, Nat.cast_one]
          omega
        · intro hlt
          simp only [List.length_cons, Nat.cast_add, Nat.cast_one] at hlt
          exact i2 (by omega)
      | diverged xf xr =>
        by_cases hab : s.DC_Cycles = 0 ∨ 3 ≤ s.retry
        · obtain ⟨s', hb⟩ := dcop_ramp_body_diverged_brk Predict clamp xf xr s hab
          rw [while_loop_cons_brk _ _ _ _ _ _ hcond hb]
          constructor
          · simp only [List.length_singleton, Nat.cast_one]
            omega
          · intro _ hst
            cases hst
        · push_neg at hab
          obtain ⟨s', hb, hstep, hramp, hretry, -⟩ :=
            dcop_ramp_body_diverged_next Predict clamp xf xr s hab.1 hab.2
          rw [while_loop_cons_next _ _ _ _ _ _ hcond hb]
          obtain ⟨i1, i2⟩ := ih s' (by omega) (by omega) (by omega) (by omega)
          rw [hstep, hramp, hretry] at i1 i2
          have hsc : (2 : Int) ^ (3 - s.retry).toNat = 2 * 2 ^ (3 - (s.retry + 1)).toNat := by
            have h3 : (3 - s.retry).toNat = (3 - (s.retry + 1)).toNat + 1 := by omega
            rw [h3, pow_succ]
            ring
          have heq : (2 * s.rampup_steps + 1 - (2 * s.step - 1)) * 2 ^ (3 - (s.retry + 1)).toNat
              = (s.rampup_steps + 1 - s.step) * 2 ^ (3 - s.retry).toNat := by
            rw [hsc]
            ring
          rw [heq] at i1 i2
          constructor
          · simp only [List.length_cons, Nat.cast_add, Nat.cast_one]
            omega
          · intro hlt
            simp only [List.length_cons, Nat.cast_add, Nat.cast_one] at hlt
            exact i2 (by omega)
    · rw [while_loop_false _ _ _ _ ((dcop_ramp_cond_false_iff s).mpr hle)]
      constructor
      · simp only [List.length_nil, Nat.cast_zero]
        omega
      · intro _ hst
        cases hst

/-- In every state of a ramp run started with `N >= 0` steps, `rampup_steps` is `N` doubled
once per recovery performed, hence between `N` and `8 N`. -/
theorem ramp_step_count_bound (Predict : Bool) (clamp : V → V → V) (N : Int) (hN : 0 ≤ N)
    (g : RampState V) (evs : List (SolveResult V)) :
    (N ≤ (dcop_ramp Predict clamp N g evs).final.rampup_steps ∧
      (dcop_ramp Predict clamp N g evs).final.rampup_steps ≤ 8 * N) ∧
    ∀ a ∈ (dcop_ramp Predict clamp N g evs).trace,
      N ≤ a.1.rampup_steps ∧ a.1.rampup_steps ≤ 8 * N ∧ 0 ≤ a.1.retry ∧ a.1.retry ≤ 3 := by
  have h := while_loop_invariant_final dcop_ramp_cond (dcop_ramp_body Predict clamp)
    (fun _ => True)
    (fun s : RampState V => (s.retry = 0 ∧ s.rampup_steps = N) ∨
      (s.retry = 1 ∧ s.rampup_steps = 2 * N) ∨ (s.retry = 2 ∧ s.rampup_steps = 4 * N) ∨
      (s.retry = 3 ∧ s.rampup_steps = 8 * N))
    (fun s : RampState V => N ≤ s.rampup_steps ∧ s.rampup_steps ≤ 8 * N)
    (by
      intro s hs
      omega)
    (by
      intro e s s' _ hs _ hb
      cases e with
      | converged x1 =>
        obtain ⟨s2, hb2, -, hramp, hretry, -⟩ := dcop_ramp_body_converged Predict clamp x1 s
        rw [hb2] at hb
        cases hb
        rw [hramp, hretry]
        exact hs
      | diverged xf xr =>
        by_cases hab : s.DC_Cycles = 0 ∨ 3 ≤ s.retry
        · obtain ⟨s2, hb2⟩ := dcop_ramp_body_diverged_brk Predict clamp xf xr s hab
          rw [hb2] at hb
          cases hb
        · push_neg at hab
          obtain ⟨s2, hb2, -, hramp, hretry, -⟩ :=
            dcop_ramp_body_diverged_next Predict clamp xf xr s hab.1 hab.2
          rw [hb2] at hb
          cases hb
          rw [hramp, hretry]
          omega)
    (by
      intro e s s' _ hs _ hb
      cases e with
      | converged x1 =>
        obtain ⟨s2, hb2, -⟩ := dcop_ramp_body_converged Predict clamp x1 s
        rw [hb2] at hb
        cases hb
      | diverged xf xr =>
        have hramp : s'.rampup_steps = s.rampup_steps := by
          simp only [dcop_ramp_body, dcop_ramp_verdict] at hb
          split_ifs at hb <;> cases hb <;> rfl
        rw [hramp]
        omega)
    evs (dcop_ramp_start N g) (fun _ _ => trivial) (Or.inl ⟨rfl, rfl⟩)
  refine ⟨h.1, ?_⟩
  intro a ha
  have := h.2 a ha
  omega

/-- C12: for every sequence of solver verdicts and every initial step count N >= 1 the ramp loop
of solve_dcop performs at most 8 N + 4 solves and has ended once that many verdicts are
available; at most 3 recoveries are performed (with three recoveries done a further divergence
aborts), rampup_steps stays between N and 8 N, and a recovered divergence leaves the loop index
below the doubled step count, so the loop never ends through its condition on a failed step. -/
theorem dcop_ramp_bounded (Predict : Bool) (clamp : V → V → V) (N : Int) (hN : 1 ≤ N)
    (g : RampState V) (evs : List (SolveResult V)) :
    ((dcop_ramp Predict clamp N g evs).trace.length : Int) ≤ 8 * N + 4 ∧
    (8 * N + 4 ≤ (evs.length : Int) →
      (dcop_ramp Predict clamp N g evs).status ≠ LoopEnd.running) ∧
    (dcop_ramp Predict clamp N g evs).final.rampup_steps ≤ 8 * N ∧
    (∀ a ∈ (dcop_ramp Predict clamp N g evs).trace,
      N ≤ a.1.rampup_steps ∧ a.1.rampup_steps ≤ 8 * N ∧ 0 ≤ a.1.retry ∧ a.1.retry ≤ 3) ∧
    ((dcop_ramp Predict clamp N g evs).status = LoopEnd.running →
      evs.countP (fun e => !e.isConverged) ≤ 3 ∧
      ∀ xf xr : V,
        (evs.countP (fun e => !e.isConverged) = 3 →
          (dcop_ramp Predict clamp N g (evs ++ [SolveResult.diverged xf xr])).status
            = LoopEnd.aborted) ∧
        (dcop_ramp Predict clamp N g (evs ++ [SolveResult.diverged xf xr])).status
          ≠ LoopEnd.completed ∧
        ((dcop_ramp Predict clamp N g (evs ++ [SolveResult.diverged xf xr])).status
            = LoopEnd.running →
          (dcop_ramp Predict clamp N g (evs ++ [SolveResult.diverged xf xr])).final.step
            < (dcop_ramp Predict clamp N g (evs ++ [SolveResult.diverged xf xr])).final.rampup_steps ∧
          (dcop_ramp Predict clamp N g (evs ++ [SolveResult.diverged xf xr])).final.rampup_steps
            = 2 * (dcop_ramp Predict clamp N g evs).final.rampup_steps)) := by
  have hstart1 : (dcop_ramp_start N g).step = 1 := rfl
  have hstartN : (dcop_ramp_start N g).rampup_steps = N := rfl
  have hstartR : (dcop_ramp_start N g).retry = 0 := rfl
  have hterm := ramp_terminates Predict clamp evs (dcop_ramp_start N g)
    (by rw [hstart1]) (by rw [hstart1, hstartN]; omega) (by rw [hstartR]) (by rw [hstartR]; omega)
  rw [hstart1, hstartN, hstartR] at hterm
  have hpow : (2 : Int) ^ ((3 : Int) - 0).toNat = 8 := by
    have h3 : ((3 : Int) - 0).toNat = 3 := rfl
    rw [h3]
    norm_num
  rw [hpow] at hterm
  have hbound := ramp_step_count_bound Predict clamp N (by omega) g evs
  refine ⟨?_, ?_, hbound.1.2, hbound.2, ?_⟩
  · have := hterm.1
    unfold dcop_ramp
    omega
  · intro hlen
    unfold dcop_ramp
    exact hterm.2 (by omega)
  · intro hrun
    unfold dcop_ramp at hrun ⊢
    obtain ⟨hr, -⟩ := ramp_counters Predict clamp evs (dcop_ramp_start N g) hrun
    rw [hstartR, zero_add] at hr
    have hcond := while_loop_running_cond _ _ evs (dcop_ramp_start N g) hrun
    have hle := (dcop_ramp_cond_iff _).mp hcond
    -- the state at the head of the next iteration is a state of the trace of a longer run
    have hinv : 0 ≤ (while_loop dcop_ramp_cond (dcop_ramp_body Predict clamp) evs
          (dcop_ramp_start N g)).final.retry ∧
        (while_loop dcop_ramp_cond (dcop_ramp_body Predict clamp) evs
          (dcop_ramp_start N g)).final.retry ≤ 3 := by
      have hb := (ramp_step_count_bound Predict clamp N (by omega) g
        (evs ++ [SolveResult.converged g.x])).2
      unfold dcop_ramp at hb
      rw [while_loop_append _ _ _ _ _ hrun] at hb
      obtain ⟨s', hbody, -⟩ := dcop_ramp_body_converged Predict clamp g.x
        (while_loop dcop_ramp_cond (dcop_ramp_body Predict clamp) evs
          (dcop_ramp_start N g)).final
      rw [while_loop_cons_next _ _ _ _ _ _ hcond hbody] at hb
      have := hb ((while_loop dcop_ramp_cond (dcop_ramp_body Predict clamp) evs
          (dcop_ramp_start N g)).final, SolveResult.converged g.x) (by simp)
      exact ⟨this.2.2.1, this.2.2.2⟩
    refine ⟨by omega, ?_⟩
    intro xf xr
    obtain ⟨hbrk, hnext⟩ := while_loop_snoc dcop_ramp_cond (dcop_ramp_body Predict clamp) evs
      (SolveResult.diverged xf xr) (dcop_ramp_start N g) hrun
    by_cases hab : (while_loop dcop_ramp_cond (dcop_ramp_body Predict clamp) evs
          (dcop_ramp_start N g)).final.DC_Cycles = 0 ∨
        3 ≤ (while_loop dcop_ramp_cond (dcop_ramp_body Predict clamp) evs
          (dcop_ramp_start N g)).final.retry
    · obtain ⟨s', hb⟩ := dcop_ramp_body_diverged_brk Predict clamp xf xr _ hab
      have hst := (hbrk s' hb).1
      refine ⟨fun _ => hst, ?_, ?_⟩
      · rw [hst]; simp
      · intro h; rw [hst] at h; cases h
    · push_neg at hab
      obtain ⟨s', hb, hstep, hramp, -, -⟩ :=
        dcop_ramp_body_diverged_next Predict clamp xf xr _ hab.1 hab.2
      obtain ⟨hfin, hst⟩ := hnext s' hb
      have hc' : dcop_ramp_cond s' = true := by
        rw [dcop_ramp_cond_iff, hstep, hramp]
        omega
      rw [hc', if_pos rfl] at hst
      refine ⟨?_, ?_, ?_⟩
      · intro h3
        omega
      · rw [hst]; simp
      · intro _
        rw [hfin, hstep, hramp]
        constructor
        · omega
        · rfl

/-- Witness for C12: two ramp steps, one accepted step followed by a divergence. -/
theorem dcop_ramp_bounded_witness :
    (1 : Int) ≤ 2 ∧
    ((dcop_ramp true no_clamp 2 ramp_zero [conv0, div0, conv0]).trace.length : Int)
      ≤ 8 * 2 + 4 ∧
    (dcop_ramp true no_clamp 2 ramp_zero [conv0]).status = LoopEnd.running ∧
    (dcop_ramp true no_clamp 2 ramp_zero ([conv0] ++ [SolveResult.diverged 0 0])).status
      ≠ LoopEnd.completed :=
  have hrun : (dcop_ramp true no_clamp 2 ramp_zero [conv0]).status = LoopEnd.running := by
    simp [dcop_ramp, while_loop, dcop_ramp_cond, dcop_ramp_body, dcop_ramp_verdict,
      dcop_ramp_finish, dcop_ramp_start, ramp_zero, conv0]
  ⟨by norm_num,
    (dcop_ramp_bounded true no_clamp 2 (by norm_num) ramp_zero [conv0, div0, conv0]).1,
    hrun,
    (((dcop_ramp_bounded true no_clamp 2 (by norm_num) ramp_zero [conv0]).2.2.2.2 hrun).2
      0 0).2.1⟩

end RampTermination

section SweepTermination
variable {V : Type} [AddCommGroup V] [Module ℚ V]

/-- One round (diverged at 1, converged at the midpoint) of the unit sweep returns to the
state it started from, apart from the last accepted value, which moves closer to 1. -/
theorem unit_sweep_round (s : SweepState ℚ)
    (hs : s.Vscan = 1 ∧ s.VStep = 1 ∧ s.V_retry = [] ∧ 1 ≤ s.DC_Cycles ∧ 0 ≤ s.Vs1 ∧ s.Vs1 < 1) :
    (while_loop (dcsweep_cond sweep_cfg_unit) (dcsweep_body sweep_cfg_unit no_clamp)
        [div0, conv0] s).status = LoopEnd.running ∧
    (while_loop (dcsweep_cond sweep_cfg_unit) (dcsweep_body sweep_cfg_unit no_clamp)
        [div0, conv0] s).trace.length = 2 ∧
    ((while_loop (dcsweep_cond sweep_cfg_unit) (dcsweep_body sweep_cfg_unit no_clamp)
        [div0, conv0] s).final.Vscan = 1 ∧
     (while_loop (dcsweep_cond sweep_cfg_unit) (dcsweep_body sweep_cfg_unit no_clamp)
        [div0, conv0] s).final.VStep = 1 ∧
     (while_loop (dcsweep_cond sweep_cfg_unit) (dcsweep_body sweep_cfg_unit no_clamp)
        [div0, conv0] s).final.V_retry = [] ∧
     1 ≤ (while_loop (dcsweep_cond sweep_cfg_unit) (dcsweep_body sweep_cfg_unit no_clamp)
        [div0, conv0] s).final.DC_Cycles ∧
     0 ≤ (while_loop (dcsweep_cond sweep_cfg_unit) (dcsweep_body sweep_cfg_unit no_clamp)
        [div0, conv0] s).final.Vs1 ∧
     (while_loop (dcsweep_cond sweep_cfg_unit) (dcsweep_body sweep_cfg_unit no_clamp)
        [div0, conv0] s).final.Vs1 < 1) := by
  obtain ⟨h1, h2, h3, h4, h5, h6⟩ := hs
  have hc0 : dcsweep_cond sweep_cfg_unit s = true := by
    simp only [dcsweep_cond, sweep_cfg_unit, h1, decide_eq_true_eq]
    norm_num
  have hne : s.DC_Cycles ≠ 0 := by omega
  obtain ⟨s1, hb1, hst1, hv1, hstep1, hcyc1⟩ :=
    dcsweep_body_diverged_next sweep_cfg_unit no_clamp 0 0 s hne (by rw [h3]; simp)
  have hVs1 : s1.Vs1 = s.Vs1 := by
    have h8n : ¬ 8 ≤ s.V_retry.length := by rw [h3]; simp
    simp only [dcsweep_body, dcsweep_verdict, hne, if_false, ge_iff_le, h8n, dcsweep_finish,
      LoopStep.next.injEq] at hb1
    rw [← hb1]
  rw [h1] at hv1
  have hc1 : dcsweep_cond sweep_cfg_unit s1 = true := by
    simp only [dcsweep_cond, sweep_cfg_unit, hv1, decide_eq_true_eq]
    norm_num
    linarith
  have hb2 : ∃ s2, dcsweep_body sweep_cfg_unit no_clamp conv0 s1 = LoopStep.next s2 ∧
      s2.Vscan = 1 ∧ s2.VStep = 1 ∧ s2.V_retry = [] ∧ s2.DC_Cycles = s1.DC_Cycles + 1 ∧
      s2.Vs1 = s1.Vscan := by
    refine ⟨_, rfl, ?_, ?_, ?_, ?_, ?_⟩
    · simp only [conv0, dcsweep_body, dcsweep_verdict, dcsweep_finish, dcsweep_advance,
        sweep_cfg_unit, if_true, hst1, h1, h3]
      norm_num [fabs]
    · simp only [conv0, dcsweep_body, dcsweep_verdict, dcsweep_finish, dcsweep_advance,
        sweep_cfg_unit, if_true, hstep1, h2]
      norm_num [fabs]
    · simp only [conv0, dcsweep_body, dcsweep_verdict, dcsweep_finish, dcsweep_advance,
        sweep_cfg_unit, if_true, hst1, h3, List.tail_cons]
    · simp only [conv0, dcsweep_body, dcsweep_verdict, dcsweep_finish, dcsweep_advance,
        sweep_cfg_unit, if_true]
    · simp only [conv0, dcsweep_body, dcsweep_verdict, dcsweep_finish, dcsweep_advance,
        sweep_cfg_unit, if_true]
  obtain ⟨s2, hb2, hv2, hstep2, hst2, hcyc2, hVs2⟩ := hb2
  have hc2 : dcsweep_cond sweep_cfg_unit s2 = true := by
    simp only [dcsweep_cond, sweep_cfg_unit, hv2, decide_eq_true_eq]
    norm_num
  have hb1' : dcsweep_body sweep_cfg_unit no_clamp div0 s = LoopStep.next s1 := hb1
  rw [while_loop_cons_next _ _ _ _ _ _ hc0 hb1', while_loop_cons_next _ _ _ _ _ _ hc1 hb2,
    while_loop_nil, if_pos hc2]
  refine ⟨rfl, rfl, hv2, hstep2, hst2, ?_, ?_, ?_⟩
  · rw [hcyc2, hcyc1]; omega
  · rw [hVs2, hv1]; linarith
  · rw [hVs2, hv1]; linarith

/-- Under the alternating verdicts the unit sweep is still running after `2 k + 1` solves,
for every `k`, back at the value 1 with an empty retry stack. -/
theorem unit_sweep_alternating_running (k : Nat) :
    (dcsweep sweep_cfg_unit no_clamp sweep_zero (alternating_verdicts k)).status
      = LoopEnd.running ∧
    (dcsweep sweep_cfg_unit no_clamp sweep_zero (alternating_verdicts k)).trace.length
      = 2 * k + 1 ∧
    ((dcsweep sweep_cfg_unit no_clamp sweep_zero (alternating_verdicts k)).final.Vscan = 1 ∧
     (dcsweep sweep_cfg_unit no_clamp sweep_zero (alternating_verdicts k)).final.VStep = 1 ∧
     (dcsweep sweep_cfg_unit no_clamp sweep_zero (alternating_verdicts k)).final.V_retry = [] ∧
     1 ≤ (dcsweep sweep_cfg_unit no_clamp sweep_zero (alternating_verdicts k)).final.DC_Cycles ∧
     0 ≤ (dcsweep sweep_cfg_unit no_clamp sweep_zero (alternating_verdicts k)).final.Vs1 ∧
     (dcsweep sweep_cfg_unit no_clamp sweep_zero (alternating_verdicts k)).final.Vs1 < 1) := by
  induction k with
  | zero =>
    norm_num [alternating_verdicts, dcsweep, while_loop, dcsweep_cond, dcsweep_body,
      dcsweep_verdict, dcsweep_finish, dcsweep_advance, dcsweep_start, fabs, sweep_zero,
      sweep_cfg_unit, conv0]
  | succ k ih =>
    obtain ⟨hrun, hlen, hP⟩ := ih
    unfold dcsweep at hrun hlen hP ⊢
    have hround := unit_sweep_round _ hP
    rw [alternating_verdicts, while_loop_append _ _ _ _ _ hrun]
    refine ⟨hround.1, ?_, hround.2.2⟩
    simp only [List.length_append, hlen, hround.2.1]
    ring

/-- C13 (as stated, refuted): sweeping from 0 to 5 in steps of 1 with the verdicts converged,
then diverged and converged alternately, the solves are at 0, 1, 1/2, 1, 3/4, 1, 7/8, ... : the
value 1 keeps failing, every midpoint converges, and the loop is still running after 2 k + 1
solves for every k, so the number of solves is unbounded, the stop value is never reached and
the retry budget is never exhausted. -/
theorem dcsweep_retries_without_bound :
    solved_values (dcsweep sweep_cfg_unit no_clamp sweep_zero (alternating_verdicts 3))
      = [0, 1, 1 / 2, 1, 3 / 4, 1, 7 / 8] ∧
    (dcsweep sweep_cfg_unit no_clamp sweep_zero (alternating_verdicts 3)).status
      = LoopEnd.running ∧
    (∀ k : Nat,
      (dcsweep sweep_cfg_unit no_clamp sweep_zero (alternating_verdicts k)).status
        = LoopEnd.running ∧
      (dcsweep sweep_cfg_unit no_clamp sweep_zero (alternating_verdicts k)).trace.length
        = 2 * k + 1 ∧
      (dcsweep sweep_cfg_unit no_clamp sweep_zero (alternating_verdicts k)).final.Vscan = 1 ∧
      (dcsweep sweep_cfg_unit no_clamp sweep_zero (alternating_verdicts k)).final.V_retry = []) := by
  refine ⟨?_, (unit_sweep_alternating_running 3).1, ?_⟩
  · norm_num [alternating_verdicts, solved_values, dcsweep, while_loop, dcsweep_cond,
      dcsweep_body, dcsweep_verdict, dcsweep_finish, dcsweep_advance, dcsweep_start, fabs,
      sweep_zero, sweep_cfg_unit, conv0, div0]
  · intro k
    have key := unit_sweep_alternating_running k
    exact ⟨key.1, key.2.1, key.2.2.1, key.2.2.2.2.1⟩

/-- C13 (amended): the retry budget of the sweep loop of solve_dcsweep bounds consecutive
divergences only: for every configuration and every sequence of solver verdicts, nine
consecutive divergences always end the loop (the retry stack stops at depth 8 and the next
divergence aborts), wherever in the run they occur. -/
theorem dcsweep_nine_divergences_end (cfg : SweepConfig) (clamp : V → V → V) (g : SweepState V)
    (evs divs : List (SolveResult V)) (hd : ∀ d ∈ divs, SolveResult.isConverged d = false)
    (h9 : 9 ≤ divs.length) :
    (dcsweep cfg clamp g (evs ++ divs)).status ≠ LoopEnd.running := by
  intro hrun
  have h1 := dcsweep_divs_push cfg clamp g evs divs hd hrun
  have h2 := (dcsweep_stack_bound cfg clamp g (evs ++ divs)).1.1
  omega

/-- Witness for C13 (amended): after one accepted point nine divergences in a row abort the
unit sweep. -/
theorem dcsweep_nine_divergences_end_witness :
    (∀ d ∈ List.replicate 9 div0, SolveResult.isConverged d = false) ∧
    9 ≤ (List.replicate 9 div0).length ∧
    (dcsweep sweep_cfg_unit no_clamp sweep_zero ([conv0] ++ List.replicate 9 div0)).status
      ≠ LoopEnd.running :=
  have hd : ∀ d ∈ List.replicate 9 div0, SolveResult.isConverged d = false := by
    intro d hd
    rw [List.eq_of_mem_replicate hd]
    rfl
  have h9 : 9 ≤ (List.replicate 9 div0).length := by simp
  ⟨hd, h9, dcsweep_nine_divergences_end sweep_cfg_unit no_clamp sweep_zero [conv0]
    (List.replicate 9 div0) hd h9⟩

end SweepTermination

section ConvergenceTest

theorem snes_computed_reason_ttol (tol : Tolerances) (snes : SnesFields) (t : Dbl)
    (n : GroupNorms) (function_norm : Dbl) (its : Int) (pnorm fnorm : Dbl) :
    snes_computed_reason tol { snes with ttol := t } n function_norm its pnorm fnorm
      = snes_computed_reason tol snes n function_norm its pnorm fnorm := rfl

/-- The reason the test hands to the circuit is the one computed from the unmodified solver
fields (the update of `ttol` at the first iteration does not enter the verdict). -/
theorem snes_test_eq (tol : Tolerances) (change_ckt_mode : SNESConvergedReason → Int)
    (n : GroupNorms) (snes : SnesFields) (rec : ConvRecord) (its : Int) (pnorm fnorm : Dbl) :
    (petsc_snes_convergence_test tol change_ckt_mode n snes rec its pnorm fnorm).1
      = (if change_ckt_mode (snes_computed_reason tol snes n rec.function_norm its pnorm fnorm)
            ≠ 0 then SNESConvergedReason.SNES_CONVERGED_ITERATING
         else snes_computed_reason tol snes n rec.function_norm its pnorm fnorm) ∧
    (petsc_snes_convergence_test tol change_ckt_mode n snes rec its pnorm fnorm).2.2
      = (if change_ckt_mode (snes_computed_reason tol snes n rec.function_norm its pnorm fnorm)
            ≠ 0 then rec
         else ⟨fnorm, its⟩) := by
  unfold petsc_snes_convergence_test
  by_cases hi : its = 0
  · simp only [hi, if_true, snes_computed_reason_ttol]
    split_ifs <;> exact ⟨rfl, rfl⟩
  · simp only [hi, if_false]
    split_ifs <;> exact ⟨rfl, rfl⟩

theorem snes_computed_reason_nan (tol : Tolerances) (snes : SnesFields) (n : GroupNorms)
    (function_norm : Dbl) (its : Int) (pnorm : Dbl) :
    snes_computed_reason tol snes n function_norm its pnorm none
      = SNESConvergedReason.SNES_DIVERGED_FNORM_NAN := by
  simp [snes_computed_reason, dbl_ne]

theorem snes_computed_reason_count (tol : Tolerances) (snes : SnesFields) (n : GroupNorms)
    (function_norm : Dbl) (its : Int) (pnorm : Dbl) (q : ℚ)
    (hcount : snes.max_funcs ≤ snes.nfuncs) :
    snes_computed_reason tol snes n function_norm its pnorm (some q)
      = SNESConvergedReason.SNES_DIVERGED_FUNCTION_COUNT := by
  simp [snes_computed_reason, dbl_ne, hcount]

/-- C14: if the residual norm fnorm is NaN and the circuit does not veto, the verdict of
petsc_snes_convergence_test is diverged-NaN for every iteration index, every set of group norms,
every function-evaluation count and every recorded norm: NaN takes precedence over the
function-count limit and over all convergence tests. -/
theorem snes_nan_diverges (tol : Tolerances) (change_ckt_mode : SNESConvergedReason → Int)
    (n : GroupNorms) (snes : SnesFields) (rec : ConvRecord) (its : Int) (pnorm : Dbl)
    (hveto : change_ckt_mode SNESConvergedReason.SNES_DIVERGED_FNORM_NAN = 0) :
    dbl_ne none none = true ∧
    (petsc_snes_convergence_test tol change_ckt_mode n snes rec its pnorm none).1
      = SNESConvergedReason.SNES_DIVERGED_FNORM_NAN := by
  refine ⟨rfl, ?_⟩
  rw [(snes_test_eq tol change_ckt_mode n snes rec its pnorm none).1,
    snes_computed_reason_nan, hveto]
  simp

/-- Witness for C14: NaN residual at the first iteration with all group norms zero and the
function-evaluation budget used up. -/
theorem snes_nan_diverges_witness :
    no_veto SNESConvergedReason.SNES_DIVERGED_FNORM_NAN = 0 ∧
    all_abs_converged tol_one norms_zero = true ∧
    snes_exhausted.max_funcs ≤ snes_exhausted.nfuncs ∧
    (petsc_snes_convergence_test tol_one no_veto norms_zero snes_exhausted record_demo 0
        (some 0) none).1 = SNESConvergedReason.SNES_DIVERGED_FNORM_NAN :=
  ⟨rfl, by norm_num [all_abs_converged, tol_one, norms_zero, dbl_lt],
    by norm_num [snes_exhausted],
    (snes_nan_diverges tol_one no_veto norms_zero snes_exhausted record_demo 0 (some 0) rfl).2⟩

/-- C15: whenever the circuit's mode-change signal is nonzero, petsc_snes_convergence_test
returns 'iterating' whatever verdict was computed from the norms and leaves function_norm and
nonlinear_iteration unchanged; when the signal is zero the computed verdict is returned
unchanged and function_norm and nonlinear_iteration are set to fnorm and its. -/
theorem snes_circuit_veto (tol : Tolerances) (change_ckt_mode : SNESConvergedReason → Int)
    (n : GroupNorms) (snes : SnesFields) (rec : ConvRecord) (its : Int) (pnorm fnorm : Dbl) :
    (change_ckt_mode (snes_computed_reason tol snes n rec.function_norm its pnorm fnorm) ≠ 0 →
      (petsc_snes_convergence_test tol change_ckt_mode n snes rec its pnorm fnorm).1
        = SNESConvergedReason.SNES_CONVERGED_ITERATING ∧
      (petsc_snes_convergence_test tol change_ckt_mode n snes rec its pnorm fnorm).2.2 = rec) ∧
    (change_ckt_mode (snes_computed_reason tol snes n rec.function_norm its pnorm fnorm) = 0 →
      (petsc_snes_convergence_test tol change_ckt_mode n snes rec its pnorm fnorm).1
        = snes_computed_reason tol snes n rec.function_norm its pnorm fnorm ∧
      (petsc_snes_convergence_test tol change_ckt_mode n snes rec its pnorm fnorm).2.2
        = ⟨fnorm, its⟩) := by
  obtain ⟨h1, h2⟩ := snes_test_eq tol change_ckt_mode n snes rec its pnorm fnorm
  constructor
  · intro hv
    rw [h1, h2, if_pos hv, if_pos hv]
    exact ⟨rfl, rfl⟩
  · intro hv
    have hv' : ¬ change_ckt_mode
        (snes_computed_reason tol snes n rec.function_norm its pnorm fnorm) ≠ 0 :=
      not_not.mpr hv
    rw [h1, h2, if_neg hv', if_neg hv']
    exact ⟨rfl, rfl⟩

/-- Witness for C15: a vetoing circuit turns a diverged-NaN verdict into 'iterating' and keeps
the record; a silent circuit lets an absolute convergence through and records norm and index. -/
theorem snes_circuit_veto_witness :
    always_veto (snes_computed_reason tol_one snes_fresh norms_zero record_demo.function_norm 5
        (some 0) none) ≠ 0 ∧
    snes_computed_reason tol_one snes_fresh norms_zero record_demo.function_norm 5 (some 0) none
      = SNESConvergedReason.SNES_DIVERGED_FNORM_NAN ∧
    (petsc_snes_convergence_test tol_one always_veto norms_zero snes_fresh record_demo 5
        (some 0) none).1 = SNESConvergedReason.SNES_CONVERGED_ITERATING ∧
    (petsc_snes_convergence_test tol_one always_veto norms_zero snes_fresh record_demo 5
        (some 0) none).2.2 = record_demo ∧
    no_veto (snes_computed_reason tol_one snes_fresh norms_zero record_demo.function_norm 5
        (some 0) (some 3)) = 0 ∧
    (petsc_snes_convergence_test tol_one no_veto norms_zero snes_fresh record_demo 5
        (some 0) (some 3)).2.2 = ⟨some 3, 5⟩ :=
  have hv : always_veto (snes_computed_reason tol_one snes_fresh norms_zero
      record_demo.function_norm 5 (some 0) none) ≠ 0 := by
    simp [always_veto]
  ⟨hv, snes_computed_reason_nan tol_one snes_fresh norms_zero record_demo.function_norm 5 (some 0),
    ((snes_circuit_veto tol_one always_veto norms_zero snes_fresh record_demo 5 (some 0)
      none).1 hv).1,
    ((snes_circuit_veto tol_one always_veto norms_zero snes_fresh record_demo 5 (some 0)
      none).1 hv).2,
    rfl,
    ((snes_circuit_veto tol_one no_veto norms_zero snes_fresh record_demo 5 (some 0)
      (some 3)).2 rfl).2⟩

/-- C16 (as stated, refuted): at the first iteration with total residual norm 1/2 below the
solver's absolute tolerance 1, the verdict is converged-absolute although every group norm (10)
is above its absolute tolerance (1). -/
theorem snes_abs_without_group_norms :
    (petsc_snes_convergence_test tol_one no_veto norms_large snes_fresh record_demo 0
        (some 0) (some (1 / 2))).1 = SNESConvergedReason.SNES_CONVERGED_FNORM_ABS ∧
    dbl_lt norms_large.poisson_norm (some tol_one.poisson_abs_toler) = false ∧
    all_abs_converged tol_one norms_large = false := by
  refine ⟨?_, ?_, ?_⟩
  · norm_num [petsc_snes_convergence_test, snes_computed_reason, no_veto, snes_fresh, dbl_ne,
      dbl_lt, record_demo]
  · norm_num [norms_large, tol_one, dbl_lt]
  · norm_num [all_abs_converged, norms_large, tol_one, dbl_lt]

/-- C16 (amended): petsc_snes_convergence_test returns converged-absolute only if every one of
the seven group norms is below its own absolute tolerance, or it is the first iteration
(its = 0) and the total residual norm fnorm is below the solver's absolute tolerance abstol. -/
theorem snes_abs_only_if (tol : Tolerances) (change_ckt_mode : SNESConvergedReason → Int)
    (n : GroupNorms) (snes : SnesFields) (rec : ConvRecord) (its : Int) (pnorm fnorm : Dbl)
    (h : (petsc_snes_convergence_test tol change_ckt_mode n snes rec its pnorm fnorm).1
      = SNESConvergedReason.SNES_CONVERGED_FNORM_ABS) :
    (dbl_lt n.poisson_norm (some tol.poisson_abs_toler) = true ∧
      dbl_lt n.elec_continuity_norm (some tol.elec_continuity_abs_toler) = true ∧
      dbl_lt n.hole_continuity_norm (some tol.hole_continuity_abs_toler) = true ∧
      dbl_lt n.electrode_norm (some tol.electrode_abs_toler) = true ∧
      dbl_lt n.heat_equation_norm (some tol.heat_equation_abs_toler) = true ∧
      dbl_lt n.elec_energy_equation_norm (some tol.elec_energy_abs_toler) = true ∧
      dbl_lt n.hole_energy_equation_norm (some tol.hole_energy_abs_toler) = true) ∨
    (its = 0 ∧ dbl_lt fnorm (some snes.abstol) = true) := by
  rw [(snes_test_eq tol change_ckt_mode n snes rec its pnorm fnorm).1] at h
  have hr : snes_computed_reason tol snes n rec.function_norm its pnorm fnorm
      = SNESConvergedReason.SNES_CONVERGED_FNORM_ABS := by
    split_ifs at h
    exact h
  by_contra hcon
  have hA : ¬ (all_abs_converged tol n = true) := fun ha =>
    hcon (Or.inl (by simpa [all_abs_converged, and_assoc] using ha))
  have hB : ¬ (its = 0 ∧ dbl_lt fnorm (some snes.abstol) = true) := fun hb => hcon (Or.inr hb)
  simp only [snes_computed_reason, hA, hB, if_false] at hr
  split_ifs at hr
  all_goals contradiction

/-- Witness for C16 (amended): with all group norms zero a later iteration is accepted as
converged-absolute. -/
theorem snes_abs_only_if_witness :
    (petsc_snes_convergence_test tol_one no_veto norms_zero snes_fresh record_demo 5
        (some 0) (some 3)).1 = SNESConvergedReason.SNES_CONVERGED_FNORM_ABS ∧
    ((dbl_lt norms_zero.poisson_norm (some tol_one.poisson_abs_toler) = true ∧
      dbl_lt norms_zero.elec_continuity_norm (some tol_one.elec_continuity_abs_toler) = true ∧
      dbl_lt norms_zero.hole_continuity_norm (some tol_one.hole_continuity_abs_toler) = true ∧
      dbl_lt norms_zero.electrode_norm (some tol_one.electrode_abs_toler) = true ∧
      dbl_lt norms_zero.heat_equation_norm (some tol_one.heat_equation_abs_toler) = true ∧
      dbl_lt norms_zero.elec_energy_equation_norm (some tol_one.elec_energy_abs_toler) = true ∧
      dbl_lt norms_zero.hole_energy_equation_norm (some tol_one.hole_energy_abs_toler) = true) ∨
    ((5 : Int) = 0 ∧ dbl_lt (some 3) (some snes_fresh.abstol) = true)) :=
  have h : (petsc_snes_convergence_test tol_one no_veto norms_zero snes_fresh record_demo 5
      (some 0) (some 3)).1 = SNESConvergedReason.SNES_CONVERGED_FNORM_ABS := by
    norm_num [petsc_snes_convergence_test, snes_computed_reason, no_veto, snes_fresh, dbl_ne,
      dbl_lt, record_demo, all_abs_converged, norms_zero, tol_one]
  ⟨h, snes_abs_only_if tol_one no_veto norms_zero snes_fresh record_demo 5 (some 0) (some 3) h⟩

/-- C17: whenever the function-evaluation count has reached (in particular, exceeds) the
configured maximum, fnorm is not NaN and the circuit does not veto, the verdict is
diverged-function-count; the convergence tests are not consulted, so this holds for every set of
group norms, also when all are below their absolute tolerances. -/
theorem snes_function_count_diverges (tol : Tolerances)
    (change_ckt_mode : SNESConvergedReason → Int) (n : GroupNorms) (snes : SnesFields)
    (rec : ConvRecord) (its : Int) (pnorm : Dbl) (q : ℚ)
    (hcount : snes.max_funcs ≤ snes.nfuncs)
    (hveto : change_ckt_mode SNESConvergedReason.SNES_DIVERGED_FUNCTION_COUNT = 0) :
    (petsc_snes_convergence_test tol change_ckt_mode n snes rec its pnorm (some q)).1
      = SNESConvergedReason.SNES_DIVERGED_FUNCTION_COUNT := by
  rw [(snes_test_eq tol change_ckt_mode n snes rec its pnorm (some q)).1,
    snes_computed_reason_count tol snes n rec.function_norm its pnorm q hcount, hveto]
  simp

/-- Witness for C17: budget used up, residual norm 0 and all group norms zero (below every
absolute tolerance): the verdict is still diverged-function-count. -/
theorem snes_function_count_diverges_witness :
    snes_exhausted.max_funcs ≤ snes_exhausted.nfuncs ∧
    no_veto SNESConvergedReason.SNES_DIVERGED_FUNCTION_COUNT = 0 ∧
    all_abs_converged tol_one norms_zero = true ∧
    (petsc_snes_convergence_test tol_one no_veto norms_zero snes_exhausted record_demo 0
        (some 0) (some 0)).1 = SNESConvergedReason.SNES_DIVERGED_FUNCTION_COUNT :=
  have hcount : snes_exhausted.max_funcs ≤ snes_exhausted.nfuncs := by
    norm_num [snes_exhausted]
  ⟨hcount, rfl, by norm_num [all_abs_converged, tol_one, norms_zero, dbl_lt],
    snes_function_count_diverges tol_one no_veto norms_zero snes_exhausted record_demo 0
      (some 0) 0 hcount rfl⟩

end ConvergenceTest

section SweepStepTheorems
variable {V : Type} [AddCommGroup V] [Module ℚ V]

theorem fabs_eq_abs (q : ℚ) : fabs q = |q| := by
  unfold fabs
  split_ifs with h
  · exact (abs_of_neg h).symm
  · exact (abs_of_nonneg (not_lt.mp h)).symm

/-- The growth rule of the sweep step keeps the sign of the step and keeps its magnitude within
1.1 times the cap. -/
theorem sweep_step_growth (S M v : ℚ)
    (hv : ((0 < S → 0 < v) ∧ (S < 0 → v < 0) ∧ (S = 0 → v = 0)) ∧ fabs v ≤ 11 / 10 * fabs M) :
    ((0 < S → 0 < (if fabs v < fabs M then v * (11 / 10) else v)) ∧
      (S < 0 → (if fabs v < fabs M then v * (11 / 10) else v) < 0) ∧
      (S = 0 → (if fabs v < fabs M then v * (11 / 10) else v) = 0)) ∧
    fabs (if fabs v < fabs M then v * (11 / 10) else v) ≤ 11 / 10 * fabs M := by
  obtain ⟨⟨h1, h2, h3⟩, h4⟩ := hv
  split_ifs with hlt
  · refine ⟨⟨fun h => ?_, fun h => ?_, fun h => ?_⟩, ?_⟩
    · have := h1 h; linarith
    · have := h2 h; linarith
    · rw [h3 h]; ring
    · rw [fabs_eq_abs] at hlt ⊢
      rw [abs_mul, abs_of_pos (by norm_num : (0 : ℚ) < 11 / 10)]
      linarith
  · exact ⟨⟨h1, h2, h3⟩, h4⟩

/-- C19 (as stated, refuted): with configured step 1 and cap 1.05 the step after the first
accepted point is 1.1, whose magnitude exceeds the cap. -/
theorem dcsweep_step_exceeds_cap :
    fabs (1 : ℚ) ≤ fabs (21 / 20) ∧
    (dcsweep ⟨0, 1, 5, 21 / 20, true⟩ no_clamp sweep_zero [conv0]).final.VStep = 11 / 10 ∧
    fabs (21 / 20) < fabs (dcsweep ⟨0, 1, 5, 21 / 20, true⟩ no_clamp sweep_zero [conv0]).final.VStep := by
  have h : (dcsweep ⟨0, 1, 5, 21 / 20, true⟩ no_clamp sweep_zero [conv0]).final.VStep
      = 11 / 10 := by
    norm_num [dcsweep, while_loop, dcsweep_cond, dcsweep_body, dcsweep_verdict,
      dcsweep_finish, dcsweep_advance, dcsweep_start, fabs, sweep_zero, conv0]
  refine ⟨by norm_num [fabs], h, ?_⟩
  rw [h]
  norm_num [fabs]

/-- C19 (amended): in the sweep of solve_dcsweep (voltage sweep; the current sweep is the same
loop), starting from a configured step with |VStep| <= |VStepMax|, in every state of every run
the current step has the sign of the configured step and a magnitude of at most 1.1 |VStepMax|;
an accepted point multiplies it by 1.1 exactly when its magnitude is below |VStepMax| (so the
last growth may overshoot the cap) and a divergence leaves it unchanged. -/
theorem dcsweep_step_bounded (cfg : SweepConfig) (clamp : V → V → V) (g : SweepState V)
    (evs : List (SolveResult V)) (h0 : fabs cfg.VStep ≤ fabs cfg.VStepMax) :
    (((0 < cfg.VStep → 0 < (dcsweep cfg clamp g evs).final.VStep) ∧
      (cfg.VStep < 0 → (dcsweep cfg clamp g evs).final.VStep < 0) ∧
      (cfg.VStep = 0 → (dcsweep cfg clamp g evs).final.VStep = 0)) ∧
      fabs (dcsweep cfg clamp g evs).final.VStep ≤ 11 / 10 * fabs cfg.VStepMax) ∧
    (∀ a ∈ (dcsweep cfg clamp g evs).trace,
      ((0 < cfg.VStep → 0 < a.1.VStep) ∧ (cfg.VStep < 0 → a.1.VStep < 0) ∧
        (cfg.VStep = 0 → a.1.VStep = 0)) ∧
      fabs a.1.VStep ≤ 11 / 10 * fabs cfg.VStepMax) ∧
    (∀ (s : SweepState V) (x1 : V), ∃ s',
      dcsweep_body cfg clamp (SolveResult.converged x1) s = LoopStep.next s' ∧
      s'.VStep = (if fabs s.VStep < fabs cfg.VStepMax then s.VStep * (11 / 10) else s.VStep)) ∧
    (∀ (s s' : SweepState V) (xf xr : V),
      (dcsweep_body cfg clamp (SolveResult.diverged xf xr) s = LoopStep.next s' ∨
        dcsweep_body cfg clamp (SolveResult.diverged xf xr) s = LoopStep.brk s') →
      s'.VStep = s.VStep) := by
  have hdiv : ∀ (s s' : SweepState V) (xf xr : V),
      (dcsweep_body cfg clamp (SolveResult.diverged xf xr) s = LoopStep.next s' ∨
        dcsweep_body cfg clamp (SolveResult.diverged xf xr) s = LoopStep.brk s') →
      s'.VStep = s.VStep := by
    intro s s' xf xr hb
    by_cases hab : s.DC_Cycles = 0 ∨ 8 ≤ s.V_retry.length
    · obtain ⟨s2, hb2, -, hst, -⟩ := dcsweep_body_diverged_brk cfg clamp xf xr s hab
      rw [hb2] at hb
      rcases hb with hb | hb
      · cases hb
      · cases hb
        exact hst
    · push_neg at hab
      obtain ⟨s2, hb2, -, -, hst, -⟩ := dcsweep_body_diverged_next cfg clamp xf xr s hab.1 hab.2
      rw [hb2] at hb
      rcases hb with hb | hb
      · cases hb
        exact hst
      · cases hb
  have hinv := while_loop_invariant (dcsweep_cond cfg) (dcsweep_body cfg clamp) (fun _ => True)
    (fun s : SweepState V => ((0 < cfg.VStep → 0 < s.VStep) ∧ (cfg.VStep < 0 → s.VStep < 0) ∧
        (cfg.VStep = 0 → s.VStep = 0)) ∧ fabs s.VStep ≤ 11 / 10 * fabs cfg.VStepMax)
    (by
      intro e s s' _ hs _ hb
      cases e with
      | converged x1 =>
        obtain ⟨s2, hb2, -, -, hst⟩ := dcsweep_body_converged cfg clamp x1 s
        rw [hb2] at hb
        cases hb
        rw [hst]
        exact sweep_step_growth cfg.VStep cfg.VStepMax s.VStep hs
      | diverged xf xr =>
        rw [hdiv s s' xf xr (Or.inl hb)]
        exact hs)
    (by
      intro e s s' _ hs _ hb
      cases e with
      | converged x1 =>
        obtain ⟨s2, hb2, -⟩ := dcsweep_body_converged cfg clamp x1 s
        rw [hb2] at hb
        cases hb
      | diverged xf xr =>
        rw [hdiv s s' xf xr (Or.inr hb)]
        exact hs)
    evs (dcsweep_start cfg g) (fun _ _ => trivial)
    (by
      refine ⟨⟨fun h => h, fun h => h, fun h => h⟩, ?_⟩
      show fabs cfg.VStep ≤ 11 / 10 * fabs cfg.VStepMax
      have hnn : 0 ≤ fabs cfg.VStepMax := by rw [fabs_eq_abs]; exact abs_nonneg _
      linarith)
  refine ⟨hinv.1, hinv.2, ?_, hdiv⟩
  intro s x1
  obtain ⟨s', hb, -, -, hst⟩ := dcsweep_body_converged cfg clamp x1 s
  exact ⟨s', hb, hst⟩

/-- Witness for C19 (amended): the sweep with step 1 and cap 1.05 after one accepted point. -/
theorem dcsweep_step_bounded_witness :
    fabs (1 : ℚ) ≤ fabs (21 / 20) ∧
    fabs (dcsweep ⟨0, 1, 5, 21 / 20, true⟩ no_clamp sweep_zero [conv0]).final.VStep
      ≤ 11 / 10 * fabs (21 / 20) :=
  have h0 : fabs (1 : ℚ) ≤ fabs (21 / 20) := by norm_num [fabs]
  ⟨h0, (dcsweep_step_bounded ⟨0, 1, 5, 21 / 20, true⟩ no_clamp sweep_zero [conv0] h0).1.2⟩

end SweepStepTheorems

section TransientStepTheorems
variable {V : Type} [AddCommGroup V] [Module ℚ V]

/-- The stop-time snap and the predictor keep a positive step positive and do not enlarge it. -/
theorem tran_accept_dt (cfg : TranConfig) (s : TranState V) (hdt : 0 < s.dt) :
    0 < (tran_accept cfg s).dt ∧ (tran_accept cfg s).dt ≤ s.dt := by
  by_cases h : s.clock + s.dt > cfg.TStop ∧
      s.clock + s.dt < cfg.TStop + s.dt - 1 / 10 ^ 10 * s.dt
  · have hd : (tran_accept cfg s).dt = s.dt - (s.clock + s.dt - cfg.TStop) := by
      simp only [tran_accept]
      rw [if_pos (by simpa using h)]
    rw [hd]
    obtain ⟨h1, h2⟩ := h
    constructor
    · have : 0 < 1 / 10 ^ 10 * s.dt := by positivity
      linarith
    · linarith
  · have hd : (tran_accept cfg s).dt = s.dt := by
      simp only [tran_accept]
      rw [if_neg (by simpa using h)]
    rw [hd]
    exact ⟨hdt, le_refl _⟩

end TransientStepTheorems

section TransientHistory
variable {V : Type} [AddCommGroup V] [Module ℚ V]

theorem tran_predict_history (cfg : TranConfig) (clamp : V → V → V) (s : TranState V) :
    (tran_predict cfg clamp s).x_n = s.x_n ∧ (tran_predict cfg clamp s).x_n1 = s.x_n1 ∧
    (tran_predict cfg clamp s).x_n2 = s.x_n2 ∧ (tran_predict cfg clamp s).dt_last = s.dt_last ∧
    (tran_predict cfg clamp s).dt_last_last = s.dt_last_last ∧
    (tran_predict cfg clamp s).T_Cycles = s.T_Cycles := by
  unfold tran_predict
  split_ifs <;> exact ⟨rfl, rfl, rfl, rfl, rfl, rfl⟩

theorem tran_body_diverged_history (cfg : TranConfig) (clamp : V → V → V) (s s' : TranState V)
    (xf xr : V)
    (hb : tran_body cfg clamp (TranResult.diverged xf xr) s = LoopStep.next s' ∨
      tran_body cfg clamp (TranResult.diverged xf xr) s = LoopStep.brk s') :
    s'.x_n = s.x_n ∧ s'.x_n1 = s.x_n1 ∧ s'.x_n2 = s.x_n2 ∧ s'.dt_last = s.dt_last ∧
    s'.dt_last_last = s.dt_last_last ∧ s'.T_Cycles = s.T_Cycles := by
  by_cases h8 : s.diverged_retry + 1 ≥ 8
  · have hbody : tran_body cfg clamp (TranResult.diverged xf xr) s
        = LoopStep.brk { s with x := xf, diverged_retry := s.diverged_retry + 1 } := by
      simp only [tran_body, h8, if_true]
    rw [hbody] at hb
    rcases hb with hb | hb
    · cases hb
    · cases hb
      exact ⟨rfl, rfl, rfl, rfl, rfl, rfl⟩
  · have hbody : tran_body cfg clamp (TranResult.diverged xf xr) s
        = LoopStep.next { s with
            diverged_retry := s.diverged_retry + 1,
            dt := s.dt / 2,
            clock := if s.clock - s.dt / 2 < cfg.TStart then cfg.TStart
                     else s.clock - s.dt / 2,
            x := xr } := by
      simp only [tran_body, h8, if_false]
    rw [hbody] at hb
    rcases hb with hb | hb
    · cases hb
      exact ⟨rfl, rfl, rfl, rfl, rfl, rfl⟩
    · cases hb

theorem tran_body_rejected_history (cfg : TranConfig) (clamp : V → V → V) (s s' : TranState V)
    (x1 : V) (r : ℚ) (hact : lte_active cfg s = true) (hr : r < 9 / 10)
    (hb : tran_body cfg clamp (TranResult.converged x1 r) s = LoopStep.next s') :
    s'.x_n = s.x_n ∧ s'.x_n1 = s.x_n1 ∧ s'.x_n2 = s.x_n2 ∧ s'.dt_last = s.dt_last ∧
    s'.dt_last_last = s.dt_last_last ∧ s'.T_Cycles = s.T_Cycles := by
  have hact0 : lte_active cfg ({ s with x := x1, diverged_retry := 0 } : TranState V) = true :=
    hact
  have hc : tran_step_control cfg clamp r { s with x := x1, diverged_retry := 0 }
      = (false, tran_lte_reject clamp r { s with x := x1, diverged_retry := 0 }) := by
    simp only [tran_step_control, hact0, hr, if_true]
  simp only [tran_body, hc] at hb
  have hs2 : s' = tran_predict cfg clamp
      (tran_lte_reject clamp r { s with x := x1, diverged_retry := 0 }) := by
    simpa using hb.symm
  rw [hs2]
  obtain ⟨h1, h2, h3, h4, h5, h6⟩ := tran_predict_history cfg clamp
    (tran_lte_reject clamp r { s with x := x1, diverged_retry := 0 })
  rw [h1, h2, h3, h4, h5, h6]
  exact ⟨rfl, rfl, rfl, rfl, rfl, rfl⟩

theorem tran_body_accepted_history (cfg : TranConfig) (clamp : V → V → V) (s s' : TranState V)
    (x1 : V) (r : ℚ) (hacc : lte_active cfg s = true → 9 / 10 ≤ r)
    (hb : tran_body cfg clamp (TranResult.converged x1 r) s = LoopStep.next s') :
    s'.T_Cycles = s.T_Cycles + 1 ∧ s'.dt_last = s.dt ∧ s'.dt_last_last = s.dt_last ∧
    ((cfg.AutoStep || cfg.Predict) = true →
      s'.x_n = x1 ∧ s'.x_n1 = s.x_n ∧ s'.x_n2 = s.x_n1) ∧
    ((cfg.AutoStep || cfg.Predict) = false →
      s'.x_n = s.x_n ∧ s'.x_n1 = s.x_n1 ∧ s'.x_n2 = s.x_n2) := by
  have hc : ∃ d : ℚ, tran_step_control cfg clamp r { s with x := x1, diverged_retry := 0 }
      = (true, { ({ s with x := x1, diverged_retry := 0 } : TranState V) with
          dt_last_last := s.dt_last, dt_last := s.dt, dt := d }) := by
    by_cases hact : lte_active cfg ({ s with x := x1, diverged_retry := 0 } : TranState V) = true
    · have hr : ¬ r < 9 / 10 := not_lt.mpr (hacc hact)
      exact ⟨lte_next_dt cfg.TStepMax r s.dt,
        by simp only [tran_step_control, hact, hr, if_true, if_false]⟩
    · refine ⟨if fabs s.dt < fabs cfg.TStep then s.dt * (11 / 10) else s.dt, ?_⟩
      simp only [tran_step_control, hact, if_false]
      simp
  obtain ⟨d, hc⟩ := hc
  simp only [tran_body, hc] at hb
  have hs2 : s' = tran_predict cfg clamp (tran_accept cfg
      { ({ s with x := x1, diverged_retry := 0 } : TranState V) with
          dt_last_last := s.dt_last, dt_last := s.dt, dt := d }) := by
    simpa using hb.symm
  rw [hs2]
  obtain ⟨h1, h2, h3, h4, h5, h6⟩ := tran_predict_history cfg clamp (tran_accept cfg
      { ({ s with x := x1, diverged_retry := 0 } : TranState V) with
          dt_last_last := s.dt_last, dt_last := s.dt, dt := d })
  rw [h1, h2, h3, h4, h5, h6]
  refine ⟨rfl, rfl, rfl, ?_, ?_⟩
  · intro hk
    simp [tran_accept, hk]
  · intro hk
    simp [tran_accept, hk]

/-- C20: in solve_transient a diverged solve (retried or aborting) and an LTE-rejected solve
leave x_n, x_n1, x_n2, dt_last, dt_last_last and T_Cycles unchanged; whenever one of them changes
in an iteration, the solve converged and was not LTE-rejected; on that acceptance path T_Cycles
is incremented, the step sizes are shifted and (when history is kept, AutoStep or Predict) the
accepted solution enters x_n while x_n, x_n1 move to x_n1, x_n2. -/
theorem tran_history_frame (cfg : TranConfig) (clamp : V → V → V) (s : TranState V) :
    (∀ (xf xr : V) (s' : TranState V),
      (tran_body cfg clamp (TranResult.diverged xf xr) s = LoopStep.next s' ∨
        tran_body cfg clamp (TranResult.diverged xf xr) s = LoopStep.brk s') →
      s'.x_n = s.x_n ∧ s'.x_n1 = s.x_n1 ∧ s'.x_n2 = s.x_n2 ∧ s'.dt_last = s.dt_last ∧
      s'.dt_last_last = s.dt_last_last ∧ s'.T_Cycles = s.T_Cycles) ∧
    (∀ (x1 : V) (r : ℚ) (s' : TranState V), lte_active cfg s = true → r < 9 / 10 →
      tran_body cfg clamp (TranResult.converged x1 r) s = LoopStep.next s' →
      s'.x_n = s.x_n ∧ s'.x_n1 = s.x_n1 ∧ s'.x_n2 = s.x_n2 ∧ s'.dt_last = s.dt_last ∧
      s'.dt_last_last = s.dt_last_last ∧ s'.T_Cycles = s.T_Cycles) ∧
    (∀ (ev : TranResult V) (s' : TranState V),
      (tran_body cfg clamp ev s = LoopStep.next s' ∨ tran_body cfg clamp ev s = LoopStep.brk s') →
      ¬ (s'.x_n = s.x_n ∧ s'.x_n1 = s.x_n1 ∧ s'.x_n2 = s.x_n2 ∧ s'.dt_last = s.dt_last ∧
        s'.dt_last_last = s.dt_last_last ∧ s'.T_Cycles = s.T_Cycles) →
      ∃ (x1 : V) (r : ℚ), ev = TranResult.converged x1 r ∧
        (lte_active cfg s = true → 9 / 10 ≤ r)) ∧
    (∀ (x1 : V) (r : ℚ) (s' : TranState V), (lte_active cfg s = true → 9 / 10 ≤ r) →
      tran_body cfg clamp (TranResult.converged x1 r) s = LoopStep.next s' →
      s'.T_Cycles = s.T_Cycles + 1 ∧ s'.dt_last = s.dt ∧ s'.dt_last_last = s.dt_last ∧
      ((cfg.AutoStep || cfg.Predict) = true →
        s'.x_n = x1 ∧ s'.x_n1 = s.x_n ∧ s'.x_n2 = s.x_n1)) := by
  refine ⟨?_, ?_, ?_, ?_⟩
  · intro xf xr s' hb
    exact tran_body_diverged_history cfg clamp s s' xf xr hb
  · intro x1 r s' hact hr hb
    exact tran_body_rejected_history cfg clamp s s' x1 r hact hr hb
  · intro ev s' hb hne
    cases ev with
    | diverged xf xr =>
      exact absurd (tran_body_diverged_history cfg clamp s s' xf xr hb) hne
    | converged x1 r =>
      refine ⟨x1, r, rfl, ?_⟩
      intro hact
      by_contra hlt
      have hb' : tran_body cfg clamp (TranResult.converged x1 r) s = LoopStep.next s' := by
        rcases hb with hb | hb
        · exact hb
        · obtain ⟨s2, hb2, -⟩ := tran_body_converged cfg clamp x1 r s
          rw [hb2] at hb
          cases hb
      exact hne (tran_body_rejected_history cfg clamp s s' x1 r hact (not_le.mp hlt) hb')
  · intro x1 r s' hacc hb
    obtain ⟨h1, h2, h3, h4, -⟩ := tran_body_accepted_history cfg clamp s s' x1 r hacc hb
    exact ⟨h1, h2, h3, h4⟩

/-- Witness for C20: after three cycles of the adaptive run an LTE ratio 1/2 rejects the step
and leaves history and counter as they were. -/
theorem tran_history_frame_witness :
    lte_active tran_cfg_auto tran_three_cycles = true ∧ (1 / 2 : ℚ) < 9 / 10 ∧
    ∃ s', tran_body tran_cfg_auto no_clamp (TranResult.converged 7 (1 / 2)) tran_three_cycles
        = LoopStep.next s' ∧
      s'.x_n = tran_three_cycles.x_n ∧ s'.x_n1 = tran_three_cycles.x_n1 ∧
      s'.x_n2 = tran_three_cycles.x_n2 ∧ s'.dt_last = tran_three_cycles.dt_last ∧
      s'.dt_last_last = tran_three_cycles.dt_last_last ∧
      s'.T_Cycles = tran_three_cycles.T_Cycles :=
  have hact : lte_active tran_cfg_auto tran_three_cycles = true := by
    simp [lte_active, tran_cfg_auto, tran_three_cycles]
  have hr : (1 / 2 : ℚ) < 9 / 10 := by norm_num
  have hex := tran_body_converged tran_cfg_auto no_clamp (7 : ℚ) (1 / 2) tran_three_cycles
  ⟨hact, hr, hex.choose, hex.choose_spec.1,
    (tran_history_frame tran_cfg_auto no_clamp tran_three_cycles).2.1 7 (1 / 2) hex.choose
      hact hr hex.choose_spec.1⟩

end TransientHistory

section LoopTraceLemmas
variable {σ ε : Type}

theorem do_while_snoc_trace (cond : σ → Bool) (body : ε → σ → LoopStep σ) (es : List ε) (e : ε)
    (s : σ) (h : (do_while_loop cond body es s).status = LoopEnd.running) :
    (do_while_loop cond body (es ++ [e]) s).trace
      = (do_while_loop cond body es s).trace ++ [((do_while_loop cond body es s).final, e)] := by
  rw [do_while_append cond body es [e] s h]
  show _ ++ _ = _ ++ _
  congr 1
  simp only [do_while_loop]
  cases body e (do_while_loop cond body es s).final with
  | brk s' => rfl
  | next s' =>
    by_cases hc : cond s' = true
    · simp [hc]
    · simp [hc]

theorem do_while_snoc_running (cond : σ → Bool) (body : ε → σ → LoopStep σ) (es : List ε) (e : ε)
    (s : σ) (h : (do_while_loop cond body (es ++ [e]) s).status = LoopEnd.running) :
    ∃ s', body e (do_while_loop cond body es s).final = LoopStep.next s' ∧ cond s' = true ∧
      (do_while_loop cond body (es ++ [e]) s).final = s' := by
  have h0 := do_while_running_of_append cond body es [e] s h
  rw [do_while_append cond body es [e] s h0] at h ⊢
  simp only [do_while_loop] at h ⊢
  cases hb : body e (do_while_loop cond body es s).final with
  | brk s' => rw [hb] at h; simp at h
  | next s' =>
    rw [hb] at h
    by_cases hc : cond s' = true
    · exact ⟨s', rfl, hc, by simp [hc]⟩
    · simp [hc] at h

end LoopTraceLemmas

section TransientTimeLemmas
variable {V : Type} [AddCommGroup V] [Module ℚ V]

theorem last_accepted_time_snoc (cfg : TranConfig) (tr : List (TranState V × TranResult V))
    (a : TranState V × TranResult V) :
    last_accepted_time cfg (tr ++ [a])
      = if tran_step_accepted cfg a = true then some a.1.clock else last_accepted_time cfg tr := by
  unfold last_accepted_time
  rw [List.filter_append]
  by_cases h : tran_step_accepted cfg a = true
  · simp [h, List.filter_cons]
  · simp [h, List.filter_cons]

theorem tran_accept_clock (cfg : TranConfig) (s : TranState V) :
    (tran_accept cfg s).clock = s.clock + (tran_accept cfg s).dt := by
  simp only [tran_accept]
  split_ifs <;> ring

theorem lte_next_dt_pos (M r dt : ℚ) (hM : 0 < M) (hdt : 0 < dt) : 0 < lte_next_dt M r dt := by
  unfold lte_next_dt
  simp only
  split_ifs <;> first | exact hM | positivity

theorem tran_body_accept_time (cfg : TranConfig) (clamp : V → V → V) (s : TranState V)
    (x1 : V) (r : ℚ) (hacc : lte_active cfg s = true → 9 / 10 ≤ r) (hdt : 0 < s.dt)
    (hM : cfg.AutoStep = true → 0 < cfg.TStepMax) :
    ∃ s', tran_body cfg clamp (TranResult.converged x1 r) s = LoopStep.next s' ∧
      0 < s'.dt ∧ s'.clock = s.clock + s'.dt ∧ s'.T_Cycles = s.T_Cycles + 1 ∧
      s'.diverged_retry = 0 := by
  have hla : lte_active cfg ({ s with x := x1, diverged_retry := 0 } : TranState V)
      = lte_active cfg s := rfl
  by_cases hact : lte_active cfg s = true
  · have hr : ¬ r < 9 / 10 := not_lt.mpr (hacc hact)
    have hA : cfg.AutoStep = true := by
      simp only [lte_active, Bool.and_eq_true] at hact
      exact hact.1
    refine ⟨tran_predict cfg clamp (tran_accept cfg
      { ({ s with x := x1, diverged_retry := 0 } : TranState V) with
          dt_last_last := s.dt_last, dt_last := s.dt,
          dt := lte_next_dt cfg.TStepMax r s.dt }), ?_, ?_, ?_, ?_, ?_⟩
    · simp [tran_body, tran_step_control, hla, hact, hr]
    · rw [(tran_predict_control cfg clamp _).1]
      exact (tran_accept_dt cfg _ (lte_next_dt_pos _ _ _ (hM hA) hdt)).1
    · rw [(tran_predict_control cfg clamp _).2.2, (tran_predict_control cfg clamp _).1,
        tran_accept_clock]
    · rw [(tran_predict_control cfg clamp _).2.1]
      rfl
    · rw [tran_predict_retry]
      rfl
  · have hd : 0 < (if fabs s.dt < fabs cfg.TStep then s.dt * (11 / 10) else s.dt) := by
      split_ifs <;> positivity
    refine ⟨tran_predict cfg clamp (tran_accept cfg
      { ({ s with x := x1, diverged_retry := 0 } : TranState V) with
          dt_last_last := s.dt_last, dt_last := s.dt,
          dt := if fabs s.dt < fabs cfg.TStep then s.dt * (11 / 10) else s.dt }), ?_, ?_, ?_, ?_, ?_⟩
    · simp [tran_body, tran_step_control, hla, hact]
    · rw [(tran_predict_control cfg clamp _).1]
      exact (tran_accept_dt cfg _ hd).1
    · rw [(tran_predict_control cfg clamp _).2.2, (tran_predict_control cfg clamp _).1,
        tran_accept_clock]
    · rw [(tran_predict_control cfg clamp _).2.1]
      rfl
    · rw [tran_predict_retry]
      rfl

theorem tran_body_diverged_time (cfg : TranConfig) (clamp : V → V → V) (xf xr : V)
    (s : TranState V) (h : s.diverged_retry + 1 < 8) :
    ∃ s', tran_body cfg clamp (TranResult.diverged xf xr) s = LoopStep.next s' ∧
      s'.dt = s.dt / 2 ∧ s'.clock = max (s.clock - s.dt / 2) cfg.TStart ∧
      s'.T_Cycles = s.T_Cycles ∧ s'.diverged_retry = s.diverged_retry + 1 := by
  have h8 : ¬ (s.diverged_retry + 1 ≥ 8) := by omega
  refine ⟨{ s with
      diverged_retry := s.diverged_retry + 1,
      dt := s.dt / 2,
      clock := if s.clock - s.dt / 2 < cfg.TStart then cfg.TStart else s.clock - s.dt / 2,
      x := xr }, ?_, rfl, ?_, rfl, rfl⟩
  · simp only [tran_body, h8, if_false]
  · show (if s.clock - s.dt / 2 < cfg.TStart then cfg.TStart else s.clock - s.dt / 2) = _
    split_ifs with hc
    · rw [max_eq_right (le_of_lt hc)]
    · rw [max_eq_left (not_lt.mp hc)]

end TransientTimeLemmas

section TransientTimeInvariant
variable {V : Type} [AddCommGroup V] [Module ℚ V]

theorem lte_active_cycles (cfg : TranConfig) (s : TranState V) (h : lte_active cfg s = true) :
    3 ≤ s.T_Cycles := by
  simp only [lte_active, Bool.and_eq_true, Bool.or_eq_true, decide_eq_true_eq] at h
  rcases h.2 with h3 | h4
  · exact h3.2
  · omega

theorem tran_time_step (cfg : TranConfig) (clamp : V → V → V)
    (hM : cfg.AutoStep = true → 0 < cfg.TStepMax)
    (tr : List (TranState V × TranResult V)) (s s' : TranState V) (e : TranResult V)
    (he : ∀ (x : V) (r : ℚ), e = TranResult.converged x r → 0 < r)
    (hdt : 0 < s.dt)
    (hnone : last_accepted_time cfg tr = none → s.clock = cfg.TStart ∧ s.T_Cycles = 0)
    (hsome : ∀ t, last_accepted_time cfg tr = some t →
      cfg.TStart ≤ t ∧ s.clock = t + s.dt ∧ 1 ≤ s.T_Cycles)
    (hb : tran_body cfg clamp e s = LoopStep.next s') :
    0 < s'.dt ∧
    (last_accepted_time cfg (tr ++ [(s, e)]) = none →
      s'.clock = cfg.TStart ∧ s'.T_Cycles = 0) ∧
    (∀ t, last_accepted_time cfg (tr ++ [(s, e)]) = some t →
      cfg.TStart ≤ t ∧ s'.clock = t + s'.dt ∧ 1 ≤ s'.T_Cycles) := by
  have hstart : cfg.TStart ≤ s.clock ∧ 0 ≤ s.T_Cycles := by
    cases hl : last_accepted_time cfg tr with
    | none =>
      obtain ⟨h1, h2⟩ := hnone hl
      exact ⟨le_of_eq h1.symm, by omega⟩
    | some t =>
      obtain ⟨h1, h2, h3⟩ := hsome t hl
      exact ⟨by linarith, by omega⟩
  rw [last_accepted_time_snoc]
  cases e with
  | diverged xf xr =>
    have hacc : tran_step_accepted cfg (s, TranResult.diverged xf xr) = false := rfl
    simp only [hacc, Bool.false_eq_true, if_false]
    by_cases h8 : s.diverged_retry + 1 < 8
    · obtain ⟨s2, hb2, hd, hc, hcy, -⟩ := tran_body_diverged_time cfg clamp xf xr s h8
      rw [hb2] at hb
      cases hb
      refine ⟨by rw [hd]; positivity, ?_, ?_⟩
      · intro hl
        obtain ⟨h1, h2⟩ := hnone hl
        refine ⟨?_, by rw [hcy]; exact h2⟩
        rw [hc, h1]
        apply max_eq_right
        linarith
      · intro t hl
        obtain ⟨h1, h2, h3⟩ := hsome t hl
        refine ⟨h1, ?_, by rw [hcy]; exact h3⟩
        rw [hc, hd, h2]
        rw [max_eq_left (by linarith)]
        ring
    · obtain ⟨s2, hb2⟩ := tran_body_diverged_brk cfg clamp xf xr s (by omega)
      rw [hb2] at hb
      cases hb
  | converged x1 r =>
    have hr0 : 0 < r := he x1 r rfl
    by_cases hrej : lte_active cfg s = true ∧ r < 9 / 10
    · have hacc : tran_step_accepted cfg (s, TranResult.converged x1 r) = false := by
        simp [tran_step_accepted, hrej.1, hrej.2]
      simp only [hacc, Bool.false_eq_true, if_false]
      obtain ⟨s2, hb2, hd, hcy, hc⟩ := tran_body_lte_reject cfg clamp s x1 r hrej.1 hrej.2
      rw [hb2] at hb
      cases hb
      have h3 := lte_active_cycles cfg s hrej.1
      refine ⟨by rw [hd]; positivity, ?_, ?_⟩
      · intro hl
        obtain ⟨h1, h2⟩ := hnone hl
        omega
      · intro t hl
        obtain ⟨h1, h2, h4⟩ := hsome t hl
        refine ⟨h1, ?_, by rw [hcy]; exact h4⟩
        rw [hc, hd, h2]
        ring
    · have hacc : tran_step_accepted cfg (s, TranResult.converged x1 r) = true := by
        simp only [tran_step_accepted, Bool.not_eq_true', Bool.and_eq_false_iff,
          decide_eq_false_iff_not]
        by_cases ha : lte_active cfg s = true
        · right
          exact fun hlt => hrej ⟨ha, hlt⟩
        · left
          simpa using ha
      simp only [hacc, if_true]
      have hacc2 : lte_active cfg s = true → 9 / 10 ≤ r := by
        intro ha
        by_contra hlt
        exact hrej ⟨ha, not_le.mp hlt⟩
      obtain ⟨s2, hb2, hd, hc, hcy, -⟩ := tran_body_accept_time cfg clamp s x1 r hacc2 hdt hM
      rw [hb2] at hb
      cases hb
      refine ⟨hd, ?_, ?_⟩
      · intro hl
        cases hl
      · intro t hl
        have ht : s.clock = t := by simpa using hl
        subst ht
        exact ⟨hstart.1, hc, by omega⟩

theorem tran_time_invariant (cfg : TranConfig) (clamp : V → V → V) (g : TranState V)
    (hT : 0 < cfg.TStep) (hM : cfg.AutoStep = true → 0 < cfg.TStepMax)
    (evs : List (TranResult V)) :
    (∀ e ∈ evs, ∀ (x : V) (r : ℚ), e = TranResult.converged x r → 0 < r) →
    (solve_transient_loop cfg clamp g evs).status = LoopEnd.running →
    0 < (solve_transient_loop cfg clamp g evs).final.dt ∧
    (last_accepted_time cfg (solve_transient_loop cfg clamp g evs).trace = none →
      (solve_transient_loop cfg clamp g evs).final.clock = cfg.TStart ∧
      (solve_transient_loop cfg clamp g evs).final.T_Cycles = 0) ∧
    (∀ t, last_accepted_time cfg (solve_transient_loop cfg clamp g evs).trace = some t →
      cfg.TStart ≤ t ∧
      (solve_transient_loop cfg clamp g evs).final.clock
        = t + (solve_transient_loop cfg clamp g evs).final.dt ∧
      1 ≤ (solve_transient_loop cfg clamp g evs).final.T_Cycles) := by
  induction evs using List.reverseRecOn with
  | nil =>
    intro _ _
    refine ⟨?_, ?_, ?_⟩
    · show 0 < cfg.TStep / 10
      positivity
    · intro _
      exact ⟨rfl, rfl⟩
    · intro t ht
      simp [solve_transient_loop, do_while_loop, last_accepted_time] at ht
  | append_singleton es e ih =>
    intro hr hrun
    unfold solve_transient_loop at hrun ⊢
    have h0 := do_while_running_of_append _ _ es [e] _ hrun
    obtain ⟨s', hb, -, hfin⟩ := do_while_snoc_running _ _ es e _ hrun
    rw [do_while_snoc_trace _ _ es e _ h0, hfin]
    have hr' : ∀ e' ∈ es, ∀ (x : V) (r : ℚ), e' = TranResult.converged x r → 0 < r :=
      fun e' he' => hr e' (List.mem_append_left _ he')
    obtain ⟨i1, i2, i3⟩ := ih hr' h0
    exact tran_time_step cfg clamp hM _ _ s' e (hr e (by simp)) i1 i2 i3 hb

end TransientTimeInvariant

section TransientRejection
variable {V : Type} [AddCommGroup V] [Module ℚ V]

/-- C25 as stated fails: with prediction enabled (first-order run, three accepted steps with
history x_n = 1, x_n1 = 0 and steps 1) an LTE rejection of the solution 7 with ratio 1/2 sets
dt = 0.45; the interpolation between 7 and x_n would be 3.7, but the step is retried from the
predictor 1.45 computed at label Predict. -/
theorem tran_lte_retry_guess_overwritten :
    lte_active tran_cfg_predict tran_history_demo = true ∧
    ∃ s', tran_body tran_cfg_predict no_clamp (TranResult.converged 7 (1 / 2)) tran_history_demo
        = LoopStep.next s' ∧
      s'.dt = 9 / 20 ∧
      (s'.dt / tran_history_demo.dt) • (7 : ℚ)
        + (1 - s'.dt / tran_history_demo.dt) • tran_history_demo.x_n = 37 / 10 ∧
      s'.x = 29 / 20 ∧
      s'.x ≠ (s'.dt / tran_history_demo.dt) • (7 : ℚ)
        + (1 - s'.dt / tran_history_demo.dt) • tran_history_demo.x_n := by
  refine ⟨by simp [lte_active, tran_cfg_predict, tran_history_demo],
    ⟨49 / 20, 9 / 20, 1, 1, 3, 0, false, 29 / 20, 1, 0, 0⟩, ?_, ?_, ?_, ?_, ?_⟩ <;>
    norm_num [tran_body, tran_step_control, tran_lte_reject, tran_predict, lte_active,
      tran_linear_predictor, tran_cfg_predict, tran_history_demo, no_clamp]

/-- C25 (amended): after an LTE rejection with ratio r the step is dt' = 0.9 r dt and the guess
of the retried solve is, with Predict off, the clamped linear interpolation
(dt'/dt) x + (1 - dt'/dt) x_n between the rejected solution x and the last accepted solution
x_n; with Predict on it is the clamped predictor computed at label Predict from the accepted
history with the new step dt' (linear in x_n, x_n1 for BDF1, quadratic in x_n, x_n1, x_n2 for
BDF2), which replaces the interpolation. -/
theorem tran_lte_retry_guess (cfg : TranConfig) (clamp : V → V → V) (s : TranState V) (x1 : V)
    (r : ℚ) (hact : lte_active cfg s = true) (hr : r < 9 / 10) :
    ∃ s', tran_body cfg clamp (TranResult.converged x1 r) s = LoopStep.next s' ∧
      s'.dt = 9 / 10 * r * s.dt ∧
      (cfg.Predict = false →
        s'.x = clamp ((s'.dt / s.dt) • x1 + (1 - s'.dt / s.dt) • s.x_n) s.x_n) ∧
      (cfg.Predict = true → cfg.TS_type = TSType.BDF1 →
        s'.x = clamp (tran_linear_predictor s'.dt s.dt_last s.x_n s.x_n1) s.x_n) ∧
      (cfg.Predict = true → cfg.TS_type = TSType.BDF2 →
        s'.x = clamp (tran_quadratic_predictor s'.dt s.dt_last s.dt_last_last
          s.x_n s.x_n1 s.x_n2) s.x_n) := by
  have hla : lte_active cfg ({ s with x := x1, diverged_retry := 0 } : TranState V)
      = lte_active cfg s := rfl
  have hbody : tran_body cfg clamp (TranResult.converged x1 r) s
      = LoopStep.next (tran_predict cfg clamp
          (tran_lte_reject clamp r ({ s with x := x1, diverged_retry := 0 } : TranState V))) := by
    simp [tran_body, tran_step_control, hla, hact, hr]
  have hdt : (tran_lte_reject clamp r ({ s with x := x1, diverged_retry := 0 } : TranState V)).dt
      = 9 / 10 * r * s.dt := by
    simp only [tran_lte_reject]
    ring
  have hcases : (cfg.TS_type = TSType.BDF1 ∧ 3 ≤ s.T_Cycles) ∨
      (cfg.TS_type = TSType.BDF2 ∧ 4 ≤ s.T_Cycles) := by
    simp only [lte_active, Bool.and_eq_true, Bool.or_eq_true, decide_eq_true_eq] at hact
    exact hact.2
  refine ⟨_, hbody, ?_, ?_, ?_, ?_⟩
  · rw [(tran_predict_control cfg clamp _).1, hdt]
  · intro hp
    rw [(tran_predict_control cfg clamp _).1]
    unfold tran_predict
    rw [if_neg (by simp [hp])]
    rfl
  · intro hp h1
    rw [(tran_predict_control cfg clamp _).1]
    have h3 : 3 ≤ s.T_Cycles := by
      rcases hcases with h | h
      · exact h.2
      · omega
    unfold tran_predict
    rw [if_pos hp, if_pos ⟨h1, h3⟩]
    rfl
  · intro hp h2
    rw [(tran_predict_control cfg clamp _).1]
    have h4 : 4 ≤ s.T_Cycles := by
      rcases hcases with h | h
      · rw [h2] at h
        exact absurd h.1 (by decide)
      · exact h.2
    unfold tran_predict
    rw [if_pos hp, if_neg, if_pos ⟨h2, h4⟩]
    · rfl
    · rw [h2]
      exact fun h => absurd h.1 (by decide)

/-- Witness for C25 (amended): the rejection of the counterexample run is retried from the
first-order predictor. -/
theorem tran_lte_retry_guess_witness :
    lte_active tran_cfg_predict tran_history_demo = true ∧ (1 / 2 : ℚ) < 9 / 10 ∧
    ∃ s', tran_body tran_cfg_predict no_clamp (TranResult.converged 7 (1 / 2)) tran_history_demo
        = LoopStep.next s' ∧
      s'.dt = 9 / 10 * (1 / 2) * tran_history_demo.dt ∧
      (tran_cfg_predict.Predict = true → tran_cfg_predict.TS_type = TSType.BDF1 →
        s'.x = no_clamp (tran_linear_predictor s'.dt tran_history_demo.dt_last
          tran_history_demo.x_n tran_history_demo.x_n1) tran_history_demo.x_n) :=
  have hact : lte_active tran_cfg_predict tran_history_demo = true := by
    simp [lte_active, tran_cfg_predict, tran_history_demo]
  have hr : (1 / 2 : ℚ) < 9 / 10 := by norm_num
  have h := tran_lte_retry_guess tran_cfg_predict no_clamp tran_history_demo (7 : ℚ) (1 / 2)
    hact hr
  ⟨hact, hr, h.choose, h.choose_spec.1, h.choose_spec.2.1, h.choose_spec.2.2.2.1⟩

end TransientRejection

section TransientRetryTheorems
variable {V : Type} [AddCommGroup V] [Module ℚ V]

/-- C27 as stated fails: in the adaptive first-order run from 0 to 10 with TStep = 1 whose
configured maximal step is -1, four accepted steps leave dt = -1 and the clock at -0.6359,
the last accepted time being 0.3641.  A divergence then sets dt' = -0.5 and the clamp to
TStart is active (clock - dt' = -0.1359 < 0): the retry is placed at 0, not at the last
accepted time plus dt'.  And in a run whose stop time 0 precedes its start time 10, a first
solve that diverges ends the loop: the retry is not attempted. -/
theorem tran_divergence_clamped_after_accept :
    tran_cfg_negative_max.TStart ≤ tran_cfg_negative_max.TStop ∧
    (0 : ℚ) < tran_cfg_negative_max.TStep ∧
    (solve_transient_loop tran_cfg_negative_max no_clamp tran_zero tran_four_converged).status
      = LoopEnd.running ∧
    last_accepted_time tran_cfg_negative_max
      (solve_transient_loop tran_cfg_negative_max no_clamp tran_zero tran_four_converged).trace
      = some (3641 / 10000) ∧
    (solve_transient_loop tran_cfg_negative_max no_clamp tran_zero tran_four_converged).final.clock
      = -6359 / 10000 ∧
    (solve_transient_loop tran_cfg_negative_max no_clamp tran_zero
        (tran_four_converged ++ [TranResult.diverged 0 0])).final.dt = -1 / 2 ∧
    (-6359 / 10000 : ℚ) - -1 / 2 < tran_cfg_negative_max.TStart ∧
    (solve_transient_loop tran_cfg_negative_max no_clamp tran_zero
        (tran_four_converged ++ [TranResult.diverged 0 0])).final.clock = 0 ∧
    (0 : ℚ) ≠ 3641 / 10000 + -1 / 2 ∧
    (solve_transient_loop tran_cfg_reversed no_clamp tran_zero
        [TranResult.diverged 0 0, TranResult.converged 0 1]).status = LoopEnd.completed ∧
    (solve_transient_loop tran_cfg_reversed no_clamp tran_zero
        [TranResult.diverged 0 0, TranResult.converged 0 1]).trace.length = 1 := by
  refine ⟨by norm_num [tran_cfg_negative_max], by norm_num [tran_cfg_negative_max], ?_, ?_, ?_,
    ?_, by norm_num [tran_cfg_negative_max], ?_, by norm_num, ?_, ?_⟩
  · norm_num [solve_transient_loop, do_while_loop, tran_body, tran_cond, tran_start,
      tran_step_control, tran_accept, tran_predict, lte_active, lte_next_dt,
      tran_cfg_negative_max, tran_zero, tran_four_converged, fabs]
  · norm_num [solve_transient_loop, do_while_loop, tran_body, tran_cond, tran_start,
      tran_step_control, tran_accept, tran_predict, lte_active, lte_next_dt,
      tran_cfg_negative_max, tran_zero, tran_four_converged, fabs, last_accepted_time,
      tran_step_accepted]
  · norm_num [solve_transient_loop, do_while_loop, tran_body, tran_cond, tran_start,
      tran_step_control, tran_accept, tran_predict, lte_active, lte_next_dt,
      tran_cfg_negative_max, tran_zero, tran_four_converged, fabs]
  · norm_num [solve_transient_loop, do_while_loop, tran_body, tran_cond, tran_start,
      tran_step_control, tran_accept, tran_predict, lte_active, lte_next_dt,
      tran_cfg_negative_max, tran_zero, tran_four_converged, fabs]
  · norm_num [solve_transient_loop, do_while_loop, tran_body, tran_cond, tran_start,
      tran_step_control, tran_accept, tran_predict, lte_active, lte_next_dt,
      tran_cfg_negative_max, tran_zero, tran_four_converged, fabs]
  · norm_num [solve_transient_loop, do_while_loop, tran_body, tran_cond, tran_start,
      tran_step_control, tran_accept, tran_predict, lte_active, lte_next_dt,
      tran_cfg_reversed, tran_zero, fabs]
  · norm_num [solve_transient_loop, do_while_loop, tran_body, tran_cond, tran_start,
      tran_step_control, tran_accept, tran_predict, lte_active, lte_next_dt,
      tran_cfg_reversed, tran_zero, fabs]

/-- C27 (amended): in a run of solve_transient that is still going on, a divergence that
does not abort sets dt' = dt/2 and clock' = max(clock - dt', TStart).  When TStart <= TStop,
TStep > 0, the earlier LTE ratios are positive and, under adaptive stepping, TStepMax > 0:
once a step has been accepted the clamp is inactive and clock' is the last accepted time plus
dt', the loop condition holds afterwards, and the loop goes on to the retry. -/
theorem tran_divergence_placement (cfg : TranConfig) (clamp : V → V → V) (g : TranState V)
    (evs : List (TranResult V)) (xf xr : V)
    (hrun : (solve_transient_loop cfg clamp g evs).status = LoopEnd.running)
    (hnab : (solve_transient_loop cfg clamp g evs).final.diverged_retry + 1 < 8) :
    ((solve_transient_loop cfg clamp g (evs ++ [TranResult.diverged xf xr])).final.dt
        = (solve_transient_loop cfg clamp g evs).final.dt / 2 ∧
      (solve_transient_loop cfg clamp g (evs ++ [TranResult.diverged xf xr])).final.clock
        = max ((solve_transient_loop cfg clamp g evs).final.clock
            - (solve_transient_loop cfg clamp g (evs ++ [TranResult.diverged xf xr])).final.dt)
          cfg.TStart) ∧
    (cfg.TStart ≤ cfg.TStop → 0 < cfg.TStep → (cfg.AutoStep = true → 0 < cfg.TStepMax) →
      (∀ e ∈ evs, ∀ (x : V) (q : ℚ), e = TranResult.converged x q → 0 < q) →
      (∀ t, last_accepted_time cfg (solve_transient_loop cfg clamp g evs).trace = some t →
        cfg.TStart ≤ (solve_transient_loop cfg clamp g evs).final.clock
          - (solve_transient_loop cfg clamp g (evs ++ [TranResult.diverged xf xr])).final.dt ∧
        (solve_transient_loop cfg clamp g (evs ++ [TranResult.diverged xf xr])).final.clock
          = t
            + (solve_transient_loop cfg clamp g (evs ++ [TranResult.diverged xf xr])).final.dt) ∧
      tran_cond cfg (solve_transient_loop cfg clamp g (evs ++ [TranResult.diverged xf xr])).final
        = true ∧
      (solve_transient_loop cfg clamp g (evs ++ [TranResult.diverged xf xr])).status
        = LoopEnd.running) := by
  obtain ⟨s', hb, hd, hc, hcy, -⟩ := tran_body_diverged_time cfg clamp xf xr
    (solve_transient_loop cfg clamp g evs).final hnab
  have hfin : (solve_transient_loop cfg clamp g (evs ++ [TranResult.diverged xf xr])).final
      = s' := ((do_while_snoc _ _ evs _ _ hrun).2 s' hb).2
  refine ⟨by rw [hfin]; exact ⟨hd, by rw [hc, hd]⟩, ?_⟩
  intro hS hT hM hev
  obtain ⟨hdt, hnone, hsome⟩ := tran_time_invariant cfg clamp g hT hM evs hev hrun
  have hhead : (solve_transient_loop cfg clamp g evs).final.clock
      < cfg.TStop + 1 / 2 * (solve_transient_loop cfg clamp g evs).final.dt := by
    cases hl : last_accepted_time cfg (solve_transient_loop cfg clamp g evs).trace with
    | none =>
      rw [(hnone hl).1]
      linarith
    | some t =>
      rcases List.eq_nil_or_concat evs with he | ⟨es, e, he⟩
      · subst he
        simp [solve_transient_loop, do_while_loop, last_accepted_time] at hl
      · rw [List.concat_eq_append] at he
        subst he
        unfold solve_transient_loop at hrun ⊢
        obtain ⟨s2, -, hcond, hf2⟩ := do_while_snoc_running _ _ es e _ hrun
        rw [hf2]
        simpa [tran_cond] using hcond
  have hcond : tran_cond cfg s' = true := by
    simp only [tran_cond, decide_eq_true_eq]
    rw [hc, hd]
    rcases max_cases ((solve_transient_loop cfg clamp g evs).final.clock
      - (solve_transient_loop cfg clamp g evs).final.dt / 2) cfg.TStart with h | h
    · rw [h.1]
      linarith
    · rw [h.1]
      linarith
  have hstat : (solve_transient_loop cfg clamp g (evs ++ [TranResult.diverged xf xr])).status
      = LoopEnd.running := by
    unfold solve_transient_loop at hrun hb ⊢
    rw [do_while_append _ _ evs [TranResult.diverged xf xr] _ hrun]
    simp [do_while_loop, hb, hcond]
  rw [hfin]
  refine ⟨?_, hcond, hstat⟩
  intro t hl
  obtain ⟨h1, h2, -⟩ := hsome t hl
  have hle : cfg.TStart ≤ (solve_transient_loop cfg clamp g evs).final.clock - s'.dt := by
    rw [hd, h2]
    linarith
  refine ⟨hle, ?_⟩
  rw [hc, ← hd, max_eq_left hle, h2, hd]
  ring

/-- Witness for C27 (amended): after two accepted steps of the run from 0 to 10 a divergence
halves the step and the loop goes on. -/
theorem tran_divergence_placement_witness :
    (solve_transient_loop tran_cfg_auto no_clamp tran_zero tran_two_converged).status
      = LoopEnd.running ∧
    (solve_transient_loop tran_cfg_auto no_clamp tran_zero tran_two_converged).final.diverged_retry
      + 1 < 8 ∧
    (solve_transient_loop tran_cfg_auto no_clamp tran_zero
        (tran_two_converged ++ [TranResult.diverged 0 0])).final.dt
      = (solve_transient_loop tran_cfg_auto no_clamp tran_zero tran_two_converged).final.dt / 2 ∧
    (solve_transient_loop tran_cfg_auto no_clamp tran_zero
        (tran_two_converged ++ [TranResult.diverged 0 0])).status = LoopEnd.running :=
  have hS : tran_cfg_auto.TStart ≤ tran_cfg_auto.TStop := by norm_num [tran_cfg_auto]
  have hT : (0 : ℚ) < tran_cfg_auto.TStep := by norm_num [tran_cfg_auto]
  have hM : tran_cfg_auto.AutoStep = true → (0 : ℚ) < tran_cfg_auto.TStepMax := by
    intro _
    norm_num [tran_cfg_auto]
  have hev : ∀ e ∈ tran_two_converged, ∀ (x : ℚ) (q : ℚ),
      e = TranResult.converged x q → 0 < q := by
    intro e he x q hx
    rw [hx] at he
    simp [tran_two_converged] at he
    rw [he.2]
    norm_num
  have hrun : (solve_transient_loop tran_cfg_auto no_clamp tran_zero
      tran_two_converged).status = LoopEnd.running := by
    norm_num [solve_transient_loop, do_while_loop, tran_body, tran_cond, tran_start,
      tran_step_control, tran_accept, tran_predict, lte_active, tran_cfg_auto, tran_zero,
      tran_two_converged, fabs]
  have hnab : (solve_transient_loop tran_cfg_auto no_clamp tran_zero
      tran_two_converged).final.diverged_retry + 1 < 8 := by
    norm_num [solve_transient_loop, do_while_loop, tran_body, tran_cond, tran_start,
      tran_step_control, tran_accept, tran_predict, lte_active, tran_cfg_auto, tran_zero,
      tran_two_converged, fabs]
  have h := tran_divergence_placement tran_cfg_auto no_clamp tran_zero tran_two_converged
    (0 : ℚ) 0 hrun hnab
  ⟨hrun, hnab, h.1.1, (h.2 hS hT hM hev).2.2⟩

end TransientRetryTheorems

section RampResume
variable {V : Type} [AddCommGroup V] [Module ℚ V] {σ ε : Type}

theorem while_loop_snoc_trace (cond : σ → Bool) (body : ε → σ → LoopStep σ) (es : List ε) (e : ε)
    (s : σ) (h : (while_loop cond body es s).status = LoopEnd.running) :
    (while_loop cond body (es ++ [e]) s).trace
      = (while_loop cond body es s).trace ++ [((while_loop cond body es s).final, e)] := by
  have hc := while_loop_running_cond cond body es s h
  rw [while_loop_append cond body es [e] s h]
  show _ ++ _ = _ ++ _
  congr 1
  simp only [while_loop, hc, if_true]
  cases body e (while_loop cond body es s).final with
  | brk s' => rfl
  | next s' =>
    by_cases hc2 : cond s' = true
    · simp [hc2]
    · simp [hc2]

theorem accepted_ramp_fractions_snoc (r1 r0 : Run (RampState V) (SolveResult V))
    (s : RampState V) (e : SolveResult V) (h : r1.trace = r0.trace ++ [(s, e)]) :
    accepted_ramp_fractions r1
      = accepted_ramp_fractions r0 ++ (if e.isConverged = true then [ramp_fraction s] else []) := by
  unfold accepted_ramp_fractions
  rw [h, List.filter_append, List.map_append]
  by_cases hc : e.isConverged = true
  · simp [hc, List.filter_cons]
  · simp [hc, List.filter_cons]

theorem ramp_resume_invariant (Predict : Bool) (clamp : V → V → V) (N : Int) (g : RampState V)
    (evs : List (SolveResult V)) :
    (dcop_ramp Predict clamp N g evs).status = LoopEnd.running →
    (((dcop_ramp Predict clamp N g evs).final.step : ℚ) - 1)
        / ((dcop_ramp Predict clamp N g evs).final.rampup_steps : ℚ)
      = ((accepted_ramp_fractions (dcop_ramp Predict clamp N g evs)).getLast?).getD 0 := by
  induction evs using List.reverseRecOn with
  | nil =>
    intro _
    have hs : (dcop_ramp Predict clamp N g []).final.step = 1 := by
      unfold dcop_ramp
      simp only [while_loop]
      split_ifs <;> rfl
    have ht : (dcop_ramp Predict clamp N g []).trace = [] := by
      unfold dcop_ramp
      simp only [while_loop]
      split_ifs <;> rfl
    rw [hs]
    simp [accepted_ramp_fractions, ht]
  | append_singleton es e ih =>
    intro hrun
    unfold dcop_ramp at hrun ih ⊢
    have h0 := while_loop_running_of_append _ _ es [e] _ hrun
    have htr := while_loop_snoc_trace dcop_ramp_cond (dcop_ramp_body Predict clamp) es e
      (dcop_ramp_start N g) h0
    have hsn := while_loop_snoc dcop_ramp_cond (dcop_ramp_body Predict clamp) es e
      (dcop_ramp_start N g) h0
    rw [accepted_ramp_fractions_snoc _ _ _ _ htr]
    have ih' := ih h0
    cases e with
    | converged x1 =>
      obtain ⟨s', hb, hst, hru, -, -⟩ := dcop_ramp_body_converged Predict clamp x1
        (while_loop dcop_ramp_cond (dcop_ramp_body Predict clamp) es (dcop_ramp_start N g)).final
      rw [(hsn.2 s' hb).1, hst, hru]
      simp [SolveResult.isConverged, ramp_fraction]
    | diverged xf xr =>
      by_cases hrec : (while_loop dcop_ramp_cond (dcop_ramp_body Predict clamp) es
          (dcop_ramp_start N g)).final.DC_Cycles = 0 ∨
          3 ≤ (while_loop dcop_ramp_cond (dcop_ramp_body Predict clamp) es
            (dcop_ramp_start N g)).final.retry
      · obtain ⟨s', hb⟩ := dcop_ramp_body_diverged_brk Predict clamp xf xr _ hrec
        rw [(hsn.1 s' hb).1] at hrun
        cases hrun
      · push_neg at hrec
        obtain ⟨s', hb, hst, hru, -, -⟩ := dcop_ramp_body_diverged_next Predict clamp xf xr _
          hrec.1 hrec.2
        rw [(hsn.2 s' hb).1, hst, hru]
        simp only [SolveResult.isConverged, Bool.false_eq_true, if_false, List.append_nil]
        rw [← ih']
        push_cast
        by_cases hz : ((while_loop dcop_ramp_cond (dcop_ramp_body Predict clamp) es
            (dcop_ramp_start N g)).final.rampup_steps : ℚ) = 0
        · rw [hz]
          simp
        · field_simp
          ring

end RampResume

section RampGuess
variable {V : Type} [AddCommGroup V] [Module ℚ V]

theorem dcop_ramp_guess_after_accept (clamp : V → V → V) (x1 : V) (s : RampState V) :
    ∃ s', dcop_ramp_body true clamp (SolveResult.converged x1) s = LoopStep.next s' ∧
      s'.x = if s.DC_Cycles + 1 ≥ 2 then clamp x1 x1 else x1 := by
  refine ⟨_, rfl, ?_⟩
  simp only [dcop_ramp_verdict, dcop_ramp_finish, dc_predict, if_true, sub_self,
    dc_quadratic_projection, dc_linear_projection, proj_cn, proj_cn1, proj_cn2, zero_mul,
    zero_div, neg_zero, zero_smul, add_zero]
  by_cases h3 : s.DC_Cycles + 1 ≥ 3
  · have h2 : s.DC_Cycles + 1 ≥ 2 := by omega
    simp [h3, h2]
  · by_cases h2 : s.DC_Cycles + 1 ≥ 2
    · simp [h3, h2]
    · simp [h3, h2]

end RampGuess

section RampResumeTheorems
variable {V : Type} [AddCommGroup V] [Module ℚ V]

/-- C28: at the head of every iteration of the solve_dcop ramp, (step-1)/rampup_steps is the
last accepted ramp fraction (0 before any acceptance); a recoverable divergence at step s of N
makes the step count 2N and the next attempt step 2s-1, whose fraction is midway between the
last accepted fraction (s-1)/N and the failed fraction s/N; the last accepted fraction is
unchanged and the loop goes on to that attempt. -/
theorem dcop_ramp_resume (Predict : Bool) (clamp : V → V → V) (N : Int) (g : RampState V)
    (evs : List (SolveResult V)) (xf xr : V)
    (hrun : (dcop_ramp Predict clamp N g evs).status = LoopEnd.running) :
    (((dcop_ramp Predict clamp N g evs).final.step : ℚ) - 1)
        / ((dcop_ramp Predict clamp N g evs).final.rampup_steps : ℚ)
      = ((accepted_ramp_fractions (dcop_ramp Predict clamp N g evs)).getLast?).getD 0 ∧
    ((dcop_ramp Predict clamp N g evs).final.DC_Cycles ≠ 0 →
      (dcop_ramp Predict clamp N g evs).final.retry < 3 →
      (dcop_ramp Predict clamp N g (evs ++ [SolveResult.diverged xf xr])).final.rampup_steps
        = 2 * (dcop_ramp Predict clamp N g evs).final.rampup_steps ∧
      (dcop_ramp Predict clamp N g (evs ++ [SolveResult.diverged xf xr])).final.step
        = 2 * (dcop_ramp Predict clamp N g evs).final.step - 1 ∧
      ramp_fraction (dcop_ramp Predict clamp N g (evs ++ [SolveResult.diverged xf xr])).final
        = ((((dcop_ramp Predict clamp N g evs).final.step : ℚ) - 1)
              / ((dcop_ramp Predict clamp N g evs).final.rampup_steps : ℚ)
            + ramp_fraction (dcop_ramp Predict clamp N g evs).final) / 2 ∧
      (((dcop_ramp Predict clamp N g (evs ++ [SolveResult.diverged xf xr])).final.step : ℚ) - 1)
          / ((dcop_ramp Predict clamp N g
              (evs ++ [SolveResult.diverged xf xr])).final.rampup_steps : ℚ)
        = (((dcop_ramp Predict clamp N g evs).final.step : ℚ) - 1)
          / ((dcop_ramp Predict clamp N g evs).final.rampup_steps : ℚ) ∧
      (dcop_ramp Predict clamp N g (evs ++ [SolveResult.diverged xf xr])).status
        = LoopEnd.running) := by
  refine ⟨ramp_resume_invariant Predict clamp N g evs hrun, ?_⟩
  intro h0 h3
  unfold dcop_ramp at hrun h0 h3 ⊢
  obtain ⟨s', hb, hst, hru, -, -⟩ := dcop_ramp_body_diverged_next Predict clamp xf xr _ h0 h3
  have hsn := (while_loop_snoc dcop_ramp_cond (dcop_ramp_body Predict clamp) evs
    (SolveResult.diverged xf xr) (dcop_ramp_start N g) hrun).2 s' hb
  have hc := (dcop_ramp_cond_iff _).mp (while_loop_running_cond _ _ evs _ hrun)
  have hc' : dcop_ramp_cond s' = true := by
    rw [dcop_ramp_cond_iff, hst, hru]
    omega
  rw [hsn.1, hsn.2, hst, hru]
  refine ⟨rfl, rfl, ?_, ?_, by simp [hc']⟩
  · simp only [ramp_fraction, hst, hru]
    push_cast
    by_cases hz : ((while_loop dcop_ramp_cond (dcop_ramp_body Predict clamp) evs
        (dcop_ramp_start N g)).final.rampup_steps : ℚ) = 0
    · rw [hz]
      simp
    · field_simp
      ring
  · push_cast
    by_cases hz : ((while_loop dcop_ramp_cond (dcop_ramp_body Predict clamp) evs
        (dcop_ramp_start N g)).final.rampup_steps : ℚ) = 0
    · rw [hz]
      simp
    · field_simp
      ring

/-- Witness for C28: a ramp of two steps whose first step was accepted. -/
theorem dcop_ramp_resume_witness :
    (dcop_ramp true no_clamp 2 ramp_zero [conv0]).status = LoopEnd.running ∧
    (((dcop_ramp true no_clamp 2 ramp_zero [conv0]).final.step : ℚ) - 1)
        / ((dcop_ramp true no_clamp 2 ramp_zero [conv0]).final.rampup_steps : ℚ)
      = ((accepted_ramp_fractions (dcop_ramp true no_clamp 2 ramp_zero [conv0])).getLast?).getD 0 :=
  have hrun : (dcop_ramp true no_clamp 2 ramp_zero [conv0]).status = LoopEnd.running := by
    simp [dcop_ramp, while_loop, dcop_ramp_cond, dcop_ramp_body, dcop_ramp_verdict,
      dcop_ramp_finish, dcop_ramp_start, ramp_zero, conv0]
  ⟨hrun, (dcop_ramp_resume true no_clamp 2 ramp_zero [conv0] 0 0 hrun).1⟩

/-- C24 (code evaluated at the failing input): a ramp of four steps with prediction on whose
solves leave 1, 2, 3 at the fractions 1/4, 1/2, 3/4.  After the second acceptance the next
attempt is at fraction 3/4 and the linear extrapolation there is 3, but the guess left in the
solution vector is 2; after the third acceptance the next attempt is at fraction 1 and the
quadratic extrapolation there is 4, but the guess is 3: the projection block computes its step
hn from the fraction just accepted, which is 0. -/
theorem dcop_ramp_projection_without_step :
    (dcop_ramp true no_clamp 4 ramp_zero
      [SolveResult.converged 1, SolveResult.converged 2]).status = LoopEnd.running ∧
    accepted_ramp_fractions (dcop_ramp true no_clamp 4 ramp_zero
      [SolveResult.converged 1, SolveResult.converged 2]) = [1 / 4, 1 / 2] ∧
    ramp_fraction (dcop_ramp true no_clamp 4 ramp_zero
      [SolveResult.converged 1, SolveResult.converged 2]).final = 3 / 4 ∧
    spec_linear_extrapolation (3 / 4) (1 / 2) (1 / 4) (2 : ℚ) 1 = 3 ∧
    (dcop_ramp true no_clamp 4 ramp_zero
      [SolveResult.converged 1, SolveResult.converged 2]).final.x = 2 ∧
    (dcop_ramp true no_clamp 4 ramp_zero ramp_line_verdicts).status = LoopEnd.running ∧
    accepted_ramp_fractions (dcop_ramp true no_clamp 4 ramp_zero ramp_line_verdicts)
      = [1 / 4, 1 / 2, 3 / 4] ∧
    ramp_fraction (dcop_ramp true no_clamp 4 ramp_zero ramp_line_verdicts).final = 1 ∧
    spec_quadratic_extrapolation 1 (3 / 4) (1 / 2) (1 / 4) (3 : ℚ) 2 1 = 4 ∧
    (dcop_ramp true no_clamp 4 ramp_zero ramp_line_verdicts).final.x = 3 := by
  refine ⟨?_, ?_, ?_, ?_, ?_, ?_, ?_, ?_, ?_, ?_⟩ <;>
    norm_num [accepted_ramp_fractions, ramp_fraction, dcop_ramp, while_loop, dcop_ramp_cond,
      dcop_ramp_body, dcop_ramp_verdict, dcop_ramp_finish, dcop_ramp_start, ramp_zero,
      ramp_line_verdicts, SolveResult.isConverged, dc_predict, dc_linear_projection,
      dc_quadratic_projection, proj_cn, proj_cn1, proj_cn2, no_clamp,
      spec_linear_extrapolation, spec_quadratic_extrapolation]

end RampResumeTheorems

section GminRounding

theorem round_half_even_abs_sub_le (x : ℚ) : |(round_half_even x : ℚ) - x| ≤ 1 / 2 := by
  have hfl : (⌊x⌋ : ℚ) ≤ x := Int.floor_le x
  have hfl2 : x < ⌊x⌋ + 1 := Int.lt_floor_add_one x
  rw [abs_le]
  by_cases h1 : x - ⌊x⌋ < 1 / 2
  · unfold round_half_even
    rw [if_pos h1]
    constructor <;> linarith
  · by_cases h2 : 1 / 2 < x - ⌊x⌋
    · unfold round_half_even
      rw [if_neg h1, if_pos h2]
      push_cast
      constructor <;> linarith
    · have he : x - ⌊x⌋ = 1 / 2 := le_antisymm (not_lt.mp h2) (not_lt.mp h1)
      unfold round_half_even
      rw [if_neg h1, if_neg h2]
      split_ifs
      · constructor <;> linarith
      · push_cast
        constructor <;> linarith

/-- In the normal range the rounding changes a value by at most the fraction `2^-53`. -/
theorem binary64_round_rel (x : ℚ) (hx : 1 / 2 ^ 1022 ≤ x) :
    x * (1 - 1 / 2 ^ 53) ≤ binary64_round x ∧ binary64_round x ≤ x * (1 + 1 / 2 ^ 53) := by
  have hpos : 0 < x := lt_of_lt_of_le (by positivity) hx
  have h1 : (2 : ℚ) ^ Int.log 2 x ≤ x := Int.zpow_log_le_self (by norm_num) hpos
  have h2 : x < (2 : ℚ) ^ (Int.log 2 x + 1) := Int.lt_zpow_succ_log_self (by norm_num) x
  have he : -1022 ≤ Int.log 2 x := by
    apply (Int.zpow_le_iff_le_log (b := 2) (by norm_num) hpos (x := -1022)).mp
    have : ((2 : ℕ) : ℚ) ^ (-1022 : Int) = 1 / 2 ^ 1022 := by
      rw [zpow_neg, one_div]
      norm_cast
    rw [this]
    exact hx
  have hu := binary64_ulp_exponent_eq x (Int.log 2 x) he h1 h2
  have hupos : (0 : ℚ) < 2 ^ (Int.log 2 x - 52) := zpow_pos (by norm_num) _
  have hule : (2 : ℚ) ^ (Int.log 2 x - 52) ≤ x / 2 ^ 52 := by
    rw [zpow_sub₀ (by norm_num : (2 : ℚ) ≠ 0)]
    have : (2 : ℚ) ^ (52 : Int) = 2 ^ 52 := by norm_cast
    rw [this]
    exact div_le_div_of_nonneg_right h1 (by positivity)
  have hr := round_half_even_abs_sub_le (x / 2 ^ (Int.log 2 x - 52))
  rw [abs_le] at hr
  have hval : binary64_round x
      = (round_half_even (x / 2 ^ (Int.log 2 x - 52)) : ℚ) * 2 ^ (Int.log 2 x - 52) := by
    unfold binary64_round
    rw [abs_of_pos hpos, hu]
  have hx2 : x = x / 2 ^ (Int.log 2 x - 52) * 2 ^ (Int.log 2 x - 52) := by
    field_simp
  rw [hval]
  constructor
  · have : (x / 2 ^ (Int.log 2 x - 52) - 1 / 2) * 2 ^ (Int.log 2 x - 52)
        ≤ (round_half_even (x / 2 ^ (Int.log 2 x - 52)) : ℚ) * 2 ^ (Int.log 2 x - 52) :=
      mul_le_mul_of_nonneg_right (by linarith) (le_of_lt hupos)
    have h3 : (x / 2 ^ (Int.log 2 x - 52) - 1 / 2) * 2 ^ (Int.log 2 x - 52)
        = x - 1 / 2 * 2 ^ (Int.log 2 x - 52) := by
      rw [sub_mul, ← hx2]
    rw [h3] at this
    have h4 : x / 2 ^ 52 = x * (1 / 2 ^ 52) := by ring
    nlinarith
  · have : (round_half_even (x / 2 ^ (Int.log 2 x - 52)) : ℚ) * 2 ^ (Int.log 2 x - 52)
        ≤ (x / 2 ^ (Int.log 2 x - 52) + 1 / 2) * 2 ^ (Int.log 2 x - 52) :=
      mul_le_mul_of_nonneg_right (by linarith) (le_of_lt hupos)
    have h3 : (x / 2 ^ (Int.log 2 x - 52) + 1 / 2) * 2 ^ (Int.log 2 x - 52)
        = x + 1 / 2 * 2 ^ (Int.log 2 x - 52) := by
      rw [add_mul, ← hx2]
    rw [h3] at this
    have h4 : x / 2 ^ 52 = x * (1 / 2 ^ 52) := by ring
    nlinarith

theorem gmin_scaled_nonneg (g : ℚ) (hg : 0 ≤ g) (j : Nat) : 0 ≤ gmin_scaled g j := by
  cases j with
  | zero => exact hg
  | succ j =>
    have hc : (0 : ℚ) ≤ binary64_round (1 / 100) := binary64_round_nonneg _ (by norm_num)
    show 0 ≤ binary64_round (gmin_scaled g j * binary64_round (1 / 100))
    rcases le_or_lt 0 (gmin_scaled g j * binary64_round (1 / 100)) with h | h
    · exact binary64_round_nonneg _ h
    · exact absurd (mul_nonneg (gmin_scaled_nonneg g hg j) hc) (not_le.mpr h)

theorem gmin_product_le (p : ℚ) (hp : 0 ≤ p) :
    binary64_round (p * binary64_round (1 / 100)) ≤ p / 32 := by
  have hc : (0 : ℚ) ≤ binary64_round (1 / 100) := binary64_round_nonneg _ (by norm_num)
  have h := binary64_round_le_two_mul (p * binary64_round (1 / 100)) (mul_nonneg hp hc)
  rw [binary64_round_one_hundredth] at h ⊢
  linarith

theorem gmin_scaled_succ_le (g : ℚ) (hg : 0 ≤ g) (j : Nat) :
    gmin_scaled g (j + 1) ≤ gmin_scaled g j / 32 :=
  gmin_product_le _ (gmin_scaled_nonneg g hg j)

theorem gmin_scaled_le_pow (g : ℚ) (hg : 0 ≤ g) (j : Nat) :
    gmin_scaled g j ≤ g * (1 / 32) ^ j := by
  induction j with
  | zero => simp [gmin_scaled]
  | succ j ih =>
    have h := gmin_scaled_succ_le g hg j
    rw [pow_succ]
    linarith

theorem gmin_scaled_antitone (g : ℚ) (hg : 0 ≤ g) (a b : Nat) (hab : a ≤ b) :
    gmin_scaled g b ≤ gmin_scaled g a := by
  induction b with
  | zero =>
    have : a = 0 := by omega
    rw [this]
  | succ b ih =>
    rcases Nat.eq_or_lt_of_le hab with h | h
    · rw [h]
    · have h1 := ih (by omega)
      have h2 := gmin_scaled_succ_le g hg b
      have h3 := gmin_scaled_nonneg g hg b
      linarith

theorem gmin_scaled_succ_lt (g : ℚ) (hg : 0 ≤ g) (j : Nat) (hp : 0 < gmin_scaled g j) :
    gmin_scaled g (j + 1) < gmin_scaled g j := by
  have h := gmin_scaled_succ_le g hg j
  linarith

theorem gmin_least_stage (G0 Gmin : ℚ) (h0 : 0 < Gmin) (h1 : Gmin < G0) :
    ∃ k : Nat, 1 ≤ k ∧ gmin_scaled G0 k ≤ Gmin ∧ ∀ j < k, Gmin < gmin_scaled G0 j := by
  have hG : 0 < G0 := lt_trans h0 h1
  have hex : ∃ n : Nat, gmin_scaled G0 n ≤ Gmin := by
    obtain ⟨n, hn⟩ := exists_pow_lt_of_lt_one (div_pos h0 hG) (by norm_num : (1 / 32 : ℚ) < 1)
    refine ⟨n, ?_⟩
    have := (lt_div_iff₀ hG).mp hn
    have h2 := gmin_scaled_le_pow G0 (le_of_lt hG) n
    linarith
  refine ⟨Nat.find hex, ?_, Nat.find_spec hex, ?_⟩
  · rcases Nat.eq_zero_or_pos (Nat.find hex) with hz | hp
    · have := Nat.find_spec hex
      rw [hz] at this
      simp only [gmin_scaled] at this
      linarith
    · exact hp
  · intro j hj
    exact not_le.mp (Nat.find_min hex hj)

/-- While the products stay in the normal range of doubles, `j` rounded products by `1e-2`
differ from the exact power by the accumulated rounding only. -/
theorem gmin_scaled_bounds (G0 Gmin : ℚ) (k : Nat) (hG : 0 ≤ G0) (hmin : 1 / 2 ^ 1015 ≤ Gmin)
    (hlt : ∀ j < k, Gmin < gmin_scaled G0 j) :
    ∀ j ≤ k, G0 * (1 / 100 - 1 / 10 ^ 17) ^ j ≤ gmin_scaled G0 j ∧
      gmin_scaled G0 j ≤ G0 * (1 / 100 + 1 / 10 ^ 17) ^ j := by
  intro j
  induction j with
  | zero =>
    intro _
    simp [gmin_scaled]
  | succ j ih =>
    intro hj
    obtain ⟨l, u⟩ := ih (by omega)
    have hp : Gmin < gmin_scaled G0 j := hlt j (by omega)
    have hpp : 0 ≤ gmin_scaled G0 j := gmin_scaled_nonneg G0 hG j
    have hprod : (1 : ℚ) / 2 ^ 1022 ≤ gmin_scaled G0 j * binary64_round (1 / 100) := by
      rw [binary64_round_one_hundredth]
      have e : (1 : ℚ) / 2 ^ 1022 = 1 / 2 ^ 1015 * (1 / 2 ^ 7) := by
        rw [show (1022 : ℕ) = 1015 + 7 from rfl, pow_add]
        field_simp
      rw [e]
      apply mul_le_mul (le_trans hmin (le_of_lt hp)) (by norm_num) (by norm_num) hpp
    obtain ⟨r1, r2⟩ := binary64_round_rel _ hprod
    rw [binary64_round_one_hundredth] at r1 r2
    have hlo : (0 : ℚ) ≤ (1 / 100 - 1 / 10 ^ 17) ^ j := by positivity
    have hL : (0 : ℚ) ≤ G0 * (1 / 100 - 1 / 10 ^ 17) ^ j := mul_nonneg hG hlo
    constructor
    · show _ ≤ binary64_round (gmin_scaled G0 j * binary64_round (1 / 100))
      rw [binary64_round_one_hundredth, pow_succ, ← mul_assoc]
      have c1 : (1 / 100 - 1 / 10 ^ 17 : ℚ)
          ≤ 5764607523034235 / 576460752303423488 * (1 - 1 / 2 ^ 53) := by norm_num
      calc G0 * (1 / 100 - 1 / 10 ^ 17) ^ j * (1 / 100 - 1 / 10 ^ 17)
          ≤ gmin_scaled G0 j * (1 / 100 - 1 / 10 ^ 17) :=
            mul_le_mul_of_nonneg_right l (by norm_num)
        _ ≤ gmin_scaled G0 j
              * (5764607523034235 / 576460752303423488 * (1 - 1 / 2 ^ 53)) :=
            mul_le_mul_of_nonneg_left c1 hpp
        _ = gmin_scaled G0 j * (5764607523034235 / 576460752303423488)
              * (1 - 1 / 2 ^ 53) := by ring
        _ ≤ _ := r1
    · show binary64_round (gmin_scaled G0 j * binary64_round (1 / 100)) ≤ _
      rw [binary64_round_one_hundredth, pow_succ, ← mul_assoc]
      have c1 : (5764607523034235 / 576460752303423488 * (1 + 1 / 2 ^ 53) : ℚ)
          ≤ 1 / 100 + 1 / 10 ^ 17 := by norm_num
      calc binary64_round (gmin_scaled G0 j * (5764607523034235 / 576460752303423488))
          ≤ gmin_scaled G0 j * (5764607523034235 / 576460752303423488)
              * (1 + 1 / 2 ^ 53) := r2
        _ = gmin_scaled G0 j
              * (5764607523034235 / 576460752303423488 * (1 + 1 / 2 ^ 53)) := by ring
        _ ≤ gmin_scaled G0 j * (1 / 100 + 1 / 10 ^ 17) :=
            mul_le_mul_of_nonneg_left c1 hpp
        _ ≤ G0 * (1 / 100 + 1 / 10 ^ 17) ^ j * (1 / 100 + 1 / 10 ^ 17) :=
            mul_le_mul_of_nonneg_right u (by norm_num)

end GminRounding

section GminLemmas
variable {V : Type}

theorem gmin_loop_run (last : Bool) (G0 Gmin : ℚ) (k : Nat)
    (hk : gmin_scaled G0 k ≤ Gmin) (hlt : ∀ j < k, Gmin < gmin_scaled G0 j) :
    ∀ (m i : Nat) (evs : List (GminResult V)) (s : GminState V), i + m = k →
      s.gmin = max (gmin_scaled G0 i) Gmin → (∀ e ∈ evs, GminResult.isPassed e = true) →
      m ≤ evs.length →
      (while_loop (dcop_gmin_cond Gmin) (dcop_gmin_body last Gmin) evs s).status
        = LoopEnd.completed ∧
      (while_loop (dcop_gmin_cond Gmin) (dcop_gmin_body last Gmin) evs s).trace.map
          (fun a => dcop_gmin_next Gmin a.1.gmin)
        = (List.range m).map (fun j => max (gmin_scaled G0 (i + j + 1)) Gmin) ∧
      (while_loop (dcop_gmin_cond Gmin) (dcop_gmin_body last Gmin) evs s).final.gmin = Gmin ∧
      (0 < m → last = true →
        (while_loop (dcop_gmin_cond Gmin) (dcop_gmin_body last Gmin) evs s).final.ckt_gmin
          = Gmin) ∧
      (m = 0 →
        (while_loop (dcop_gmin_cond Gmin) (dcop_gmin_body last Gmin) evs s).final = s) := by
  intro m
  induction m with
  | zero =>
    intro i evs s hi hs _ _
    have hik : i = k := by omega
    subst hik
    have hg : s.gmin = Gmin := by rw [hs, max_eq_right hk]
    have hc : dcop_gmin_cond Gmin s = false := by
      simp [dcop_gmin_cond, hg]
    rw [while_loop_false _ _ evs s hc]
    exact ⟨rfl, rfl, hg, fun h => absurd h (lt_irrefl 0), fun _ => rfl⟩
  | succ m ih =>
    intro i evs s hi hs hev hlen
    have hik : i < k := by omega
    have hg : s.gmin = gmin_scaled G0 i := by
      rw [hs, max_eq_left (le_of_lt (hlt i hik))]
    have hc : dcop_gmin_cond Gmin s = true := by
      simp only [dcop_gmin_cond, decide_eq_true_eq, hg]
      exact hlt i hik
    cases evs with
    | nil => simp at hlen
    | cons e es =>
      cases e with
      | failed xf =>
        have := hev (GminResult.failed xf) (by simp)
        simp [GminResult.isPassed] at this
      | passed x1 =>
        have hnext : dcop_gmin_next Gmin s.gmin = max (gmin_scaled G0 (i + 1)) Gmin := by
          rw [dcop_gmin_next, hg]
          rfl
        have hb : dcop_gmin_body last Gmin (GminResult.passed x1) s
            = LoopStep.next ⟨dcop_gmin_next Gmin s.gmin,
                if last = true then dcop_gmin_next Gmin s.gmin else s.ckt_gmin, x1⟩ := rfl
        rw [while_loop_cons_next _ _ _ es s _ hc hb]
        obtain ⟨h1, h2, h3, h4, h5⟩ := ih (i + 1) es
          ⟨dcop_gmin_next Gmin s.gmin,
            if last = true then dcop_gmin_next Gmin s.gmin else s.ckt_gmin, x1⟩
          (by omega) hnext (fun e he => hev e (List.mem_cons_of_mem _ he))
          (by simpa using hlen)
        refine ⟨h1, ?_, h3, ?_, fun h => absurd h (Nat.succ_ne_zero m)⟩
        · simp only [List.map_cons, h2, List.range_succ_eq_map, List.map_map]
          rw [hnext]
          congr 1
          apply List.map_congr_left
          intro j _
          simp only [Function.comp]
          congr 2
          omega
        · intro _ hl
          rcases Nat.eq_zero_or_pos m with hm | hm
          · rw [h5 hm]
            simp only [hl, if_true]
            rw [hnext]
            have : i + 1 = k := by omega
            rw [this, max_eq_right hk]
          · exact h4 hm hl

end GminLemmas

section GminTheorems
variable {V : Type}

/-- C23 (amended): in the gmin loop of solve_dcop on the owning process, with
GminInit > Gmin > 0 and every stage passing, let p_j be GminInit multiplied j times by the
double 1e-2, every product rounded to a double.  There is a least k with p_k <= Gmin, the loop
ends after exactly k stages (given k solver results), the values handed to the circuit are
max(p_j, Gmin) for j = 1..k, strictly decreasing, never below Gmin, the last one (the value
the circuit keeps) exactly Gmin; while Gmin >= 2^-1015 each p_j lies between
GminInit (0.01 - 1e-17)^j and GminInit (0.01 + 1e-17)^j.  With GminInit <= Gmin no stage is
run. -/
theorem dcop_gmin_sequence (GminInit Gmin ckt_gmin : ℚ) (x : V) :
    (0 < Gmin → Gmin < GminInit →
      ∃ k : Nat, 1 ≤ k ∧ gmin_scaled GminInit k ≤ Gmin ∧
        (∀ j < k, Gmin < gmin_scaled GminInit j) ∧
        (1 / 2 ^ 1015 ≤ Gmin → ∀ j ≤ k,
          GminInit * (1 / 100 - 1 / 10 ^ 17) ^ j ≤ gmin_scaled GminInit j ∧
          gmin_scaled GminInit j ≤ GminInit * (1 / 100 + 1 / 10 ^ 17) ^ j) ∧
        ∀ evs : List (GminResult V), (∀ e ∈ evs, GminResult.isPassed e = true) →
          k ≤ evs.length →
          (dcop_gmin true GminInit Gmin ckt_gmin x evs).status = LoopEnd.completed ∧
          (dcop_gmin true GminInit Gmin ckt_gmin x evs).trace.length = k ∧
          gmin_values_set Gmin (dcop_gmin true GminInit Gmin ckt_gmin x evs)
            = (List.range k).map (fun j => max (gmin_scaled GminInit (j + 1)) Gmin) ∧
          List.Pairwise (fun a b : ℚ => b < a)
            (gmin_values_set Gmin (dcop_gmin true GminInit Gmin ckt_gmin x evs)) ∧
          (∀ v ∈ gmin_values_set Gmin (dcop_gmin true GminInit Gmin ckt_gmin x evs), Gmin ≤ v) ∧
          (gmin_values_set Gmin (dcop_gmin true GminInit Gmin ckt_gmin x evs)).getLast?
            = some Gmin ∧
          (dcop_gmin true GminInit Gmin ckt_gmin x evs).final.ckt_gmin = Gmin) ∧
    (GminInit ≤ Gmin → ∀ evs : List (GminResult V),
      (dcop_gmin true GminInit Gmin ckt_gmin x evs).status = LoopEnd.completed ∧
      (dcop_gmin true GminInit Gmin ckt_gmin x evs).trace = [] ∧
      gmin_values_set Gmin (dcop_gmin true GminInit Gmin ckt_gmin x evs) = [] ∧
      (dcop_gmin true GminInit Gmin ckt_gmin x evs).final.ckt_gmin = ckt_gmin) := by
  constructor
  · intro h0 h1
    obtain ⟨k, hk1, hk, hlt⟩ := gmin_least_stage GminInit Gmin h0 h1
    have hG : 0 < GminInit := lt_trans h0 h1
    refine ⟨k, hk1, hk, hlt,
      fun hmin => gmin_scaled_bounds GminInit Gmin k (le_of_lt hG) hmin hlt, ?_⟩
    intro evs hev hlen
    have hstart : (dcop_gmin_start GminInit ckt_gmin x).gmin
        = max (gmin_scaled GminInit 0) Gmin := by
      show GminInit = _
      rw [gmin_scaled, max_eq_left (le_of_lt h1)]
    obtain ⟨r1, r2, -, r4, -⟩ := gmin_loop_run true GminInit Gmin k hk hlt k 0 evs
      (dcop_gmin_start GminInit ckt_gmin x) (by omega) hstart hev hlen
    have hvals : gmin_values_set Gmin (dcop_gmin true GminInit Gmin ckt_gmin x evs)
        = (List.range k).map (fun j => max (gmin_scaled GminInit (j + 1)) Gmin) := by
      unfold gmin_values_set dcop_gmin
      rw [r2]
      apply List.map_congr_left
      intro j _
      rw [Nat.zero_add]
    refine ⟨r1, ?_, hvals, ?_, ?_, ?_, r4 (by omega) rfl⟩
    · have := congrArg List.length hvals
      simpa [gmin_values_set] using this
    · rw [hvals, List.pairwise_map]
      refine (List.pairwise_lt_range k).imp_of_mem ?_
      intro a b ha hb hab
      have hbk : b < k := List.mem_range.mp hb
      have ha1 : a + 1 < k := by omega
      rw [max_eq_left (le_of_lt (hlt (a + 1) ha1))]
      apply max_lt
      · have hb0 : 0 < gmin_scaled GminInit b := lt_trans h0 (hlt b hbk)
        exact lt_of_lt_of_le (gmin_scaled_succ_lt GminInit (le_of_lt hG) b hb0)
          (gmin_scaled_antitone GminInit (le_of_lt hG) (a + 1) b (by omega))
      · exact hlt (a + 1) ha1
    · intro v hv
      rw [hvals] at hv
      obtain ⟨j, -, hj⟩ := List.mem_map.mp hv
      rw [← hj]
      exact le_max_right _ _
    · rw [hvals]
      obtain ⟨n, hn⟩ : ∃ n, k = n + 1 := ⟨k - 1, by omega⟩
      subst hn
      rw [List.range_succ, List.map_append, List.map_singleton, List.getLast?_concat,
        max_eq_right hk]
  · intro hle evs
    have hc : dcop_gmin_cond Gmin (dcop_gmin_start GminInit ckt_gmin x) = false := by
      simp only [dcop_gmin_cond, dcop_gmin_start, decide_eq_false_iff_not, not_lt]
      exact hle
    unfold gmin_values_set dcop_gmin
    rw [while_loop_false _ _ evs _ hc]
    exact ⟨rfl, rfl, rfl, rfl⟩

end GminTheorems

section GminDivergence
variable {V : Type}

theorem gmin_product_1 : binary64_round (1 * binary64_round (1 / 100)) = double_1e_2 := by
  rw [binary64_round_one_hundredth,
    binary64_round_eq (1 * (5764607523034235 / 576460752303423488)) (-7) 5764607523034235
      (by norm_num) (by norm_num) (by norm_num) (by norm_num) (by norm_num)]
  norm_num [double_1e_2]

theorem gmin_product_2 :
    binary64_round (double_1e_2 * binary64_round (1 / 100)) = double_1e_4 := by
  rw [binary64_round_one_hundredth,
    binary64_round_eq (double_1e_2 * (5764607523034235 / 576460752303423488)) (-14)
      7378697629483821 (by norm_num) (by norm_num [double_1e_2]) (by norm_num [double_1e_2])
      (by norm_num [double_1e_2]) (by norm_num [double_1e_2])]
  norm_num [double_1e_4]

theorem gmin_product_3 :
    binary64_round (double_1e_4 * binary64_round (1 / 100)) = gmin_stage_3 := by
  rw [binary64_round_one_hundredth,
    binary64_round_eq (double_1e_4 * (5764607523034235 / 576460752303423488)) (-20)
      4722366482869646 (by norm_num) (by norm_num [double_1e_4]) (by norm_num [double_1e_4])
      (by norm_num [double_1e_4]) (by norm_num [double_1e_4])]
  norm_num [gmin_stage_3]

theorem gmin_product_4 :
    binary64_round (gmin_stage_3 * binary64_round (1 / 100)) = gmin_stage_4 := by
  rw [binary64_round_one_hundredth,
    binary64_round_eq (gmin_stage_3 * (5764607523034235 / 576460752303423488)) (-27)
      6044629098073147 (by norm_num) (by norm_num [gmin_stage_3]) (by norm_num [gmin_stage_3])
      (by norm_num [gmin_stage_3]) (by norm_num [gmin_stage_3])]
  norm_num [gmin_stage_4]

theorem gmin_product_5 :
    binary64_round (gmin_stage_4 * binary64_round (1 / 100))
      = 1934281311383407 / 19342813113834066795298816 := by
  rw [binary64_round_one_hundredth,
    binary64_round_eq (gmin_stage_4 * (5764607523034235 / 576460752303423488)) (-34)
      7737125245533628 (by norm_num) (by norm_num [gmin_stage_4]) (by norm_num [gmin_stage_4])
      (by norm_num [gmin_stage_4]) (by norm_num [gmin_stage_4])]
  norm_num

theorem gmin_scaled_one :
    gmin_scaled 1 0 = 1 ∧ gmin_scaled 1 1 = double_1e_2 ∧ gmin_scaled 1 2 = double_1e_4 ∧
    gmin_scaled 1 3 = gmin_stage_3 ∧ gmin_scaled 1 4 = gmin_stage_4 ∧
    gmin_scaled 1 5 = 1934281311383407 / 19342813113834066795298816 := by
  have h0 : gmin_scaled 1 0 = 1 := rfl
  have h1 : gmin_scaled 1 1 = double_1e_2 := by
    show binary64_round (gmin_scaled 1 0 * binary64_round (1 / 100)) = _
    rw [h0, gmin_product_1]
  have h2 : gmin_scaled 1 2 = double_1e_4 := by
    show binary64_round (gmin_scaled 1 1 * binary64_round (1 / 100)) = _
    rw [h1, gmin_product_2]
  have h3 : gmin_scaled 1 3 = gmin_stage_3 := by
    show binary64_round (gmin_scaled 1 2 * binary64_round (1 / 100)) = _
    rw [h2, gmin_product_3]
  have h4 : gmin_scaled 1 4 = gmin_stage_4 := by
    show binary64_round (gmin_scaled 1 3 * binary64_round (1 / 100)) = _
    rw [h3, gmin_product_4]
  have h5 : gmin_scaled 1 5 = 1934281311383407 / 19342813113834066795298816 := by
    show binary64_round (gmin_scaled 1 4 * binary64_round (1 / 100)) = _
    rw [h4, gmin_product_5]
  exact ⟨h0, h1, h2, h3, h4, h5⟩

/-- C23 as stated fails: with GminInit = 1 and Gmin = 1e-8 (the double nearest to 1e-8, which
is not below 1/10^8) the least k with GminInit * 0.01^k <= Gmin is 4, but the loop runs 5
stages: the products by the double 1e-2 are rounded, the fourth value handed to the circuit
is 1.0000000000000002e-08, still above Gmin, and only the fifth stage reaches Gmin.  The
values differ from max(GminInit * 0.01^j, Gmin) at every stage. -/
theorem dcop_gmin_one_stage_more :
    binary64_round (1 / 100000000) = double_1e_8 ∧
    (0 : ℚ) < double_1e_8 ∧ double_1e_8 < 1 ∧
    (1 : ℚ) * (1 / 100) ^ 4 ≤ double_1e_8 ∧ double_1e_8 < (1 : ℚ) * (1 / 100) ^ 3 ∧
    (dcop_gmin true 1 double_1e_8 1 (0 : ℚ)
      (List.replicate 5 (GminResult.passed 0))).status = LoopEnd.completed ∧
    (dcop_gmin true 1 double_1e_8 1 (0 : ℚ)
      (List.replicate 5 (GminResult.passed 0))).trace.length = 5 ∧
    gmin_values_set double_1e_8 (dcop_gmin true 1 double_1e_8 1 (0 : ℚ)
      (List.replicate 5 (GminResult.passed 0)))
      = [double_1e_2, double_1e_4, gmin_stage_3, gmin_stage_4, double_1e_8] ∧
    double_1e_8 < gmin_stage_4 ∧
    double_1e_2 ≠ max ((1 : ℚ) * (1 / 100) ^ 1) double_1e_8 := by
  obtain ⟨s0, s1, s2, s3, s4, s5⟩ := gmin_scaled_one
  have hd : binary64_round (1 / 100000000) = double_1e_8 := by
    rw [binary64_round_eq (1 / 100000000) (-27) 6044629098073146 (by norm_num) (by norm_num)
      (by norm_num) (by norm_num) (by norm_num)]
    norm_num [double_1e_8]
  have hk : gmin_scaled 1 5 ≤ double_1e_8 := by
    rw [s5]
    norm_num [double_1e_8]
  have hlt : ∀ j < 5, double_1e_8 < gmin_scaled 1 j := by
    intro j hj
    interval_cases j
    · rw [s0]; norm_num [double_1e_8]
    · rw [s1]; norm_num [double_1e_8, double_1e_2]
    · rw [s2]; norm_num [double_1e_8, double_1e_4]
    · rw [s3]; norm_num [double_1e_8, gmin_stage_3]
    · rw [s4]; norm_num [double_1e_8, gmin_stage_4]
  have hstart : (dcop_gmin_start 1 1 (0 : ℚ)).gmin = max (gmin_scaled 1 0) double_1e_8 := by
    show (1 : ℚ) = _
    rw [s0, max_eq_left (by norm_num [double_1e_8])]
  have hev : ∀ e ∈ List.replicate 5 (GminResult.passed (0 : ℚ)),
      GminResult.isPassed e = true := by
    intro e he
    rw [List.eq_of_mem_replicate he]
    rfl
  obtain ⟨r1, r2, -, -, -⟩ := gmin_loop_run true 1 double_1e_8 5 hk hlt 5 0
    (List.replicate 5 (GminResult.passed (0 : ℚ))) (dcop_gmin_start 1 1 (0 : ℚ)) (by omega)
    hstart hev (by simp)
  have hvals : gmin_values_set double_1e_8 (dcop_gmin true 1 double_1e_8 1 (0 : ℚ)
      (List.replicate 5 (GminResult.passed 0)))
      = [double_1e_2, double_1e_4, gmin_stage_3, gmin_stage_4, double_1e_8] := by
    unfold gmin_values_set dcop_gmin
    rw [r2]
    simp only [List.range_succ, List.range_zero, List.nil_append, List.map_append,
      List.map_cons, List.map_nil, List.cons_append, Nat.zero_add, s1, s2, s3, s4, s5]
    rw [max_eq_left (by norm_num [double_1e_8, double_1e_2]),
      max_eq_left (by norm_num [double_1e_8, double_1e_4]),
      max_eq_left (by norm_num [double_1e_8, gmin_stage_3]),
      max_eq_left (by norm_num [double_1e_8, gmin_stage_4]),
      max_eq_right (by norm_num [double_1e_8])]
  refine ⟨hd, by norm_num [double_1e_8], by norm_num [double_1e_8],
    by norm_num [double_1e_8], by norm_num [double_1e_8], r1, ?_, hvals,
    by norm_num [double_1e_8, gmin_stage_4], ?_⟩
  · have := congrArg List.length hvals
    simpa [gmin_values_set] using this
  · rw [max_eq_left (by norm_num [double_1e_8])]
    norm_num [double_1e_2]

/-- Witness for C23 (amended): GminInit = 1 and Gmin = 1e-8 (the double). -/
theorem dcop_gmin_sequence_witness :
    (0 : ℚ) < double_1e_8 ∧ double_1e_8 < 1 ∧ (1 : ℚ) / 2 ^ 1015 ≤ double_1e_8 ∧
    ∃ k : Nat, 1 ≤ k ∧ gmin_scaled 1 k ≤ double_1e_8 ∧
      (∀ j ≤ k, (1 : ℚ) * (1 / 100 - 1 / 10 ^ 17) ^ j ≤ gmin_scaled 1 j ∧
        gmin_scaled 1 j ≤ (1 : ℚ) * (1 / 100 + 1 / 10 ^ 17) ^ j) ∧
      ∀ evs : List (GminResult ℚ), (∀ e ∈ evs, GminResult.isPassed e = true) →
        k ≤ evs.length →
        (dcop_gmin true 1 double_1e_8 1 (0 : ℚ) evs).status = LoopEnd.completed ∧
        (gmin_values_set double_1e_8 (dcop_gmin true 1 double_1e_8 1 (0 : ℚ) evs)).getLast?
          = some double_1e_8 :=
  have hmin : (1 : ℚ) / 2 ^ 1015 ≤ double_1e_8 := by norm_num [double_1e_8]
  ⟨by norm_num [double_1e_8], by norm_num [double_1e_8], hmin,
    ((dcop_gmin_sequence 1 double_1e_8 1 (0 : ℚ)).1 (by norm_num [double_1e_8])
      (by norm_num [double_1e_8])).imp
      (fun _ h => ⟨h.1, h.2.1, h.2.2.2.1 hmin, fun evs he hl =>
        ⟨(h.2.2.2.2 evs he hl).1, (h.2.2.2.2 evs he hl).2.2.2.2.2.1⟩⟩)⟩

theorem dcop_gmin_next_eq (Gmin g v : ℚ)
    (hv : binary64_round (g * binary64_round (1 / 100)) = v) (h : Gmin ≤ v) :
    dcop_gmin_next Gmin g = v := by
  rw [dcop_gmin_next, hv, max_eq_left h]

/-- C29 as stated fails: with GminInit = 1 and Gmin = 1e-6 a first stage (gmin 0.01) that
passes leaving 5 and a second stage (gmin 0.0001) that fails leaving 9 end the relaxation, and
afterwards the circuit holds 0.0001 and the solution vector 9: the values of the failed stage,
not those of the last converged stage. -/
theorem dcop_gmin_failure_keeps_failed_stage :
    (dcop_gmin true 1 double_1e_6 1 (0 : ℚ)
      [GminResult.passed 5, GminResult.failed 9, GminResult.passed 7]).status = LoopEnd.aborted ∧
    gmin_values_set double_1e_6 (dcop_gmin true 1 double_1e_6 1 (0 : ℚ)
      [GminResult.passed 5, GminResult.failed 9, GminResult.passed 7])
      = [double_1e_2, double_1e_4] ∧
    (dcop_gmin true 1 double_1e_6 1 (0 : ℚ) [GminResult.passed 5]).final.ckt_gmin
      = double_1e_2 ∧
    (dcop_gmin true 1 double_1e_6 1 (0 : ℚ) [GminResult.passed 5]).final.x = 5 ∧
    (dcop_gmin true 1 double_1e_6 1 (0 : ℚ)
      [GminResult.passed 5, GminResult.failed 9, GminResult.passed 7]).final.ckt_gmin
        = double_1e_4 ∧
    (dcop_gmin true 1 double_1e_6 1 (0 : ℚ)
      [GminResult.passed 5, GminResult.failed 9, GminResult.passed 7]).final.x = 9 := by
  have n1 : dcop_gmin_next double_1e_6 1 = double_1e_2 :=
    dcop_gmin_next_eq _ _ _ gmin_product_1 (by norm_num [double_1e_6, double_1e_2])
  have n2 : dcop_gmin_next double_1e_6 double_1e_2 = double_1e_4 :=
    dcop_gmin_next_eq _ _ _ gmin_product_2 (by norm_num [double_1e_6, double_1e_4])
  have l1 : double_1e_6 < 1 := by norm_num [double_1e_6]
  have l2 : double_1e_6 < double_1e_2 := by norm_num [double_1e_6, double_1e_2]
  have l3 : double_1e_6 < double_1e_4 := by norm_num [double_1e_6, double_1e_4]
  refine ⟨?_, ?_, ?_, ?_, ?_, ?_⟩ <;>
    simp [gmin_values_set, dcop_gmin, while_loop, dcop_gmin_cond, dcop_gmin_body,
      dcop_gmin_start, n1, n2, l1, l2, l3]

/-- C29 (amended): in the gmin loop of solve_dcop a failed stage ends the relaxation at once:
no retry, no further stage whatever solver results would follow, and no recovery.  Afterwards
the solution vector is the one the failed solve left and, on the owning process, the circuit
holds the gmin value of the failed stage, max(gmin*1e-2, Gmin) for the gmin of the stage
before (strictly below that gmin when Gmin >= 0). -/
theorem dcop_gmin_failure (GminInit Gmin ckt_gmin : ℚ) (x : V)
    (pre rest : List (GminResult V)) (xfail : V)
    (hrun : (dcop_gmin true GminInit Gmin ckt_gmin x pre).status = LoopEnd.running) :
    (dcop_gmin true GminInit Gmin ckt_gmin x (pre ++ [GminResult.failed xfail] ++ rest)).status
      = LoopEnd.aborted ∧
    (dcop_gmin true GminInit Gmin ckt_gmin x
      (pre ++ [GminResult.failed xfail] ++ rest)).trace.length = pre.length + 1 ∧
    gmin_values_set Gmin (dcop_gmin true GminInit Gmin ckt_gmin x
        (pre ++ [GminResult.failed xfail] ++ rest))
      = gmin_values_set Gmin (dcop_gmin true GminInit Gmin ckt_gmin x pre)
        ++ [dcop_gmin_next Gmin (dcop_gmin true GminInit Gmin ckt_gmin x pre).final.gmin] ∧
    (dcop_gmin true GminInit Gmin ckt_gmin x
      (pre ++ [GminResult.failed xfail] ++ rest)).final.x = xfail ∧
    (dcop_gmin true GminInit Gmin ckt_gmin x
      (pre ++ [GminResult.failed xfail] ++ rest)).final.ckt_gmin
        = dcop_gmin_next Gmin (dcop_gmin true GminInit Gmin ckt_gmin x pre).final.gmin ∧
    (0 ≤ Gmin →
      (dcop_gmin true GminInit Gmin ckt_gmin x
        (pre ++ [GminResult.failed xfail] ++ rest)).final.ckt_gmin
          < (dcop_gmin true GminInit Gmin ckt_gmin x pre).final.gmin) := by
  unfold dcop_gmin at hrun ⊢
  have hb : dcop_gmin_body true Gmin (GminResult.failed xfail)
      (while_loop (dcop_gmin_cond Gmin) (dcop_gmin_body true Gmin) pre
        (dcop_gmin_start GminInit ckt_gmin x)).final
      = LoopStep.brk ⟨dcop_gmin_next Gmin (while_loop (dcop_gmin_cond Gmin)
            (dcop_gmin_body true Gmin) pre (dcop_gmin_start GminInit ckt_gmin x)).final.gmin,
          dcop_gmin_next Gmin (while_loop (dcop_gmin_cond Gmin)
            (dcop_gmin_body true Gmin) pre (dcop_gmin_start GminInit ckt_gmin x)).final.gmin,
          xfail⟩ := rfl
  have hsn := (while_loop_snoc _ _ pre (GminResult.failed xfail) _ hrun).1 _ hb
  have htr := while_loop_snoc_trace _ _ pre (GminResult.failed xfail) _ hrun
  have hrest := while_loop_not_running_append (dcop_gmin_cond Gmin) (dcop_gmin_body true Gmin)
    (pre ++ [GminResult.failed xfail]) rest (dcop_gmin_start GminInit ckt_gmin x)
    (by rw [hsn.1]; decide)
  have hlen : ∀ (es : List (GminResult V)) (s : GminState V),
      (while_loop (dcop_gmin_cond Gmin) (dcop_gmin_body true Gmin) es s).status
        = LoopEnd.running →
      (while_loop (dcop_gmin_cond Gmin) (dcop_gmin_body true Gmin) es s).trace.length
        = es.length := by
    intro es
    induction es with
    | nil =>
      intro s _
      rw [while_loop_nil]
      split_ifs <;> rfl
    | cons e es ih =>
      intro s h
      by_cases hc : dcop_gmin_cond Gmin s = true
      · cases hbe : dcop_gmin_body true Gmin e s with
        | brk s' =>
          rw [while_loop_cons_brk _ _ _ _ _ _ hc hbe] at h
          cases h
        | next s' =>
          rw [while_loop_cons_next _ _ _ _ _ _ hc hbe] at h ⊢
          simp only [List.length_cons]
          rw [ih s' h]
      · rw [while_loop_cons_false _ _ _ _ _ (by simpa using hc)] at h
        cases h
  have hcond := while_loop_running_cond _ _ pre _ hrun
  simp only [dcop_gmin_cond, decide_eq_true_eq] at hcond
  rw [hrest]
  refine ⟨hsn.1, ?_, ?_, ?_, ?_, ?_⟩
  · rw [htr, List.length_append, hlen pre _ hrun]
    rfl
  · unfold gmin_values_set
    rw [htr, List.map_append]
    rfl
  · rw [hsn.2]
  · rw [hsn.2]
  · intro hG
    rw [hsn.2]
    show dcop_gmin_next Gmin _ < _
    unfold dcop_gmin_next
    have hpos : 0 < (while_loop (dcop_gmin_cond Gmin) (dcop_gmin_body true Gmin) pre
        (dcop_gmin_start GminInit ckt_gmin x)).final.gmin := lt_of_le_of_lt hG hcond
    apply max_lt
    · have := gmin_product_le _ (le_of_lt hpos)
      linarith
    · exact hcond

/-- Witness for C29 (amended): the run of the counterexample. -/
theorem dcop_gmin_failure_witness :
    (dcop_gmin true 1 double_1e_6 1 (0 : ℚ) [GminResult.passed 5]).status = LoopEnd.running ∧
    (dcop_gmin true 1 double_1e_6 1 (0 : ℚ)
      ([GminResult.passed 5] ++ [GminResult.failed 9] ++ [GminResult.passed 7])).status
        = LoopEnd.aborted ∧
    (dcop_gmin true 1 double_1e_6 1 (0 : ℚ)
      ([GminResult.passed 5] ++ [GminResult.failed 9] ++ [GminResult.passed 7])).final.x = 9 :=
  have hrun : (dcop_gmin true 1 double_1e_6 1 (0 : ℚ) [GminResult.passed 5]).status
      = LoopEnd.running := by
    have n1 : dcop_gmin_next double_1e_6 1 = double_1e_2 :=
      dcop_gmin_next_eq _ _ _ gmin_product_1 (by norm_num [double_1e_6, double_1e_2])
    have l1 : double_1e_6 < 1 := by norm_num [double_1e_6]
    have l2 : double_1e_6 < double_1e_2 := by norm_num [double_1e_6, double_1e_2]
    simp [dcop_gmin, while_loop, dcop_gmin_cond, dcop_gmin_body, dcop_gmin_start, n1, l1, l2]
  have h := dcop_gmin_failure 1 double_1e_6 1 (0 : ℚ) [GminResult.passed 5]
    [GminResult.passed 7] 9 hrun
  ⟨hrun, h.1, h.2.2.2.1⟩

end GminDivergence

section JacobianFillTheorems

theorem jacobian_fill_fold (ckt : CircuitView) (rhs1 : Nat → ℚ) (rows : List Nat) :
    ∀ acc : JacobianMat × List Nat,
      (rows.foldl
        (fun (acc : JacobianMat × List Nat) (row : Nat) =>
          (MatSetValues_add acc.1 (ckt.ckt_matrix_row rhs1 row).1
            (ckt.ckt_matrix_row rhs1 row).2.1 (ckt.ckt_matrix_row rhs1 row).2.2,
            acc.2 ++ [row])) acc).2 = acc.2 ++ rows ∧
      (rows.foldl
        (fun (acc : JacobianMat × List Nat) (row : Nat) =>
          (MatSetValues_add acc.1 (ckt.ckt_matrix_row rhs1 row).1
            (ckt.ckt_matrix_row rhs1 row).2.1 (ckt.ckt_matrix_row rhs1 row).2.2,
            acc.2 ++ [row])) acc).1.vals = acc.1.vals ∧
      (rows.foldl
        (fun (acc : JacobianMat × List Nat) (row : Nat) =>
          (MatSetValues_add acc.1 (ckt.ckt_matrix_row rhs1 row).1
            (ckt.ckt_matrix_row rhs1 row).2.1 (ckt.ckt_matrix_row rhs1 row).2.2,
            acc.2 ++ [row])) acc).1.stash
        = acc.1.stash ++ rows.flatMap (fun row =>
            ((ckt.ckt_matrix_row rhs1 row).2.1.zip (ckt.ckt_matrix_row rhs1 row).2.2).map
              (fun p => ((ckt.ckt_matrix_row rhs1 row).1, p.1, p.2))) := by
  induction rows with
  | nil =>
    intro acc
    simp
  | cons row rows ih =>
    intro acc
    simp only [List.foldl_cons]
    obtain ⟨h1, h2, h3⟩ := ih (MatSetValues_add acc.1 (ckt.ckt_matrix_row rhs1 row).1
      (ckt.ckt_matrix_row rhs1 row).2.1 (ckt.ckt_matrix_row rhs1 row).2.2, acc.2 ++ [row])
    refine ⟨?_, ?_, ?_⟩
    · rw [h1]
      simp
    · rw [h2]
      rfl
    · rw [h3]
      simp [MatSetValues_add, List.flatMap_cons]

/-- C30 as stated fails: for a circuit of two nodes the owning process requests the matrix rows
of node 0 and node 1 and accumulates the row of node 0 (global row 10) into the Jacobian. -/
theorem build_spice_jacobian_fills_node_0 :
    (build_spice_jacobian true circuit_two_nodes (fun _ => 0) (fun _ => 0) jacobian_zero
      InsertMode.ADD_VALUES).rows_requested = [0, 1] ∧
    0 ∈ (build_spice_jacobian true circuit_two_nodes (fun _ => 0) (fun _ => 0) jacobian_zero
      InsertMode.ADD_VALUES).rows_requested ∧
    jacobian_zero.assembled 10 10 = 0 ∧
    (build_spice_jacobian true circuit_two_nodes (fun _ => 0) (fun _ => 0) jacobian_zero
      InsertMode.ADD_VALUES).jac.assembled 10 10 = 1 := by
  refine ⟨?_, ?_, ?_, ?_⟩ <;>
    simp [build_spice_jacobian, circuit_two_nodes, jacobian_zero, JacobianMat.assembled,
      MatAssemblyFlush, MatSetValues_add, List.range_succ]

/-- C30 (amended): build_spice_jacobian leaves the insert-mode flag at ADD_VALUES on every
process; on a process that does not own the circuit it requests no row and adds nothing (every
assembled entry and the circuit state are unchanged); on the owning process it requests the
matrix row of every circuit node 0, 1, ..., n_ckt_nodes-1 in turn, node 0 included, and
accumulates each of them into the Jacobian. -/
theorem build_spice_jacobian_fill (ckt : CircuitView) (rhs_old : Nat → ℚ) (lxx : Int → ℚ)
    (jac : JacobianMat) (add_value_flag : InsertMode) :
    (∀ last : Bool,
      (build_spice_jacobian last ckt rhs_old lxx jac add_value_flag).add_value_flag
        = InsertMode.ADD_VALUES) ∧
    (build_spice_jacobian false ckt rhs_old lxx jac add_value_flag).rows_requested = [] ∧
    (∀ i j, (build_spice_jacobian false ckt rhs_old lxx jac add_value_flag).jac.assembled i j
      = jac.assembled i j) ∧
    (build_spice_jacobian false ckt rhs_old lxx jac add_value_flag).rhs_old = rhs_old ∧
    (build_spice_jacobian true ckt rhs_old lxx jac add_value_flag).rows_requested
      = List.range ckt.n_ckt_nodes ∧
    (0 < ckt.n_ckt_nodes →
      0 ∈ (build_spice_jacobian true ckt rhs_old lxx jac add_value_flag).rows_requested) ∧
    (∀ i j, (build_spice_jacobian true ckt rhs_old lxx jac add_value_flag).jac.assembled i j
      = jac.assembled i j
        + ((((List.range ckt.n_ckt_nodes).flatMap (fun row =>
              ((ckt.ckt_matrix_row
                  (build_spice_jacobian true ckt rhs_old lxx jac add_value_flag).rhs_old row).2.1.zip
                (ckt.ckt_matrix_row
                  (build_spice_jacobian true ckt rhs_old lxx jac add_value_flag).rhs_old
                  row).2.2).map
                (fun p => ((ckt.ckt_matrix_row
                  (build_spice_jacobian true ckt rhs_old lxx jac add_value_flag).rhs_old row).1,
                  p.1, p.2)))).filter
            (fun p => decide (p.1 = i ∧ p.2.1 = j))).map (fun p => p.2.2)).sum) := by
  have hflush : ∀ (J : JacobianMat) (i j : Int),
      (MatAssemblyFlush J).assembled i j = J.assembled i j := by
    intro J i j
    simp [JacobianMat.assembled, MatAssemblyFlush]
  have hrows := jacobian_fill_fold ckt
    (fun n => if n < ckt.n_ckt_nodes then lxx (ckt.local_offset n) else rhs_old n)
    (List.range ckt.n_ckt_nodes)
  refine ⟨?_, rfl, ?_, rfl, ?_, ?_, ?_⟩
  · intro last
    cases last <;> rfl
  · intro i j
    simp only [build_spice_jacobian, Bool.false_eq_true, if_false]
    split_ifs
    · exact hflush jac i j
    · rfl
  · simp only [build_spice_jacobian, if_true]
    rw [(hrows _).1]
    simp
  · intro hn
    simp only [build_spice_jacobian, if_true]
    rw [(hrows _).1]
    simp [hn]
  · intro i j
    simp only [build_spice_jacobian, if_true]
    simp only [JacobianMat.assembled, MatAssemblyFlush]
    rw [(hrows _).2.1, (hrows _).2.2]
    split_ifs
    · simp [MatAssemblyFlush]
    · simp [List.filter_append, add_assoc]

/-- Witness for C30 (amended): the circuit of two nodes on the owning process. -/
theorem build_spice_jacobian_fill_witness :
    0 < circuit_two_nodes.n_ckt_nodes ∧
    0 ∈ (build_spice_jacobian true circuit_two_nodes (fun _ => 0) (fun _ => 0) jacobian_zero
      InsertMode.INSERT_VALUES).rows_requested ∧
    (build_spice_jacobian true circuit_two_nodes (fun _ => 0) (fun _ => 0) jacobian_zero
      InsertMode.INSERT_VALUES).add_value_flag = InsertMode.ADD_VALUES :=
  have hn : 0 < circuit_two_nodes.n_ckt_nodes := by decide
  have h := build_spice_jacobian_fill circuit_two_nodes (fun _ => 0) (fun _ => 0) jacobian_zero
    InsertMode.INSERT_VALUES
  ⟨hn, h.2.2.2.2.2.1 hn, h.1 true⟩

end JacobianFillTheorems

section ElectrodeBinding

theorem link_named_other (get_bc_nocase : String → Option Nat) (bcs : List BoundaryCondition)
    (c : CircuitLinks) (it : String × Nat) (b : Nat) (h : get_bc_nocase it.1 ≠ some b) :
    (link_named_electrode get_bc_nocase bcs c it).node_of_bc b = c.node_of_bc b := by
  unfold link_named_electrode
  cases hg : get_bc_nocase it.1 with
  | none => rfl
  | some b' =>
    have hne : b ≠ b' := by
      intro hb
      rw [hg, hb] at h
      exact h rfl
    simp only
    split_ifs
    · simp [link_electrode, set_ckt_node_electrode_flag, Function.update, hne]
    · rfl

theorem link_named_self (get_bc_nocase : String → Option Nat) (bcs : List BoundaryCondition)
    (c : CircuitLinks) (it : String × Nat) (b : Nat) (h : get_bc_nocase it.1 = some b)
    (he : bc_is_electrode bcs b = true) :
    (link_named_electrode get_bc_nocase bcs c it).node_of_bc b = it.2 := by
  unfold link_named_electrode
  rw [h]
  simp [he, link_electrode, set_ckt_node_electrode_flag]

theorem link_named_fold (get_bc_nocase : String → Option Nat) (bcs : List BoundaryCondition)
    (b : Nat) (emap : List (String × Nat)) :
    ∀ c : CircuitLinks,
      ((∀ it ∈ emap, get_bc_nocase it.1 ≠ some b) →
        (emap.foldl (link_named_electrode get_bc_nocase bcs) c).node_of_bc b = c.node_of_bc b) ∧
      (∀ it, bc_is_electrode bcs b = true →
        (emap.filter (fun e => decide (get_bc_nocase e.1 = some b))).getLast? = some it →
        (emap.foldl (link_named_electrode get_bc_nocase bcs) c).node_of_bc b = it.2) := by
  induction emap using List.reverseRecOn with
  | nil =>
    intro c
    refine ⟨fun _ => rfl, ?_⟩
    intro it _ h
    simp at h
  | append_singleton es e ih =>
    intro c
    rw [List.foldl_append]
    simp only [List.foldl_cons, List.foldl_nil]
    constructor
    · intro hall
      rw [link_named_other _ _ _ _ _ (hall e (by simp))]
      exact (ih c).1 (fun it hit => hall it (List.mem_append_left _ hit))
    · intro it he hlast
      rw [List.filter_append] at hlast
      by_cases hres : get_bc_nocase e.1 = some b
      · have hf : List.filter (fun e => decide (get_bc_nocase e.1 = some b)) [e] = [e] := by
          simp [List.filter_cons, hres]
        rw [hf, List.getLast?_concat] at hlast
        cases hlast
        exact link_named_self _ _ _ _ _ hres he
      · have hf : List.filter (fun e => decide (get_bc_nocase e.1 = some b)) [e] = [] := by
          simp [List.filter_cons, hres]
        rw [hf, List.append_nil] at hlast
        rw [link_named_other _ _ _ _ _ hres]
        exact (ih c).2 it he hlast

theorem ground_unlinked_fold (invalid_uint : Nat) (bcs : List BoundaryCondition)
    (c1 : CircuitLinks) (n : Nat) :
    (∀ b, ((List.range n).foldl (ground_unlinked_electrode invalid_uint bcs)
          ⟨c1, []⟩).ckt.node_of_bc b
        = if b < n ∧ bc_is_electrode bcs b = true ∧ c1.node_of_bc b = invalid_uint then 0
          else c1.node_of_bc b) ∧
    ((List.range n).foldl (ground_unlinked_electrode invalid_uint bcs) ⟨c1, []⟩).warnings
      = (List.range n).filter
          (fun b => bc_is_electrode bcs b && decide (c1.node_of_bc b = invalid_uint)) := by
  induction n with
  | zero =>
    refine ⟨fun b => ?_, rfl⟩
    simp
  | succ n ih =>
    rw [List.range_succ, List.foldl_append]
    simp only [List.foldl_cons, List.foldl_nil]
    obtain ⟨ih1, ih2⟩ := ih
    have hn : ((List.range n).foldl (ground_unlinked_electrode invalid_uint bcs)
        ⟨c1, []⟩).ckt.node_of_bc n = c1.node_of_bc n := by
      rw [ih1 n]
      simp
    generalize (List.foldl (ground_unlinked_electrode invalid_uint bcs) ⟨c1, []⟩
      (List.range n)) = o at ih1 ih2 hn ⊢
    unfold ground_unlinked_electrode
    simp only [get_spice_node_by_bc, hn]
    by_cases hcond : bc_is_electrode bcs n = true ∧ c1.node_of_bc n = invalid_uint
    · rw [if_pos hcond]
      constructor
      · intro b
        by_cases hb : b = n
        · subst hb
          simp [link_electrode, set_ckt_node_electrode_flag, hcond.1, hcond.2]
        · have hlt : b < n + 1 ↔ b < n := by omega
          simp only [link_electrode, set_ckt_node_electrode_flag, Function.update, hb,
            dite_false, hlt]
          exact ih1 b
      · rw [ih2, List.filter_append]
        simp [List.filter_cons, hcond.1, hcond.2]
    · rw [if_neg hcond]
      constructor
      · intro b
        rw [ih1 b]
        by_cases hb : b = n
        · subst hb
          have h1 : ¬ (b < b ∧ bc_is_electrode bcs b = true ∧ c1.node_of_bc b = invalid_uint) :=
            fun h => absurd h.1 (lt_irrefl b)
          have h2 : ¬ (b < b + 1 ∧ bc_is_electrode bcs b = true ∧
              c1.node_of_bc b = invalid_uint) := fun h => hcond h.2
          rw [if_neg h1, if_neg h2]
        · have hlt : b < n + 1 ↔ b < n := by omega
          simp only [hlt]
      · rw [ih2, List.filter_append]
        have : (bc_is_electrode bcs n && decide (c1.node_of_bc n = invalid_uint)) = false := by
          simpa using hcond
        simp [List.filter_cons, this]

theorem bc_is_electrode_of_get (bcs : List BoundaryCondition) (b : Nat) (bc : BoundaryCondition)
    (h : bcs[b]? = some bc) (he : bc.is_electrode = true) :
    bc_is_electrode bcs b = true ∧ b < bcs.length := by
  refine ⟨by simp [bc_is_electrode, h, he], ?_⟩
  by_contra hlt
  rw [List.getElem?_eq_none (by omega)] at h
  cases h

end ElectrodeBinding

section ElectrodeBindingTheorems

/-- C22: after link_electrode_to_spice_node every boundary condition flagged as an electrode is
bound to a circuit node, so that none of the assertions spice_node_index != invalid_uint of
set_extra_matrix_nonzero_pattern fails; an electrode that entries of the circuit's electrode
map name is bound to the node of the last such entry and is not warned about; an electrode that
no entry names (and that was not bound before) is bound to node 0 and a warning is recorded
for it.  The function is total: an unresolved electrode is not an error. -/
theorem link_electrode_to_spice_node_binds (invalid_uint : Nat)
    (get_bc_nocase : String → Option Nat) (bcs : List BoundaryCondition)
    (emap : List (String × Nat)) (ckt : CircuitLinks) (hinv : invalid_uint ≠ 0) :
    nonzero_pattern_asserts invalid_uint bcs
      (link_electrode_to_spice_node invalid_uint get_bc_nocase bcs emap ckt).ckt = true ∧
    (∀ b bc, bcs[b]? = some bc → bc.is_electrode = true →
      get_spice_node_by_bc
        (link_electrode_to_spice_node invalid_uint get_bc_nocase bcs emap ckt).ckt b
          ≠ invalid_uint) ∧
    (∀ b bc it, bcs[b]? = some bc → bc.is_electrode = true →
      (emap.filter (fun e => decide (get_bc_nocase e.1 = some b))).getLast? = some it →
      it.2 ≠ invalid_uint →
      get_spice_node_by_bc
        (link_electrode_to_spice_node invalid_uint get_bc_nocase bcs emap ckt).ckt b = it.2 ∧
      b ∉ (link_electrode_to_spice_node invalid_uint get_bc_nocase bcs emap ckt).warnings) ∧
    (∀ b bc, bcs[b]? = some bc → bc.is_electrode = true →
      (∀ it ∈ emap, get_bc_nocase it.1 ≠ some b) →
      get_spice_node_by_bc ckt b = invalid_uint →
      get_spice_node_by_bc
        (link_electrode_to_spice_node invalid_uint get_bc_nocase bcs emap ckt).ckt b = 0 ∧
      b ∈ (link_electrode_to_spice_node invalid_uint get_bc_nocase bcs emap ckt).warnings) := by
  obtain ⟨hnode, hwarn⟩ := ground_unlinked_fold invalid_uint bcs
    (emap.foldl (link_named_electrode get_bc_nocase bcs) ckt) bcs.length
  have hbound : ∀ b, bc_is_electrode bcs b = true →
      get_spice_node_by_bc
        (link_electrode_to_spice_node invalid_uint get_bc_nocase bcs emap ckt).ckt b
          ≠ invalid_uint := by
    intro b he
    unfold link_electrode_to_spice_node get_spice_node_by_bc
    rw [hnode b]
    split_ifs with h
    · exact fun h0 => hinv h0.symm
    · by_cases hlt : b < bcs.length
      · exact fun hc => h ⟨hlt, he, hc⟩
      · exfalso
        simp only [bc_is_electrode] at he
        rw [List.getElem?_eq_none (by omega)] at he
        cases he
  refine ⟨?_, ?_, ?_, ?_⟩
  · unfold nonzero_pattern_asserts
    rw [List.all_eq_true]
    intro b _
    by_cases he : bc_is_electrode bcs b = true
    · simp [he, hbound b he]
    · simp [he]
  · intro b bc hb he
    exact hbound b (bc_is_electrode_of_get bcs b bc hb he).1
  · intro b bc it hb he hlast hit
    obtain ⟨hel, hlt⟩ := bc_is_electrode_of_get bcs b bc hb he
    have hc1 : (emap.foldl (link_named_electrode get_bc_nocase bcs) ckt).node_of_bc b = it.2 :=
      (link_named_fold get_bc_nocase bcs b emap ckt).2 it hel hlast
    have hno : ¬ (b < bcs.length ∧ bc_is_electrode bcs b = true ∧
        (emap.foldl (link_named_electrode get_bc_nocase bcs) ckt).node_of_bc b
          = invalid_uint) := by
      rw [hc1]
      exact fun h => hit h.2.2
    constructor
    · unfold link_electrode_to_spice_node get_spice_node_by_bc
      rw [hnode b, if_neg hno, hc1]
    · unfold link_electrode_to_spice_node
      rw [hwarn, List.mem_filter]
      intro hmem
      apply hno
      have h2 := hmem.2
      simp only [Bool.and_eq_true, decide_eq_true_eq] at h2
      exact ⟨hlt, h2.1, h2.2⟩
  · intro b bc hb he hnone hck
    obtain ⟨hel, hlt⟩ := bc_is_electrode_of_get bcs b bc hb he
    have hc1 : (emap.foldl (link_named_electrode get_bc_nocase bcs) ckt).node_of_bc b
        = invalid_uint := by
      rw [(link_named_fold get_bc_nocase bcs b emap ckt).1 hnone]
      exact hck
    constructor
    · unfold link_electrode_to_spice_node get_spice_node_by_bc
      rw [hnode b, if_pos ⟨hlt, hel, hc1⟩]
    · unfold link_electrode_to_spice_node
      rw [hwarn, List.mem_filter]
      refine ⟨List.mem_range.mpr hlt, ?_⟩
      simp [hel, hc1]

/-- Witness for C22: the circuit names the first of two electrodes (node 3); the second
electrode is bound to ground with a warning. -/
theorem link_electrode_to_spice_node_binds_witness :
    (4294967295 : Nat) ≠ 0 ∧
    nonzero_pattern_asserts 4294967295 bcs_demo
      (link_electrode_to_spice_node 4294967295 get_bc_demo bcs_demo [("anode", 3)]
        links_none).ckt = true ∧
    (get_spice_node_by_bc
        (link_electrode_to_spice_node 4294967295 get_bc_demo bcs_demo [("anode", 3)]
          links_none).ckt 0 = 3 ∧
      0 ∉ (link_electrode_to_spice_node 4294967295 get_bc_demo bcs_demo [("anode", 3)]
          links_none).warnings) ∧
    (get_spice_node_by_bc
        (link_electrode_to_spice_node 4294967295 get_bc_demo bcs_demo [("anode", 3)]
          links_none).ckt 1 = 0 ∧
      1 ∈ (link_electrode_to_spice_node 4294967295 get_bc_demo bcs_demo [("anode", 3)]
          links_none).warnings) :=
  have hinv : (4294967295 : Nat) ≠ 0 := by decide
  have h := link_electrode_to_spice_node_binds 4294967295 get_bc_demo bcs_demo [("anode", 3)]
    links_none hinv
  ⟨hinv, h.1,
    h.2.2.1 0 ⟨"Anode", true⟩ ("anode", 3) rfl rfl (by simp [get_bc_demo]) (by decide),
    h.2.2.2 1 ⟨"Cathode", true⟩ rfl rfl (by simp [get_bc_demo]) rfl⟩

end ElectrodeBindingTheorems

section DcopWhole
variable {V : Type} [AddCommGroup V] [Module ℚ V]

theorem count_flatMap_one {α : Type} (f : α → List DcopCall) (c : DcopCall) (l : List α)
    (h : ∀ a ∈ l, (f a).count c = 1) : (l.flatMap f).count c = l.length := by
  induction l with
  | nil => rfl
  | cons a l ih =>
    rw [List.flatMap_cons, List.count_append, h a (by simp),
      ih (fun b hb => h b (List.mem_cons_of_mem _ hb)), List.length_cons]
    omega

theorem dcop_prologue_no_solve (cfg : DcopConfig) (tran_op : Bool) :
    (dcop_prologue cfg tran_op).count DcopCall.SNESSolve = 0 := by
  rw [List.count_eq_zero]
  unfold dcop_prologue
  cases tran_op <;> cases cfg.is_last_processor <;> cases cfg.UIC <;> simp

theorem dcop_ramp_calls_one_solve (cfg : DcopConfig) (vdc idc : List ℚ)
    (a : RampState V × SolveResult V) :
    (dcop_ramp_calls cfg vdc idc a).count DcopCall.SNESSolve = 1 := by
  have hv : ∀ l : List ℚ, (l.map (fun dc =>
      DcopCall.set_voltage_to (ramp_source_value dc a.1))).count DcopCall.SNESSolve = 0 := by
    intro l
    rw [List.count_eq_zero]
    simp
  have hi : ∀ l : List ℚ, (l.map (fun dc =>
      DcopCall.set_current_to (ramp_source_value dc a.1))).count DcopCall.SNESSolve = 0 := by
    intro l
    rw [List.count_eq_zero]
    simp
  unfold dcop_ramp_calls
  rcases a with ⟨s, e⟩
  cases e with
  | converged x1 =>
    cases cfg.is_last_processor <;> simp [List.count_append, List.count_cons, hv, hi]
  | diverged xf xr =>
    by_cases hc : s.DC_Cycles = 0 ∨ s.retry ≥ 3
    · cases cfg.is_last_processor <;> simp [List.count_append, List.count_cons, hv, hi, hc]
    · cases cfg.is_last_processor <;> simp [List.count_append, List.count_cons, hv, hi, hc]

theorem dcop_gmin_calls_one_solve (cfg : DcopConfig) (DC_Cycles : Int)
    (a : GminState V × GminResult V) :
    (dcop_gmin_calls cfg DC_Cycles a).count DcopCall.SNESSolve = 1 := by
  unfold dcop_gmin_calls
  rcases a with ⟨s, e⟩
  cases e <;> cases cfg.is_last_processor <;> simp [List.count_append, List.count_cons]

theorem solve_dcop_solve_count (cfg : DcopConfig) (clamp : V → V → V) (vdc idc : List ℚ)
    (tran_op : Bool) (g : RampState V) (ramp_evs : List (SolveResult V))
    (gmin_evs : List (GminResult V)) :
    (solve_dcop cfg clamp vdc idc tran_op g ramp_evs gmin_evs).calls.count DcopCall.SNESSolve
      = (solve_dcop cfg clamp vdc idc tran_op g ramp_evs gmin_evs).ramp.trace.length
        + (solve_dcop cfg clamp vdc idc tran_op g ramp_evs gmin_evs).gmin.trace.length := by
  simp only [solve_dcop, List.count_append, dcop_prologue_no_solve, Nat.zero_add]
  rw [count_flatMap_one _ _ _ (fun a _ => dcop_ramp_calls_one_solve cfg vdc idc a),
    count_flatMap_one _ _ _ (fun a _ => dcop_gmin_calls_one_solve cfg _ a)]

theorem dcop_ramp_first_iteration (Predict : Bool) (clamp : V → V → V) (N : Int)
    (g : RampState V) (e : SolveResult V) (es : List (SolveResult V)) (hN : 1 ≤ N) :
    1 ≤ (dcop_ramp Predict clamp N g (e :: es)).trace.length := by
  have hc : dcop_ramp_cond (dcop_ramp_start N g) = true := by
    rw [dcop_ramp_cond_iff]
    exact hN
  unfold dcop_ramp
  cases hb : dcop_ramp_body Predict clamp e (dcop_ramp_start N g) with
  | brk s' =>
    rw [while_loop_cons_brk _ _ _ _ _ _ hc hb]
    simp
  | next s' =>
    rw [while_loop_cons_next _ _ _ _ _ _ hc hb]
    simp

/-- C21 as stated fails: a transient operating point with UIC, one voltage source of 1 V and a
converging solver.  After the calls that force-load the circuit and save the state, the call
goes on to the ramp and invokes the nonlinear solver. -/
theorem solve_dcop_uic_invokes_solver :
    (solve_dcop dcop_cfg_uic no_clamp [1] [] true ramp_zero [conv0] []).calls
      = [DcopCall.set_ckt_mode [ModeFlag.MODETRANOP, ModeFlag.MODEINITJCT], DcopCall.set_time 0,
          DcopCall.set_ckt_mode [ModeFlag.MODEUIC, ModeFlag.MODETRANOP, ModeFlag.MODEINITJCT],
          DcopCall.exchange_rhs, DcopCall.circuit_load, DcopCall.save_solution,
          DcopCall.field_source_update 0, DcopCall.ckt_set_gmin 1, DcopCall.set_voltage_to 1,
          DcopCall.pre_solve_process none, DcopCall.SNESSolve, DcopCall.post_solve_process,
          DcopCall.rotate_state_vectors] ∧
    DcopCall.SNESSolve
      ∈ (solve_dcop dcop_cfg_uic no_clamp [1] [] true ramp_zero [conv0] []).calls := by
  have h : (solve_dcop dcop_cfg_uic no_clamp [1] [] true ramp_zero [conv0] []).calls
      = [DcopCall.set_ckt_mode [ModeFlag.MODETRANOP, ModeFlag.MODEINITJCT], DcopCall.set_time 0,
          DcopCall.set_ckt_mode [ModeFlag.MODEUIC, ModeFlag.MODETRANOP, ModeFlag.MODEINITJCT],
          DcopCall.exchange_rhs, DcopCall.circuit_load, DcopCall.save_solution,
          DcopCall.field_source_update 0, DcopCall.ckt_set_gmin 1, DcopCall.set_voltage_to 1,
          DcopCall.pre_solve_process none, DcopCall.SNESSolve, DcopCall.post_solve_process,
          DcopCall.rotate_state_vectors] := by
    have hN : rampup_steps_init [1] [] 1 1 1 = 1 := by
      have ha : absmax_loop [1] = 1 := by norm_num [absmax_loop]
      have hb : absmax_loop [] = 0 := rfl
      have hq : binary64_round (1 / 1) = 1 := by
        rw [div_one]
        exact binary64_round_one
      have h0 : binary64_round (0 / 1) = 0 := by
        rw [zero_div]
        exact binary64_round_zero
      unfold rampup_steps_init double_div
      rw [ha, hb, if_neg one_ne_zero, hq, h0]
      norm_num [static_cast_int]
    norm_num [solve_dcop, dcop_cfg_uic, dcop_prologue, dcop_ramp_calls, dcop_gmin_calls,
      dcop_ramp, dcop_gmin, while_loop, dcop_ramp_cond, dcop_ramp_body, dcop_ramp_verdict,
      dcop_ramp_finish, dcop_ramp_start, dcop_gmin_cond, dcop_gmin_start, hN,
      ramp_zero, conv0, ramp_source_value, dc_predict]
  refine ⟨h, ?_⟩
  rw [h]
  simp

/-- C21 (amended): when solve_dcop is called for a transient operating point with UIC, it
first sets the circuit modes, force-loads the circuit and saves the current state (on the
owning process: set_ckt_mode, set_time, set_ckt_mode with MODEUIC, exchange_rhs, circuit_load;
on every process save_solution), none of which is a solve; it then runs the ramp and the gmin
relaxation like any other call, invoking the nonlinear solver once per executed ramp iteration
and gmin stage: at least once whenever the ramp has a step to run. -/
theorem solve_dcop_uic_then_ramp (cfg : DcopConfig) (clamp : V → V → V) (vdc idc : List ℚ)
    (g : RampState V) (ramp_evs : List (SolveResult V)) (gmin_evs : List (GminResult V))
    (hU : cfg.UIC = true) :
    (∃ rest : List DcopCall,
      (solve_dcop cfg clamp vdc idc true g ramp_evs gmin_evs).calls
        = (if cfg.is_last_processor then
            [DcopCall.set_ckt_mode [ModeFlag.MODETRANOP, ModeFlag.MODEINITJCT],
              DcopCall.set_time (cfg.clock / cfg.unit_s),
              DcopCall.set_ckt_mode
                [ModeFlag.MODEUIC, ModeFlag.MODETRANOP, ModeFlag.MODEINITJCT],
              DcopCall.exchange_rhs, DcopCall.circuit_load]
           else []) ++ [DcopCall.save_solution] ++ rest ∧
      rest.count DcopCall.SNESSolve
        = (solve_dcop cfg clamp vdc idc true g ramp_evs gmin_evs).ramp.trace.length
          + (solve_dcop cfg clamp vdc idc true g ramp_evs gmin_evs).gmin.trace.length) ∧
    (solve_dcop cfg clamp vdc idc true g ramp_evs gmin_evs).ramp
      = dcop_ramp cfg.Predict clamp
          (rampup_steps_init vdc idc cfg.RampUpVStep cfg.RampUpIStep cfg.RampUpSteps) g
          ramp_evs ∧
    (1 ≤ rampup_steps_init vdc idc cfg.RampUpVStep cfg.RampUpIStep cfg.RampUpSteps →
      ramp_evs ≠ [] →
      DcopCall.SNESSolve ∈ (solve_dcop cfg clamp vdc idc true g ramp_evs gmin_evs).calls) := by
  have hcount := solve_dcop_solve_count cfg clamp vdc idc true g ramp_evs gmin_evs
  refine ⟨?_, rfl, ?_⟩
  · refine ⟨[DcopCall.field_source_update cfg.TStart]
        ++ (if cfg.is_last_processor then [DcopCall.ckt_set_gmin cfg.GminInit] else [])
        ++ (solve_dcop cfg clamp vdc idc true g ramp_evs gmin_evs).ramp.trace.flatMap
            (dcop_ramp_calls cfg vdc idc)
        ++ (solve_dcop cfg clamp vdc idc true g ramp_evs gmin_evs).gmin.trace.flatMap
            (dcop_gmin_calls cfg
              (solve_dcop cfg clamp vdc idc true g ramp_evs gmin_evs).ramp.final.DC_Cycles),
      ?_, ?_⟩
    · simp only [solve_dcop, dcop_prologue, hU, if_true]
      cases cfg.is_last_processor <;> simp
    · rw [List.count_append, List.count_append,
        count_flatMap_one _ _ _ (fun a _ => dcop_ramp_calls_one_solve cfg vdc idc a),
        count_flatMap_one _ _ _ (fun a _ => dcop_gmin_calls_one_solve cfg _ a)]
      have h0 : ([DcopCall.field_source_update cfg.TStart]
          ++ (if cfg.is_last_processor then [DcopCall.ckt_set_gmin cfg.GminInit]
              else [])).count DcopCall.SNESSolve = 0 := by
        rw [List.count_eq_zero]
        cases cfg.is_last_processor <;> simp
      rw [h0, Nat.zero_add]
  · intro hN hne
    obtain ⟨e, es, rfl⟩ := List.exists_cons_of_ne_nil hne
    have h1 := dcop_ramp_first_iteration cfg.Predict clamp _ g e es hN
    have hr : (solve_dcop cfg clamp vdc idc true g (e :: es) gmin_evs).ramp
        = dcop_ramp cfg.Predict clamp
            (rampup_steps_init vdc idc cfg.RampUpVStep cfg.RampUpIStep cfg.RampUpSteps) g
            (e :: es) := rfl
    rw [hr] at hcount
    apply List.count_pos_iff.mp
    omega

/-- Witness for C21 (amended): the transient operating point with UIC of the counterexample. -/
theorem solve_dcop_uic_then_ramp_witness :
    dcop_cfg_uic.UIC = true ∧
    1 ≤ rampup_steps_init [1] [] dcop_cfg_uic.RampUpVStep dcop_cfg_uic.RampUpIStep
      dcop_cfg_uic.RampUpSteps ∧
    ([conv0] : List (SolveResult ℚ)) ≠ [] ∧
    DcopCall.SNESSolve
      ∈ (solve_dcop dcop_cfg_uic no_clamp [1] [] true ramp_zero [conv0] []).calls :=
  have hU : dcop_cfg_uic.UIC = true := rfl
  have hN : 1 ≤ rampup_steps_init [1] [] dcop_cfg_uic.RampUpVStep dcop_cfg_uic.RampUpIStep
      dcop_cfg_uic.RampUpSteps := by
    norm_num [rampup_steps_init, dcop_cfg_uic]
  have hne : ([conv0] : List (SolveResult ℚ)) ≠ [] := by simp
  ⟨hU, hN, hne,
    (solve_dcop_uic_then_ramp dcop_cfg_uic no_clamp [1] [] ramp_zero [conv0] [] hU).2.2 hN hne⟩

end DcopWhole

section SweepRepeat

/-- C33 (code evaluated at the failing input): an ascending sweep from 0 to 2 with step 1 and
largest step 2 in which every solve converges.  The stop value 2 is solved seven times in a row:
after each solve at 2 the step has grown again, so the overshoot 2 + step is still below
2 + (grown step) and is forced back to 2, until the step stops growing.  The sequence of solved
values is not strictly increasing. -/
theorem dcsweep_stop_value_solved_again :
    (dcsweep ⟨0, 1, 2, 2, true⟩ no_clamp sweep_zero (List.replicate 12 conv0)).status
      = LoopEnd.completed ∧
    solved_values (dcsweep ⟨0, 1, 2, 2, true⟩ no_clamp sweep_zero (List.replicate 12 conv0))
      = [0, 1, 2, 2, 2, 2, 2, 2, 2] ∧
    ¬ List.Pairwise (fun a b : ℚ => a < b)
      (solved_values (dcsweep ⟨0, 1, 2, 2, true⟩ no_clamp sweep_zero (List.replicate 12 conv0))) ∧
    solved_values (dcsweep ⟨0, 1, 2, 2, false⟩ no_clamp sweep_zero (List.replicate 12 conv0))
      = [0, 1, 2, 2, 2, 2, 2, 2, 2] := by
  have h : solved_values (dcsweep ⟨0, 1, 2, 2, true⟩ no_clamp sweep_zero
      (List.replicate 12 conv0)) = [0, 1, 2, 2, 2, 2, 2, 2, 2] := by
    norm_num [solved_values, dcsweep, while_loop, dcsweep_cond, dcsweep_body, dcsweep_verdict,
      dcsweep_finish, dcsweep_advance, dcsweep_start, fabs, sweep_zero, conv0, dc_predict,
      no_clamp, dc_quadratic_projection, dc_linear_projection, List.replicate]
  refine ⟨?_, h, ?_, ?_⟩
  · norm_num [solved_values, dcsweep, while_loop, dcsweep_cond, dcsweep_body, dcsweep_verdict,
      dcsweep_finish, dcsweep_advance, dcsweep_start, fabs, sweep_zero, conv0, dc_predict,
      no_clamp, dc_quadratic_projection, dc_linear_projection, List.replicate]
  · rw [h]
    norm_num
  · norm_num [solved_values, dcsweep, while_loop, dcsweep_cond, dcsweep_body, dcsweep_verdict,
      dcsweep_finish, dcsweep_advance, dcsweep_start, fabs, sweep_zero, conv0, dc_predict,
      no_clamp, dc_quadratic_projection, dc_linear_projection, List.replicate]

end SweepRepeat

section ElectrodeSparsity

theorem neighbors_loop_all_local (me : Nat) (bc_nodes : List BcNode)
    (h : ∀ nd ∈ bc_nodes, nd.processor_id = me) :
    neighbors_loop me bc_nodes = bc_nodes.map BcNode.n_node_neighbors := by
  unfold neighbors_loop
  induction bc_nodes using List.reverseRecOn with
  | nil => rfl
  | append_singleton l a ih =>
    rw [List.foldl_append, List.map_append]
    simp only [List.foldl_cons, List.foldl_nil, List.map_cons, List.map_nil]
    rw [ih (fun nd hnd => h nd (List.mem_append_left _ hnd)), if_pos (h a (by simp))]

theorem on_processor_dofs_all_local (me n_bc_node_dofs : Nat) (bc_nodes : List BcNode)
    (h : ∀ nd ∈ bc_nodes, nd.processor_id = me) :
    on_processor_dofs_loop me n_bc_node_dofs bc_nodes
      = some (spec_on_processor_dofs me n_bc_node_dofs bc_nodes) := by
  have hnb := neighbors_loop_all_local me bc_nodes h
  have key : ∀ n, n ≤ bc_nodes.length →
      (List.range n).foldl
        (fun (acc : Option Nat) (n : Nat) =>
          match bc_nodes[n]? with
          | some nd =>
            if nd.processor_id = me then
              acc.bind (fun a =>
                ((neighbors_loop me bc_nodes)[n]?).map (fun k => a + (k + 1) * n_bc_node_dofs))
            else acc
          | none => acc)
        (some 0)
      = some (((bc_nodes.take n).map (fun nd => (nd.n_node_neighbors + 1) * n_bc_node_dofs)).sum) := by
    intro n
    induction n with
    | zero => intro _; rfl
    | succ n ih =>
      intro hn
      have hlt : n < bc_nodes.length := by omega
      rw [List.range_succ, List.foldl_append, ih (by omega)]
      simp only [List.foldl_cons, List.foldl_nil]
      have hget : bc_nodes[n]? = some bc_nodes[n] := List.getElem?_eq_getElem hlt
      have hloc : bc_nodes[n].processor_id = me := h _ (List.getElem_mem hlt)
      rw [hget]
      simp only [hloc, if_true, hnb, List.getElem?_map, hget, Option.map_some', Option.bind_some]
      rw [List.take_succ, hget, Option.toList_some, List.map_append, List.sum_append,
        List.map_singleton, List.sum_singleton]
      rfl
  have hall : bc_nodes.filter (fun nd => decide (nd.processor_id = me)) = bc_nodes := by
    rw [List.filter_eq_self]
    intro nd hnd
    simpa using h nd hnd
  unfold on_processor_dofs_loop spec_on_processor_dofs
  rw [key bc_nodes.length (le_refl _), List.take_length, hall]

/-- C32 (code evaluated at failing inputs): an electrode whose first boundary node belongs to
process 1 and whose second belongs to process 0, seen from process 0.  The vector neighbors holds
the one local count, 3, at position 0, and the sum reads neighbors[1], which is out of bounds;
the sum the claim states is (3+1)*1 = 4.  With a third node on process 0 the access neighbors[1]
is within bounds but yields 7, the count of the third node, for the second node. -/
theorem electrode_neighbors_misindexed :
    neighbors_loop 0 [⟨1, 5⟩, ⟨0, 3⟩] = [3] ∧
    (neighbors_loop 0 [⟨1, 5⟩, ⟨0, 3⟩])[1]? = none ∧
    on_processor_dofs_loop 0 1 [⟨1, 5⟩, ⟨0, 3⟩] = none ∧
    spec_on_processor_dofs 0 1 [⟨1, 5⟩, ⟨0, 3⟩] = 4 ∧
    neighbors_loop 0 [⟨1, 5⟩, ⟨0, 3⟩, ⟨0, 7⟩] = [3, 7] ∧
    (neighbors_loop 0 [⟨1, 5⟩, ⟨0, 3⟩, ⟨0, 7⟩])[1]? = some 7 ∧
    on_processor_dofs_loop 0 1 [⟨1, 5⟩, ⟨0, 3⟩, ⟨0, 7⟩] = none ∧
    spec_on_processor_dofs 0 1 [⟨1, 5⟩, ⟨0, 3⟩, ⟨0, 7⟩] = 12 := by
  refine ⟨?_, ?_, ?_, ?_, ?_, ?_, ?_, ?_⟩ <;>
    simp [neighbors_loop, on_processor_dofs_loop, spec_on_processor_dofs, List.range_succ]

end ElectrodeSparsity

section LoopHeadLemmas
variable {σ ε : Type}

theorem do_while_invariant_heads (cond : σ → Bool) (body : ε → σ → LoopStep σ)
    (P : ε → Prop) (Inv : σ → Prop)
    (hnext : ∀ e s s', P e → Inv s → body e s = LoopStep.next s' → cond s' = true → Inv s')
    (es : List ε) :
    ∀ s : σ, (∀ e ∈ es, P e) → Inv s →
      (∀ a ∈ (do_while_loop cond body es s).trace, Inv a.1) ∧
      ((do_while_loop cond body es s).status = LoopEnd.running →
        Inv (do_while_loop cond body es s).final) := by
  induction es with
  | nil =>
    intro s _ hs
    exact ⟨fun a ha => by simp [do_while_loop] at ha, fun _ => hs⟩
  | cons e es ih =>
    intro s hP hs
    simp only [do_while_loop]
    cases hb : body e s with
    | brk s' =>
      refine ⟨?_, fun h => by cases h⟩
      intro a ha
      simp only [List.mem_singleton] at ha
      rw [ha]
      exact hs
    | next s' =>
      by_cases hc : cond s' = true
      · simp only [hc, if_true]
        have hs' := hnext e s s' (hP e (by simp)) hs hb hc
        obtain ⟨h1, h2⟩ := ih s' (fun e' he' => hP e' (List.mem_cons_of_mem _ he')) hs'
        refine ⟨?_, h2⟩
        intro a ha
        rcases List.mem_cons.mp ha with h | h
        · rw [h]
          exact hs
        · exact h1 a h
      · simp only [hc, Bool.false_eq_true, if_false]
        refine ⟨?_, fun h => by cases h⟩
        intro a ha
        simp only [List.mem_singleton] at ha
        rw [ha]
        exact hs

theorem do_while_not_running_append (cond : σ → Bool) (body : ε → σ → LoopStep σ)
    (es es2 : List ε) :
    ∀ s : σ, (do_while_loop cond body es s).status ≠ LoopEnd.running →
      do_while_loop cond body (es ++ es2) s = do_while_loop cond body es s := by
  induction es with
  | nil =>
    intro s h
    exact absurd rfl h
  | cons e es ih =>
    intro s h
    simp only [List.cons_append, do_while_loop] at h ⊢
    cases hb : body e s with
    | brk s' => rfl
    | next s' =>
      rw [hb] at h
      by_cases hc : cond s' = true
      · simp only [hc, if_true] at h ⊢
        have h2 := ih s' h
        rw [show es.append es2 = es ++ es2 from rfl, h2]
      · simp only [hc, Bool.false_eq_true, if_false]

theorem do_while_snoc_next (cond : σ → Bool) (body : ε → σ → LoopStep σ) (es : List ε) (e : ε)
    (s s' : σ) (h : (do_while_loop cond body es s).status = LoopEnd.running)
    (hb : body e (do_while_loop cond body es s).final = LoopStep.next s') :
    (do_while_loop cond body (es ++ [e]) s).final = s' ∧
    (do_while_loop cond body (es ++ [e]) s).status
      = if cond s' then LoopEnd.running else LoopEnd.completed := by
  rw [do_while_append cond body es [e] s h]
  simp only [do_while_loop, hb]
  by_cases hc : cond s' = true
  · simp [hc]
  · simp [hc]

end LoopHeadLemmas

section TransientRangeLemmas
variable {V : Type} [AddCommGroup V] [Module ℚ V]

theorem tran_step_control_accept (cfg : TranConfig) (clamp : V → V → V) (r : ℚ)
    (s : TranState V) (hacc : lte_active cfg s = true → 9 / 10 ≤ r) :
    (tran_step_control cfg clamp r s).1 = true ∧
    (tran_step_control cfg clamp r s).2.clock = s.clock ∧
    (tran_step_control cfg clamp r s).2.T_Cycles = s.T_Cycles := by
  unfold tran_step_control
  by_cases hact : lte_active cfg s = true
  · have hr : ¬ r < 9 / 10 := not_lt.mpr (hacc hact)
    simp [hact, hr]
  · simp [hact]

theorem tran_step_control_frame (cfg : TranConfig) (clamp : V → V → V) (r : ℚ)
    (s : TranState V) (x1 : V) :
    (tran_step_control cfg clamp r
        ({ s with x := x1, diverged_retry := 0 } : TranState V)).2.dt
      = (tran_step_control cfg clamp r s).2.dt := by
  have hla : lte_active cfg ({ s with x := x1, diverged_retry := 0 } : TranState V)
      = lte_active cfg s := rfl
  unfold tran_step_control
  rw [hla]
  split_ifs <;> rfl

theorem tran_accept_snap (cfg : TranConfig) (s : TranState V) :
    (cfg.TStop < s.clock + s.dt ∧ s.clock + s.dt < cfg.TStop + s.dt - 1 / 10 ^ 10 * s.dt →
      (tran_accept cfg s).clock = cfg.TStop ∧ (tran_accept cfg s).dt = cfg.TStop - s.clock) ∧
    (¬ (cfg.TStop < s.clock + s.dt ∧ s.clock + s.dt < cfg.TStop + s.dt - 1 / 10 ^ 10 * s.dt) →
      (tran_accept cfg s).clock = s.clock + s.dt ∧ (tran_accept cfg s).dt = s.dt) := by
  constructor
  · intro h
    have h' : s.clock + s.dt > cfg.TStop ∧
        s.clock + s.dt < cfg.TStop + s.dt - 1 / 10 ^ 10 * s.dt := h
    simp only [tran_accept, h', and_self, decide_True, if_true]
    exact ⟨trivial, by ring⟩
  · intro h
    have h' : ¬ (s.clock + s.dt > cfg.TStop ∧
        s.clock + s.dt < cfg.TStop + s.dt - 1 / 10 ^ 10 * s.dt) := h
    simp only [tran_accept, h', decide_False, Bool.false_eq_true, if_false]
    exact ⟨trivial, trivial⟩

theorem tran_body_accept_snap (cfg : TranConfig) (clamp : V → V → V) (s : TranState V)
    (x1 : V) (r : ℚ) (hacc : lte_active cfg s = true → 9 / 10 ≤ r) :
    ∃ s', tran_body cfg clamp (TranResult.converged x1 r) s = LoopStep.next s' ∧
      s'.T_Cycles = s.T_Cycles + 1 ∧
      (cfg.TStop < s.clock + (tran_step_control cfg clamp r s).2.dt ∧
          s.clock + (tran_step_control cfg clamp r s).2.dt
            < cfg.TStop + (tran_step_control cfg clamp r s).2.dt
              - 1 / 10 ^ 10 * (tran_step_control cfg clamp r s).2.dt →
        s'.clock = cfg.TStop ∧ s'.dt = cfg.TStop - s.clock) ∧
      (¬ (cfg.TStop < s.clock + (tran_step_control cfg clamp r s).2.dt ∧
          s.clock + (tran_step_control cfg clamp r s).2.dt
            < cfg.TStop + (tran_step_control cfg clamp r s).2.dt
              - 1 / 10 ^ 10 * (tran_step_control cfg clamp r s).2.dt) →
        s'.clock = s.clock + (tran_step_control cfg clamp r s).2.dt ∧
        s'.dt = (tran_step_control cfg clamp r s).2.dt) := by
  have hla : lte_active cfg ({ s with x := x1, diverged_retry := 0 } : TranState V)
      = lte_active cfg s := rfl
  obtain ⟨h1, h2, h3⟩ := tran_step_control_accept cfg clamp r
    ({ s with x := x1, diverged_retry := 0 } : TranState V) (by rw [hla]; exact hacc)
  have hd := tran_step_control_frame cfg clamp r s x1
  refine ⟨tran_predict cfg clamp (tran_accept cfg (tran_step_control cfg clamp r
    ({ s with x := x1, diverged_retry := 0 } : TranState V)).2), ?_, ?_, ?_, ?_⟩
  · simp only [tran_body, h1, if_true]
  · rw [(tran_predict_control cfg clamp _).2.1, (tran_accept_control cfg _).1, h3]
  · intro hs
    rw [(tran_predict_control cfg clamp _).2.2, (tran_predict_control cfg clamp _).1]
    have := (tran_accept_snap cfg (tran_step_control cfg clamp r
      ({ s with x := x1, diverged_retry := 0 } : TranState V)).2).1
    rw [h2, hd] at this
    exact this hs
  · intro hs
    rw [(tran_predict_control cfg clamp _).2.2, (tran_predict_control cfg clamp _).1]
    have := (tran_accept_snap cfg (tran_step_control cfg clamp r
      ({ s with x := x1, diverged_retry := 0 } : TranState V)).2).2
    rw [h2, hd] at this
    exact this hs

theorem tran_step_control_dt_pos (cfg : TranConfig) (clamp : V → V → V) (r : ℚ)
    (s : TranState V) (hM : cfg.AutoStep = true → 0 < cfg.TStepMax) (hdt : 0 < s.dt)
    (hr : 0 < r) :
    0 < (tran_step_control cfg clamp r s).2.dt := by
  unfold tran_step_control
  split_ifs with hact
  · show 0 < s.dt * (9 / 10 * r)
    positivity
  · have hA : cfg.AutoStep = true := by
      simp only [lte_active, Bool.and_eq_true] at hact
      exact hact.1
    exact lte_next_dt_pos _ _ _ (hM hA) hdt
  · show 0 < s.dt * (11 / 10)
    positivity
  · exact hdt

theorem tran_head_step (cfg : TranConfig) (clamp : V → V → V)
    (hS : cfg.TStart ≤ cfg.TStop) (hM : cfg.AutoStep = true → 0 < cfg.TStepMax)
    (e : TranResult V) (s s' : TranState V)
    (he : ∀ (x : V) (q : ℚ), e = TranResult.converged x q → 0 < q)
    (hs : 0 < s.dt ∧ cfg.TStart ≤ s.clock ∧ s.clock ≤ cfg.TStop ∧ 0 ≤ s.T_Cycles ∧
      (s.T_Cycles = 0 → s.clock = cfg.TStart) ∧ (1 ≤ s.T_Cycles → cfg.TStart ≤ s.clock - s.dt))
    (hb : tran_body cfg clamp e s = LoopStep.next s')
    (hc : tran_cond cfg s' = true) :
    0 < s'.dt ∧ cfg.TStart ≤ s'.clock ∧ s'.clock ≤ cfg.TStop ∧ 0 ≤ s'.T_Cycles ∧
      (s'.T_Cycles = 0 → s'.clock = cfg.TStart) ∧
      (1 ≤ s'.T_Cycles → cfg.TStart ≤ s'.clock - s'.dt) := by
  obtain ⟨hdt, hlo, hhi, hcy, h0, h1⟩ := hs
  simp only [tran_cond, decide_eq_true_eq] at hc
  cases e with
  | diverged xf xr =>
    by_cases h8 : s.diverged_retry + 1 < 8
    · obtain ⟨s2, hb2, hd, hck, hT, -⟩ := tran_body_diverged_time cfg clamp xf xr s h8
      rw [hb2] at hb
      cases hb
      have hd2 : 0 < s'.dt := by rw [hd]; positivity
      refine ⟨hd2, ?_, ?_, by rw [hT]; exact hcy, ?_, ?_⟩
      · rw [hck]
        exact le_max_right _ _
      · rw [hck]
        apply max_le
        · linarith
        · exact hS
      · intro hz
        rw [hT] at hz
        rw [hck, h0 hz]
        apply max_eq_right
        linarith
      · intro hz
        rw [hT] at hz
        have := h1 hz
        rw [hck, hd, max_eq_left (by linarith)]
        linarith
    · obtain ⟨s2, hb2⟩ := tran_body_diverged_brk cfg clamp xf xr s (by omega)
      rw [hb2] at hb
      cases hb
  | converged x1 r =>
    have hr0 : 0 < r := he x1 r rfl
    by_cases hrej : lte_active cfg s = true ∧ r < 9 / 10
    · obtain ⟨s2, hb2, hd, hT, hck⟩ := tran_body_lte_reject cfg clamp s x1 r hrej.1 hrej.2
      rw [hb2] at hb
      cases hb
      have h3 := lte_active_cycles cfg s hrej.1
      have hpos : 0 < s'.dt := by rw [hd]; positivity
      have hlt : s'.dt < s.dt := by rw [hd]; nlinarith
      have hbase := h1 (by omega)
      refine ⟨hpos, ?_, ?_, by rw [hT]; exact hcy, ?_, ?_⟩
      · rw [hck, ← hd]
        linarith
      · rw [hck, ← hd]
        linarith
      · intro hz
        omega
      · intro _
        rw [hck, hd]
        linarith
    · have hacc : lte_active cfg s = true → 9 / 10 ≤ r := by
        intro ha
        by_contra hlt
        exact hrej ⟨ha, not_le.mp hlt⟩
      obtain ⟨s2, hb2, hT, hsnap, hno⟩ := tran_body_accept_snap cfg clamp s x1 r hacc
      rw [hb2] at hb
      cases hb
      have hd := tran_step_control_dt_pos cfg clamp r s hM hdt hr0
      by_cases hsn : cfg.TStop < s.clock + (tran_step_control cfg clamp r s).2.dt ∧
          s.clock + (tran_step_control cfg clamp r s).2.dt
            < cfg.TStop + (tran_step_control cfg clamp r s).2.dt
              - 1 / 10 ^ 10 * (tran_step_control cfg clamp r s).2.dt
      · obtain ⟨hck, hdt2⟩ := hsnap hsn
        have hpos : 0 < s'.dt := by
          rw [hdt2]
          nlinarith [hsn.2]
        refine ⟨hpos, by rw [hck]; exact hS, by rw [hck], by omega, fun hz => by omega, ?_⟩
        intro _
        rw [hck, hdt2]
        linarith
      · obtain ⟨hck, hdt2⟩ := hno hsn
        rw [hck, hdt2] at hc
        have hle : s.clock + (tran_step_control cfg clamp r s).2.dt ≤ cfg.TStop := by
          by_contra hgt
          apply hsn
          refine ⟨not_le.mp hgt, ?_⟩
          nlinarith
        refine ⟨by rw [hdt2]; exact hd, by rw [hck]; linarith, by rw [hck]; exact hle,
          by omega, fun hz => by omega, ?_⟩
        intro _
        rw [hck, hdt2]
        linarith

end TransientRangeLemmas

section TransientRangeTheorems
variable {V : Type} [AddCommGroup V] [Module ℚ V]

theorem tran_head_invariant (cfg : TranConfig) (clamp : V → V → V) (g : TranState V)
    (evs : List (TranResult V))
    (hS : cfg.TStart ≤ cfg.TStop) (hT : 0 < cfg.TStep)
    (hM : cfg.AutoStep = true → 0 < cfg.TStepMax)
    (hev : ∀ e ∈ evs, ∀ (x : V) (q : ℚ), e = TranResult.converged x q → 0 < q) :
    (∀ a ∈ (solve_transient_loop cfg clamp g evs).trace,
      0 < a.1.dt ∧ cfg.TStart ≤ a.1.clock ∧ a.1.clock ≤ cfg.TStop ∧ 0 ≤ a.1.T_Cycles ∧
      (a.1.T_Cycles = 0 → a.1.clock = cfg.TStart) ∧
      (1 ≤ a.1.T_Cycles → cfg.TStart ≤ a.1.clock - a.1.dt)) ∧
    ((solve_transient_loop cfg clamp g evs).status = LoopEnd.running →
      0 < (solve_transient_loop cfg clamp g evs).final.dt ∧
      cfg.TStart ≤ (solve_transient_loop cfg clamp g evs).final.clock ∧
      (solve_transient_loop cfg clamp g evs).final.clock ≤ cfg.TStop ∧
      0 ≤ (solve_transient_loop cfg clamp g evs).final.T_Cycles ∧
      ((solve_transient_loop cfg clamp g evs).final.T_Cycles = 0 →
        (solve_transient_loop cfg clamp g evs).final.clock = cfg.TStart) ∧
      (1 ≤ (solve_transient_loop cfg clamp g evs).final.T_Cycles →
        cfg.TStart ≤ (solve_transient_loop cfg clamp g evs).final.clock
          - (solve_transient_loop cfg clamp g evs).final.dt)) := by
  unfold solve_transient_loop
  refine do_while_invariant_heads (tran_cond cfg) (tran_body cfg clamp)
    (fun e => ∀ (x : V) (q : ℚ), e = TranResult.converged x q → 0 < q)
    (fun s => 0 < s.dt ∧ cfg.TStart ≤ s.clock ∧ s.clock ≤ cfg.TStop ∧ 0 ≤ s.T_Cycles ∧
      (s.T_Cycles = 0 → s.clock = cfg.TStart) ∧ (1 ≤ s.T_Cycles → cfg.TStart ≤ s.clock - s.dt))
    ?_ evs (tran_start cfg g) hev ?_
  · intro e s s' he hs hb hc
    exact tran_head_step cfg clamp hS hM e s s' he hs hb hc
  · refine ⟨?_, le_refl _, hS, le_refl _, fun _ => rfl, ?_⟩
    · show 0 < cfg.TStep / 10
      positivity
    · intro h
      have h0 : (tran_start cfg g).T_Cycles = 0 := rfl
      omega

/-- C31 as stated fails: an adaptive first-order run from 0 to 10 with TStep = 1 whose
configured maximal step is -1, every solve converging with LTE ratio 1.  The fourth accepted
step is the first under LTE control; its new step 0.9 dt is cut down to TStepMax = -1, the clock
moves back to -0.6359 and the fifth solve is attempted there, before TStart. -/
theorem tran_solve_time_before_start :
    tran_cfg_negative_max.TStart ≤ tran_cfg_negative_max.TStop ∧
    (0 : ℚ) < tran_cfg_negative_max.TStep ∧
    tran_solve_times (solve_transient_loop tran_cfg_negative_max no_clamp tran_zero
        (List.replicate 5 (TranResult.converged 0 1)))
      = [0, 11 / 100, 231 / 1000, 3641 / 10000, -6359 / 10000] ∧
    ¬ (∀ t ∈ tran_solve_times (solve_transient_loop tran_cfg_negative_max no_clamp tran_zero
        (List.replicate 5 (TranResult.converged 0 1))),
      tran_cfg_negative_max.TStart ≤ t ∧ t ≤ tran_cfg_negative_max.TStop) := by
  have h : tran_solve_times (solve_transient_loop tran_cfg_negative_max no_clamp tran_zero
      (List.replicate 5 (TranResult.converged 0 1)))
      = [0, 11 / 100, 231 / 1000, 3641 / 10000, -6359 / 10000] := by
    norm_num [tran_solve_times, solve_transient_loop, do_while_loop, tran_body, tran_cond,
      tran_start, tran_step_control, tran_accept, tran_predict, lte_active, lte_next_dt,
      tran_cfg_negative_max, tran_zero, fabs, List.replicate]
  refine ⟨by norm_num [tran_cfg_negative_max], by norm_num [tran_cfg_negative_max], h, ?_⟩
  rw [h]
  intro hall
  have := (hall (-6359 / 10000) (by simp)).1
  norm_num [tran_cfg_negative_max] at this

/-- C31 (amended): in every run of solve_transient with TStart <= TStop, TStep > 0, positive
LTE ratios and, when adaptive stepping is on, TStepMax > 0, whatever the solver verdicts, every
time at which a solve is attempted lies in [TStart, TStop].  When an accepted step advances the
clock by the new step d past TStop by less than d (1 - 1e-10), the clock is set to TStop
exactly, dt becomes the remaining distance and the loop goes on; when it overshoots by more, the
loop ends without another solve, whatever solver results would follow; otherwise the clock
advances by d. -/
theorem tran_solve_times_in_range (cfg : TranConfig) (clamp : V → V → V) (g : TranState V)
    (evs : List (TranResult V))
    (hS : cfg.TStart ≤ cfg.TStop) (hT : 0 < cfg.TStep)
    (hM : cfg.AutoStep = true → 0 < cfg.TStepMax)
    (hev : ∀ e ∈ evs, ∀ (x : V) (q : ℚ), e = TranResult.converged x q → 0 < q) :
    (∀ t ∈ tran_solve_times (solve_transient_loop cfg clamp g evs),
      cfg.TStart ≤ t ∧ t ≤ cfg.TStop) ∧
    ((solve_transient_loop cfg clamp g evs).status = LoopEnd.running →
      cfg.TStart ≤ (solve_transient_loop cfg clamp g evs).final.clock ∧
      (solve_transient_loop cfg clamp g evs).final.clock ≤ cfg.TStop) ∧
    (∀ (x1 : V) (r d : ℚ), (solve_transient_loop cfg clamp g evs).status = LoopEnd.running →
      0 < r → (lte_active cfg (solve_transient_loop cfg clamp g evs).final = true → 9 / 10 ≤ r) →
      d = (tran_step_control cfg clamp r (solve_transient_loop cfg clamp g evs).final).2.dt →
      (cfg.TStop < (solve_transient_loop cfg clamp g evs).final.clock + d →
        (solve_transient_loop cfg clamp g evs).final.clock + d
          < cfg.TStop + d - 1 / 10 ^ 10 * d →
        (solve_transient_loop cfg clamp g (evs ++ [TranResult.converged x1 r])).final.clock
          = cfg.TStop ∧
        (solve_transient_loop cfg clamp g (evs ++ [TranResult.converged x1 r])).final.dt
          = cfg.TStop - (solve_transient_loop cfg clamp g evs).final.clock ∧
        (solve_transient_loop cfg clamp g (evs ++ [TranResult.converged x1 r])).status
          = LoopEnd.running) ∧
      (cfg.TStop < (solve_transient_loop cfg clamp g evs).final.clock + d →
        ¬ ((solve_transient_loop cfg clamp g evs).final.clock + d
          < cfg.TStop + d - 1 / 10 ^ 10 * d) →
        (solve_transient_loop cfg clamp g (evs ++ [TranResult.converged x1 r])).status
          = LoopEnd.completed ∧
        ∀ rest : List (TranResult V),
          solve_transient_loop cfg clamp g (evs ++ [TranResult.converged x1 r] ++ rest)
            = solve_transient_loop cfg clamp g (evs ++ [TranResult.converged x1 r])) ∧
      ((solve_transient_loop cfg clamp g evs).final.clock + d ≤ cfg.TStop →
        (solve_transient_loop cfg clamp g (evs ++ [TranResult.converged x1 r])).final.clock
          = (solve_transient_loop cfg clamp g evs).final.clock + d ∧
        (solve_transient_loop cfg clamp g (evs ++ [TranResult.converged x1 r])).final.dt = d ∧
        (solve_transient_loop cfg clamp g (evs ++ [TranResult.converged x1 r])).status
          = LoopEnd.running)) := by
  obtain ⟨htr, hfin⟩ := tran_head_invariant cfg clamp g evs hS hT hM hev
  refine ⟨?_, fun hrun => ⟨(hfin hrun).2.1, (hfin hrun).2.2.1⟩, ?_⟩
  · intro t ht
    obtain ⟨a, ha, rfl⟩ := List.mem_map.mp ht
    exact ⟨(htr a ha).2.1, (htr a ha).2.2.1⟩
  · intro x1 r d hrun hr0 hacc hd
    obtain ⟨hdt, hlo, hhi, -, -, -⟩ := hfin hrun
    obtain ⟨s', hb, -, hsnap, hno⟩ := tran_body_accept_snap cfg clamp
      (solve_transient_loop cfg clamp g evs).final x1 r hacc
    have hdpos : 0 < d := by
      rw [hd]
      exact tran_step_control_dt_pos cfg clamp r _ hM hdt hr0
    rw [← hd] at hsnap hno
    have hnext := do_while_snoc_next (tran_cond cfg) (tran_body cfg clamp) evs
      (TranResult.converged x1 r) (tran_start cfg g) s' hrun hb
    have hfinal : (solve_transient_loop cfg clamp g (evs ++ [TranResult.converged x1 r])).final
        = s' := hnext.1
    have hstatus : (solve_transient_loop cfg clamp g (evs ++ [TranResult.converged x1 r])).status
        = if tran_cond cfg s' then LoopEnd.running else LoopEnd.completed := hnext.2
    rw [hfinal, hstatus]
    refine ⟨?_, ?_, ?_⟩
    · intro h1 h2
      obtain ⟨hc, hd2⟩ := hsnap ⟨h1, h2⟩
      refine ⟨hc, hd2, ?_⟩
      have hcond : tran_cond cfg s' = true := by
        simp only [tran_cond, decide_eq_true_eq]
        rw [hc, hd2]
        nlinarith
      rw [hcond]
      rfl
    · intro h1 h2
      obtain ⟨hc, hd2⟩ := hno (fun h => h2 h.2)
      have hcond : tran_cond cfg s' = false := by
        simp only [tran_cond, decide_eq_false_iff_not, not_lt]
        rw [hc, hd2]
        have := not_lt.mp h2
        nlinarith
      rw [hcond]
      refine ⟨rfl, ?_⟩
      intro rest
      unfold solve_transient_loop
      apply do_while_not_running_append
      have hst := hnext.2
      rw [hcond] at hst
      rw [hst]
      decide
    · intro h1
      obtain ⟨hc, hd2⟩ := hno (fun h => absurd h1 (not_le.mpr h.1))
      refine ⟨hc, hd2, ?_⟩
      have hcond : tran_cond cfg s' = true := by
        simp only [tran_cond, decide_eq_true_eq]
        rw [hc, hd2]
        linarith
      rw [hcond]
      rfl

/-- Witness for C31 (amended): the adaptive run from 0 to 10 after two accepted steps and a
divergence. -/
theorem tran_solve_times_in_range_witness :
    tran_cfg_auto.TStart ≤ tran_cfg_auto.TStop ∧ (0 : ℚ) < tran_cfg_auto.TStep ∧
    (tran_cfg_auto.AutoStep = true → (0 : ℚ) < tran_cfg_auto.TStepMax) ∧
    (∀ e ∈ tran_two_converged ++ [TranResult.diverged 0 0], ∀ (x : ℚ) (q : ℚ),
      e = TranResult.converged x q → 0 < q) ∧
    ∀ t ∈ tran_solve_times (solve_transient_loop tran_cfg_auto no_clamp tran_zero
        (tran_two_converged ++ [TranResult.diverged 0 0])),
      tran_cfg_auto.TStart ≤ t ∧ t ≤ tran_cfg_auto.TStop :=
  have hS : tran_cfg_auto.TStart ≤ tran_cfg_auto.TStop := by norm_num [tran_cfg_auto]
  have hT : (0 : ℚ) < tran_cfg_auto.TStep := by norm_num [tran_cfg_auto]
  have hM : tran_cfg_auto.AutoStep = true → (0 : ℚ) < tran_cfg_auto.TStepMax :=
    fun _ => by norm_num [tran_cfg_auto]
  have hev : ∀ e ∈ tran_two_converged ++ [TranResult.diverged 0 0], ∀ (x : ℚ) (q : ℚ),
      e = TranResult.converged x q → 0 < q := by
    intro e he x q hx
    rw [hx] at he
    simp [tran_two_converged] at he
    rw [he.2]
    norm_num
  ⟨hS, hT, hM, hev,
    (tran_solve_times_in_range tran_cfg_auto no_clamp tran_zero
      (tran_two_converged ++ [TranResult.diverged 0 0]) hS hT hM hev).1⟩

end TransientRangeTheorems

end MixASolver
